import Mathlib

/-!
# sg_vendor analytics dashboard: the metrics-derivation engine

A shallow embedding of `src/script.js`.  JavaScript values are modelled as follows.

* Strings are Lean strings (sequences of code points; the program only inspects ASCII
  delimiters, so code units and code points agree for every operation used).
* A valid `Date` is its time value, an integer number of milliseconds since the epoch (UTC).
  `Option Int` is a `Date` that may be invalid (`none` is `Invalid Date`).
* The local time zone is a fixed offset from UTC, `Env.tzOffsetMs` (daylight-saving
  transitions are not modelled).
* Amounts and ratios are exact rationals: binary64 rounding and overflow are not modelled.
  `JSNum` adds the two non-finite results a division can produce.
* `Set` is a duplicate-free list in insertion order, `Map` and plain objects used as
  dictionaries are association lists.  Plain objects inherit from `Object.prototype`;
  reading a key that names an inherited member yields that member, see `objGet`.
* Exceptions are the `Except JSError` monad.
-/

set_option autoImplicit false
set_option maxRecDepth 100000

namespace SgVendor

/-! ## Host environment -/

/-- The parts of the JavaScript host that ECMAScript leaves to the implementation or that
depend on where the page runs. -/
structure Env where
  /-- Local time minus UTC, in milliseconds. -/
  tzOffsetMs : Int
  /-- What `Date.parse` returns for a string that is not a calendar-valid `YYYY-MM-DD`
  (implementation-defined formats); `none` is `NaN`. -/
  legacyDateParse : String → Option Int
  /-- Result of `toLowerCase` on a string with a non-ASCII character (Unicode case mapping). -/
  unicodeLower : String → String
  /-- Result of `ToNumber` on a string that is neither blank nor a run of decimal digits;
  `none` is a non-finite result (`NaN` or an infinity). -/
  toNumberOther : String → Option ℚ

/-- An exception raised by the program or by the host. -/
inductive JSError where
  | typeError (msg : String)
  | error (msg : String)
  deriving DecidableEq, Repr

instance exceptDecEq {ε α : Type} [DecidableEq ε] [DecidableEq α] : DecidableEq (Except ε α) :=
  fun a b =>
    match a, b with
    | Except.ok x, Except.ok y =>
      if h : x = y then isTrue (by rw [h]) else isFalse (fun e => h (by injection e))
    | Except.error x, Except.error y =>
      if h : x = y then isTrue (by rw [h]) else isFalse (fun e => h (by injection e))
    | Except.ok _, Except.error _ => isFalse (fun e => by cases e)
    | Except.error _, Except.ok _ => isFalse (fun e => by cases e)

/-- A JavaScript number that results from a division of two counts. -/
inductive JSNum where
  | finite (q : ℚ)
  | infinity
  | nan
  deriving DecidableEq

/-- The quotient `a / b` of two non-negative integers as JavaScript computes it. -/
def jsDivNat (a b : Nat) : JSNum :=
  if b = 0 then (if a = 0 then JSNum.nan else JSNum.infinity)
  else JSNum.finite ((a : ℚ) / (b : ℚ))

/-! ## Strings -/

/-- ECMAScript `WhiteSpace` and `LineTerminator` code points, which `trim` removes. -/
def isJsWhitespace (c : Char) : Bool :=
  decide (c.toNat ∈ [0x09, 0x0A, 0x0B, 0x0C, 0x0D, 0x20, 0xA0, 0x1680, 0x2028, 0x2029,
      0x202F, 0x205F, 0x3000, 0xFEFF]) || decide (0x2000 ≤ c.toNat ∧ c.toNat ≤ 0x200A)

def trimChars (cs : List Char) : List Char :=
  ((cs.dropWhile isJsWhitespace).reverse.dropWhile isJsWhitespace).reverse

/-- `String.prototype.trim`. -/
def jsTrim (s : String) : String := ⟨trimChars s.data⟩

/-- Split a character list at every separator; the result is never empty. -/
def splitChars (sep : Char → Bool) : List Char → List (List Char)
  | [] => [[]]
  | c :: cs =>
    if sep c then [] :: splitChars sep cs
    else
      match splitChars sep cs with
      | [] => [[c]]
      | p :: ps => (c :: p) :: ps

/-- `String.prototype.split` with a one-character separator (or a character class). -/
def jsSplit (sep : Char → Bool) (s : String) : List String :=
  (splitChars sep s.data).map String.mk

/-- `Array.prototype.join`. -/
def jsJoin (sep : String) : List String → String
  | [] => ""
  | [s] => s
  | s :: t :: rest => s ++ sep ++ jsJoin sep (t :: rest)

/-- `String.prototype.toLowerCase`: ASCII letters are folded here, any other text is left to
the host's Unicode tables. -/
def toLowerCase (env : Env) (s : String) : String :=
  if s.data.all (fun c => decide (c.toNat < 128)) then ⟨s.data.map Char.toLower⟩
  else env.unicodeLower s

/-- Lexicographic comparison of strings, the order used by `Array.prototype.sort` without a
comparator. -/
def jsStrLe (a b : String) : Prop := a.data ≤ b.data

instance jsStrLe_decidable : DecidableRel jsStrLe :=
  fun a b => inferInstanceAs (Decidable (a.data ≤ b.data))

/-- Strict lexicographic comparison of strings (`a < b` in JavaScript). -/
def jsStrLt (a b : String) : Prop := a.data < b.data

instance jsStrLt_decidable : DecidableRel jsStrLt :=
  fun a b => inferInstanceAs (Decidable (a.data < b.data))

instance jsStrLe_total : IsTotal String jsStrLe :=
  ⟨fun a b => le_total a.data b.data⟩

instance jsStrLe_trans : IsTrans String jsStrLe :=
  ⟨fun a b c (hab : a.data ≤ b.data) (hbc : b.data ≤ c.data) => le_trans hab hbc⟩

/-- `Array.prototype.sort()` on an array of strings. -/
def sortStrings (l : List String) : List String := List.insertionSort jsStrLe l

/-- Decimal value of a run of ASCII digits. -/
def digitsVal (cs : List Char) : Nat :=
  cs.foldl (fun acc c => 10 * acc + (c.toNat - 48)) 0

/-- Number-to-string conversion of an integer (`String(n)` and template literals). -/
def intToString (n : Int) : String := toString n

/-- `String.prototype.padStart(2, "0")`. -/
def padStart2 (s : String) : String :=
  match s.data with
  | [] => "00"
  | [c] => ⟨['0', c]⟩
  | _ => s

/-! ## Sets, maps and plain objects -/

/-- `Set.prototype.add`. -/
def setAdd {α : Type} [DecidableEq α] (s : List α) (x : α) : List α :=
  if x ∈ s then s else s ++ [x]

/-- `new Set(iterable)`. -/
def setOfList {α : Type} [DecidableEq α] (l : List α) : List α := l.foldl setAdd []

/-- `Map.prototype.get`, and own-property lookup on a plain object. -/
def mapGet {α : Type} : List (String × α) → String → Option α
  | [], _ => none
  | (k, v) :: rest, key => if k = key then some v else mapGet rest key

/-- `Map.prototype.set`, and assignment to a property of a plain object. -/
def mapSet {α : Type} : List (String × α) → String → α → List (String × α)
  | [], key, v => [(key, v)]
  | (k, w) :: rest, key, v =>
    if k = key then (k, v) :: rest else (k, w) :: mapSet rest key v

/-- Names of the members every plain object inherits from `Object.prototype`. -/
def objectPrototypeKeys : List String :=
  ["constructor", "__defineGetter__", "__defineSetter__", "hasOwnProperty",
   "__lookupGetter__", "__lookupSetter__", "isPrototypeOf", "propertyIsEnumerable",
   "toString", "valueOf", "__proto__", "toLocaleString"]

/-- Result of reading `obj[key]` on a plain object created by `{}`. -/
inductive Lookup (α : Type) where
  /-- An own property, holding a value the program stored. -/
  | own (v : α)
  /-- A member inherited from `Object.prototype`: a function or an object, truthy. -/
  | inherited
  /-- No such property: `undefined`. -/
  | missing

/-- Property read `obj[key]` on a plain object used as a dictionary. -/
def objGet {α : Type} (o : List (String × α)) (key : String) : Lookup α :=
  match mapGet o key with
  | some v => Lookup.own v
  | none => if key ∈ objectPrototypeKeys then Lookup.inherited else Lookup.missing

/-! ## Dates (ECMAScript time values) -/

def msPerDay : Int := 86400000

/-- `Day(t)`. -/
def day (t : Int) : Int := t / msPerDay

/-- `DaysInYear(y)` is 366 exactly for the years this holds of. -/
def inLeapYear (y : Int) : Bool :=
  decide (y % 4 = 0 ∧ (y % 100 ≠ 0 ∨ y % 400 = 0))

/-- `DayFromYear(y)`: day number of 1 January of year `y`. -/
def dayFromYear (y : Int) : Int :=
  365 * (y - 1970) + (y - 1969) / 4 - (y - 1901) / 100 + (y - 1601) / 400

/-- `YearFromTime`, on day numbers: the year `y` with
`dayFromYear y ≤ d < dayFromYear (y + 1)`, found from an estimate that is off by at most one. -/
def yearFromDay (d : Int) : Int :=
  let y0 := 1970 + (400 * d) / 146097
  if dayFromYear (y0 + 1) ≤ d then y0 + 1
  else if d < dayFromYear y0 then y0 - 1
  else y0

/-- Day number, within its year, of the first day of month `m` (0-based). -/
def monthStart (m : Int) (leap : Bool) : Int :=
  let l : Int := if leap then 1 else 0
  if m ≤ 0 then 0
  else if m = 1 then 31
  else if m = 2 then 59 + l
  else if m = 3 then 90 + l
  else if m = 4 then 120 + l
  else if m = 5 then 151 + l
  else if m = 6 then 181 + l
  else if m = 7 then 212 + l
  else if m = 8 then 243 + l
  else if m = 9 then 273 + l
  else if m = 10 then 304 + l
  else 334 + l

/-- `MonthFromTime`, on day numbers: 0 is January. -/
def monthFromDay (d : Int) : Int :=
  let y := yearFromDay d
  let w := d - dayFromYear y
  let leap := inLeapYear y
  if w < monthStart 1 leap then 0
  else if w < monthStart 2 leap then 1
  else if w < monthStart 3 leap then 2
  else if w < monthStart 4 leap then 3
  else if w < monthStart 5 leap then 4
  else if w < monthStart 6 leap then 5
  else if w < monthStart 7 leap then 6
  else if w < monthStart 8 leap then 7
  else if w < monthStart 9 leap then 8
  else if w < monthStart 10 leap then 9
  else if w < monthStart 11 leap then 10
  else 11

/-- `DateFromTime`, on day numbers: the day of the month, from 1. -/
def dateFromDay (d : Int) : Int :=
  let y := yearFromDay d
  d - dayFromYear y - monthStart (monthFromDay d) (inLeapYear y) + 1

/-- `WeekDay`, on day numbers: 0 is Sunday. -/
def weekDay (d : Int) : Int := (d + 4) % 7

/-- `MakeDay(year, month, date)` for integral arguments; `month` is 0-based and may lie
outside `0..11`, `date` may lie outside the month. -/
def makeDay (year month date : Int) : Int :=
  let ym := year + month / 12
  let mn := month % 12
  dayFromYear ym + monthStart mn (inLeapYear ym) + date - 1

/-- `TimeClip`: time values beyond 8.64e15 ms from the epoch are not dates. -/
def timeClip (t : Int) : Option Int :=
  if -8640000000000000 ≤ t ∧ t ≤ 8640000000000000 then some t else none

/-- `LocalTime(t)` in the fixed-offset zone. -/
def localTime (env : Env) (t : Int) : Int := t + env.tzOffsetMs

/-- Local calendar day number of a time value. -/
def localDay (env : Env) (t : Int) : Int := day (localTime env t)

/-- `Date.prototype.getFullYear`. -/
def getFullYear (env : Env) (t : Int) : Int := yearFromDay (localDay env t)

/-- `Date.prototype.getMonth` (0 is January). -/
def getMonth (env : Env) (t : Int) : Int := monthFromDay (localDay env t)

/-- `Date.prototype.getDate`. -/
def getDate (env : Env) (t : Int) : Int := dateFromDay (localDay env t)

/-- The fields `Date.prototype.toDateString` renders (`Fri Jan 05 2024`): two renderings
are the same string exactly when the four fields agree. -/
structure DateString where
  weekday : Int
  month : Int
  date : Int
  year : Int
  deriving DecidableEq, Repr

/-- `Date.prototype.toDateString`. -/
def toDateString (env : Env) (t : Int) : DateString :=
  { weekday := weekDay (localDay env t)
    month := getMonth env t
    date := getDate env t
    year := getFullYear env t }

/-- Helper function to format date to YYYY-MM (`formatYearMonth`, script.js 58-62). -/
def formatYearMonth (env : Env) (date : Int) : String :=
  let year := getFullYear env date
  let month := padStart2 (intToString (getMonth env date + 1))
  intToString year ++ "-" ++ month

/-! ## Parsing helpers (script.js 30-109) -/

/-- The scan of `parseCSVLine`; `skip` is set when the previous step consumed this character
as the second quote of an escaped pair (the `i++` in the source). -/
def parseCSVLoop : List Char → List Char → Bool → Bool → List String → List String
  | [], current, _, _, result => result ++ [jsTrim ⟨current⟩]
  | c :: rest, current, inQuotes, skip, result =>
    if skip then parseCSVLoop rest current inQuotes false result
    else if c = '"' then
      if inQuotes ∧ rest.head? = some '"' then
        parseCSVLoop rest (current ++ ['"']) inQuotes true result
      else parseCSVLoop rest current (!inQuotes) false result
    else if c = ',' ∧ inQuotes = false then
      parseCSVLoop rest [] inQuotes false (result ++ [jsTrim ⟨current⟩])
    else parseCSVLoop rest (current ++ [c]) inQuotes false result

/-- Helper function to parse CSV line considering quoted fields (script.js 65-91). -/
def parseCSVLine (line : String) : List String :=
  parseCSVLoop line.data [] false false []

/-- Helper function to extract location from business name (script.js 94-100). -/
def extractLocation (businessName : String) : String :=
  let parts := jsSplit (fun c => c == '-') businessName
  if parts.length > 1 then jsTrim (parts.getLastD "") else "Unknown"

/-- Helper function to extract business name without location (script.js 103-109). -/
def extractBusinessName (fullName : String) : String :=
  let parts := jsSplit (fun c => c == '-') fullName
  if parts.length > 1 then jsTrim (jsJoin "-" parts.dropLast) else jsTrim fullName

/-- The replacement `.replace(/[^0-9.-]+/g, "")`. -/
def stripNonNumeric (s : String) : String :=
  ⟨s.data.filter (fun c => c.isDigit || c == '.' || c == '-')⟩

/-- `parseFloat` on a string made of digits, `.` and `-` (all that the program passes):
the longest prefix that is a decimal literal, `none` (NaN) when there is none. -/
def parseFloat (s : String) : Option ℚ :=
  let neg : Bool := s.data.head? = some '-'
  let rest := if neg then s.data.tail else s.data
  let intDigits := rest.takeWhile Char.isDigit
  let afterInt := rest.dropWhile Char.isDigit
  let fracDigits :=
    if afterInt.head? = some '.' then afterInt.tail.takeWhile Char.isDigit else []
  if intDigits = [] ∧ fracDigits = [] then none
  else
    let v : ℚ := (digitsVal (intDigits ++ fracDigits) : ℚ) / (10 : ℚ) ^ fracDigits.length
    some (if neg then -v else v)

/-- `ToNumber` applied to a string. -/
def stringToNumber (env : Env) (s : String) : Option ℚ :=
  let t := jsTrim s
  if t.data = [] then some 0
  else if t.data.all Char.isDigit then some (digitsVal t.data : ℚ)
  else env.toNumberOther s

/-- `ToIntegerOrInfinity` on a finite number: truncation towards zero. -/
def truncate (q : ℚ) : Int := if 0 ≤ q then ⌊q⌋ else -⌊-q⌋

/-- `new Date(year, month, date)`: local midnight of the (normalised) calendar date;
`none` is `Invalid Date`. -/
def newDateYMD (env : Env) (year month date : Option ℚ) : Option Int :=
  match year, month, date with
  | some y, some m, some d =>
    let yi := truncate y
    let yr := if 0 ≤ yi ∧ yi ≤ 99 then 1900 + yi else yi
    timeClip (makeDay yr (truncate m) (truncate d) * msPerDay - env.tzOffsetMs)
  | _, _, _ => none

/-- Number of days of month `m` (0-based) in year `y`. -/
def daysInMonth (y m : Int) : Int :=
  if m = 11 then 31
  else monthStart (m + 1) (inLeapYear y) - monthStart m (inLeapYear y)

/-- The ECMAScript date-only format `YYYY-MM-DD` naming a calendar date: UTC midnight. -/
def isoDateOnly (s : String) : Option Int :=
  match s.data with
  | [y1, y2, y3, y4, s1, m1, m2, s2, d1, d2] =>
    if s1 = '-' ∧ s2 = '-' ∧ [y1, y2, y3, y4, m1, m2, d1, d2].all Char.isDigit then
      let y : Int := digitsVal [y1, y2, y3, y4]
      let m : Int := digitsVal [m1, m2]
      let d : Int := digitsVal [d1, d2]
      if 1 ≤ m ∧ m ≤ 12 ∧ 1 ≤ d ∧ d ≤ daysInMonth y (m - 1) then
        some (makeDay y (m - 1) d * msPerDay)
      else none
    else none
  | _ => none

/-- `new Date(dateStr).getTime()`, `none` when it is `NaN`. -/
def nativeDateParse (env : Env) (s : String) : Option Int :=
  match isoDateOnly s with
  | some t => some t
  | none => env.legacyDateParse s

/-- Helper function to parse dates (script.js 31-55).  The argument is `none` when the
caller passes `undefined`. -/
def parseDate (env : Env) (dateStr : Option String) : Except JSError Int :=
  match dateStr with
  | none => Except.error (JSError.typeError "Cannot read properties of undefined (reading 'split')")
  | some s =>
    match nativeDateParse env s with
    | some t => Except.ok t
    | none =>
      match jsSplit (fun c => c == '/' || c == '-') s with
      | [p0, p1, p2] =>
        let possibleDates : List (Option Int) :=
          [ newDateYMD env (stringToNumber env p2) ((stringToNumber env p1).map (fun n => n - 1))
              (stringToNumber env p0),
            newDateYMD env (stringToNumber env p2) ((stringToNumber env p0).map (fun n => n - 1))
              (stringToNumber env p1) ]
        match possibleDates.filterMap id with
        | t :: _ => Except.ok t
        | [] => Except.error (JSError.error ("Invalid date format: " ++ s))
      | _ => Except.error (JSError.error ("Invalid date format: " ++ s))

/-! ## Data model and global state (script.js 4-20) -/

/-- One row of `transactionData`. -/
structure Transaction where
  email : String
  merchant : String
  date : Int
  amount : ℚ
  deriving DecidableEq

/-- A date range held by `currentDateRange` or `previousDateRange`: two `Date` objects. -/
abbrev DateRange := Option Int × Option Int

/-- The global variables of script.js that the metrics engine reads and writes. -/
structure State where
  transactionData : List Transaction
  selectedBusiness : String
  selectedLocation : String
  currentDateRange : Option DateRange
  previousDateRange : Option DateRange
  returningWindow : Nat
  firstTimeUsersThreshold : Nat
  globalUserFirstVisit : List (String × Int)
  globalUserBusinessFirstVisit : List (String × Int)

/-- The globals as initialised when the script is loaded. -/
def initialState : State :=
  { transactionData := []
    selectedBusiness := "all"
    selectedLocation := "all"
    currentDateRange := none
    previousDateRange := none
    returningWindow := 1
    firstTimeUsersThreshold := 1
    globalUserFirstVisit := []
    globalUserBusinessFirstVisit := [] }

/-! ## First-visit tracker (script.js 297-322) -/

/-- One `has`/`set`/`get` round on a first-visit map: keep the smaller date. -/
def firstVisitStep (m : List (String × Int)) (key : String) (date : Int) : List (String × Int) :=
  match mapGet m key with
  | none => mapSet m key date
  | some cur => if date < cur then mapSet m key date else m

/-- The key under which a user-business pair is stored. -/
def userBusinessKey (email businessName : String) : String :=
  email ++ "-" ++ businessName

/-- The key of `globalUserFirstVisit` for a record. -/
def globalKey (item : Transaction) : String := item.email

/-- The key of `globalUserBusinessFirstVisit` for a record. -/
def businessKey (item : Transaction) : String :=
  userBusinessKey item.email (extractBusinessName item.merchant)

/-- `v` is the earliest date among the records of `l` whose key is `k`. -/
def IsEarliest (key : Transaction → String) (l : List Transaction) (k : String) (v : Int) : Prop :=
  (∃ t ∈ l, key t = k ∧ t.date = v) ∧ ∀ t ∈ l, key t = k → v ≤ t.date

/-- The body of the `forEach` in `calculateFirstVisitDates`. -/
def firstVisitItem (acc : List (String × Int) × List (String × Int)) (item : Transaction) :
    List (String × Int) × List (String × Int) :=
  let businessName := extractBusinessName item.merchant
  (firstVisitStep acc.1 item.email item.date,
   firstVisitStep acc.2 (userBusinessKey item.email businessName) item.date)

/-- The function `calculateFirstVisitDates`: both maps are cleared, then rebuilt; the result
is (`globalUserFirstVisit`, `globalUserBusinessFirstVisit`). -/
def calculateFirstVisitDates (transactions : List Transaction) :
    List (String × Int) × List (String × Int) :=
  transactions.foldl firstVisitItem ([], [])

/-! ## Loading (script.js 324-416) -/

/-- `Array.prototype.findIndex`; `none` stands for `-1`. -/
def findIndex (p : String → Bool) : List String → Option Nat
  | [] => none
  | h :: t => if p h then some 0 else (findIndex p t).map (fun i => i + 1)

/-- One data line of the file: the record it yields, or `none` when the row is skipped
(validation fails, or an exception is caught by the `try` around the row). -/
def rowOfLine (env : Env) (iEmail iMerchant iDate iAmount : Nat) (line : String) :
    Option Transaction :=
  let values := parseCSVLine line
  match parseDate env (values.get? iDate) with
  | Except.error _ => none
  | Except.ok date =>
    match values.get? iAmount with
    | none => none
    | some rawAmount =>
      match parseFloat (stripNonNumeric rawAmount), values.get? iEmail, values.get? iMerchant with
      | some amount, some email, some merchant =>
        if email = "" ∨ merchant = "" then none
        else some { email := email, merchant := merchant, date := date, amount := amount }
      | _, _, _ => none

/-- The loop over the data lines in `processData`. -/
def rowsOfLines (env : Env) (iEmail iMerchant iDate iAmount : Nat) (lines : List String) :
    List Transaction :=
  lines.filterMap (fun raw =>
    let line := jsTrim raw
    if line = "" then none else rowOfLine env iEmail iMerchant iDate iAmount line)

/-- Names of the required columns whose index is `-1`, in the order of `columnIndices`. -/
def missingColumns (iEmail iMerchant iDate iAmount : Option Nat) : List String :=
  ([("email", iEmail), ("merchant", iMerchant), ("date", iDate), ("amount", iAmount)].filter
    (fun p => p.2.isNone)).map (fun p => p.1)

/-- The function `processData`.  An exception leaves the globals as they were. -/
def processData (env : Env) (csvText : String) (st : State) : Except JSError State :=
  let lines := jsSplit (fun c => c == '\n') csvText
  let headers := parseCSVLine (toLowerCase env (lines.headD ""))
  let iEmail := findIndex (fun h => ["user email"].contains h) headers
  let iMerchant := findIndex (fun h => ["merchant"].contains h) headers
  let iDate := findIndex (fun h => ["date"].contains h) headers
  let iAmount := findIndex (fun h => ["transaction amount"].contains h) headers
  match iEmail, iMerchant, iDate, iAmount with
  | some ie, some im, some id, some ia =>
    let transactionData := rowsOfLines env ie im id ia lines.tail
    let firstVisits := calculateFirstVisitDates transactionData
    Except.ok { st with
      transactionData := transactionData
      globalUserFirstVisit := firstVisits.1
      globalUserBusinessFirstVisit := firstVisits.2
      selectedBusiness := "all"
      selectedLocation := "all" }
  | _, _, _, _ =>
    Except.error (JSError.error ("Missing required columns: "
      ++ jsJoin ", " (missingColumns iEmail iMerchant iDate iAmount)
      ++ ". Please ensure your CSV file has the necessary columns."))

/-! ## Period filter (script.js 632-678, 1316-1346) -/

/-- `d.setDate(d.getDate() + n)` in the fixed-offset zone: the same local time of day, `n`
days later (`TimeClip` applies). -/
def addDays (d : Option Int) (n : Int) : Option Int :=
  d.bind (fun t => timeClip (t + n * msPerDay))

/-- `d.setHours(0, 0, 0, 0)`: local midnight of the same local day. -/
def startOfDay (env : Env) (d : Option Int) : Option Int :=
  d.bind (fun t => timeClip (localDay env t * msPerDay - env.tzOffsetMs))

/-- `d.setHours(23, 59, 59, 999)`: last millisecond of the same local day. -/
def endOfDay (env : Env) (d : Option Int) : Option Int :=
  d.bind (fun t => timeClip (localDay env t * msPerDay + 86399999 - env.tzOffsetMs))

/-- The comparison `date >= startDate && date <= endDate`; a comparison with an invalid
date is false. -/
def dateInRange (startDate endDate : Option Int) (date : Int) : Bool :=
  match startDate, endDate with
  | some s, some e => decide (s ≤ date ∧ date ≤ e)
  | _, _ => false

/-- The date filter of `updateDashboard` for one range. -/
def filterByRange (env : Env) (range : DateRange) (data : List Transaction) : List Transaction :=
  data.filter (fun item => dateInRange (startOfDay env range.1) (endOfDay env range.2) item.date)

/-- The business and location filter of `filterAndUpdateDashboard` (script.js 639-650). -/
def filterByBusiness (st : State) : List Transaction :=
  if st.selectedBusiness ≠ "all" ∨ st.selectedLocation ≠ "all" then
    st.transactionData.filter (fun item =>
      let businessName := extractBusinessName item.merchant
      let location := extractLocation item.merchant
      let businessMatch := st.selectedBusiness = "all" ∨ businessName = st.selectedBusiness
      let locationMatch := st.selectedLocation = "all" ∨ location = st.selectedLocation
      decide (businessMatch ∧ locationMatch))
  else st.transactionData

/-- The comparator `(a, b) => a.date - b.date`. -/
def dateLe (a b : Transaction) : Prop := a.date ≤ b.date

instance dateLe_decidable : DecidableRel dateLe :=
  fun a b => inferInstanceAs (Decidable (a.date ≤ b.date))

/-- The default periods of `filterAndUpdateDashboard` (script.js 653-674): the globals after
the `if`. -/
def setDefaultPeriods (st : State) (filteredData : List Transaction) : State :=
  if st.currentDateRange.isNone ∧ filteredData ≠ [] then
    let sortedData := List.insertionSort dateLe filteredData
    let lastTransactionDate : Option Int := sortedData.getLast?.map (fun item => item.date)
    let currentEnd := lastTransactionDate
    let currentStart := addDays currentEnd (-29)
    let previousEnd := addDays currentStart (-1)
    let previousStart := addDays previousEnd (-29)
    { st with
      currentDateRange := some (currentStart, currentEnd)
      previousDateRange := some (previousStart, previousEnd) }
  else st

/-! ## Monthly aggregator (script.js 1212-1314) -/

/-- One entry of `monthlyData`.  `avgVisits` is `none` until the second pass assigns it. -/
structure MonthBucket where
  users : List String
  returningUsers : List String
  lastMonthReturningUsers : List String
  firstTimeUsers : List String
  amount : ℚ
  visits : List (String × List DateString)
  avgVisits : Option JSNum
  deriving DecidableEq

/-- The object literal a month starts from. -/
def emptyBucket : MonthBucket :=
  { users := [], returningUsers := [], lastMonthReturningUsers := [], firstTimeUsers := []
    amount := 0, visits := [], avgVisits := none }

/-- The records of `data` that fall in the month with key `K`. -/
def monthRecords (env : Env) (data : List Transaction) (K : String) : List Transaction :=
  data.filter (fun t => decide (formatYearMonth env t.date = K))

/-- The distinct date strings of the records of month `K` made by `email`, in order of first
occurrence. -/
def userDays (env : Env) (data : List Transaction) (K email : String) : List DateString :=
  setOfList (((monthRecords env data K).filter (fun t => decide (t.email = email))).map
    (fun t => toDateString env t.date))

/-- The distinct emails of the records of month `K`, in order of first occurrence. -/
def monthUsers (env : Env) (data : List Transaction) (K : String) : List String :=
  setOfList ((monthRecords env data K).map (fun t => t.email))

/-- The bucket of month `K` described directly from the records: what the first pass of
`updateCharts` is shown to build (`groupByMonth_spec`). -/
def groupedBucket (env : Env) (data : List Transaction) (K : String) : MonthBucket :=
  { users := monthUsers env data K
    returningUsers := []
    lastMonthReturningUsers := []
    firstTimeUsers := []
    amount := ((monthRecords env data K).map (fun t => t.amount)).sum
    visits := (monthUsers env data K).map (fun e => (e, userDays env data K e))
    avgVisits := none }

/-- Number of distinct local calendar days on which `email` has a record in month `K`. -/
def distinctDayCount (env : Env) (data : List Transaction) (K email : String) : Nat :=
  ((((monthRecords env data K).filter (fun t => decide (t.email = email))).map
    (fun t => localDay env t.date)).toFinset).card

/-- The distinct emails of the records of month `K`, as a finite set. -/
def monthEmails (env : Env) (data : List Transaction) (K : String) : Finset String :=
  ((monthRecords env data K).map (fun t => t.email)).toFinset

/-- `monthlyData` holds exactly the months that occur in `pre`, each with the bucket that
`groupedBucket` describes, and no email of `pre` names a member of `Object.prototype`. -/
def Grouped (env : Env) (pre : List Transaction) (acc : List (String × MonthBucket)) : Prop :=
  (acc.map Prod.fst).Nodup ∧
  (∀ K, monthRecords env pre K = [] → mapGet acc K = none) ∧
  (∀ K, monthRecords env pre K ≠ [] → mapGet acc K = some (groupedBucket env pre K)) ∧
  (∀ u ∈ pre, u.email ∉ objectPrototypeKeys)

/-- The statements `if (!visits[email]) visits[email] = new Set(); visits[email].add(day)` on
a plain object `visits`.  An email that names a member of `Object.prototype` reads as that
member, which has no `add` method. -/
def trackVisit (visits : List (String × List DateString)) (email : String) (d : DateString) :
    Except JSError (List (String × List DateString)) :=
  match objGet visits email with
  | Lookup.own dates => Except.ok (mapSet visits email (setAdd dates d))
  | Lookup.missing => Except.ok (mapSet visits email [d])
  | Lookup.inherited => Except.error (JSError.typeError "visits[email].add is not a function")

/-- The statement `if (!monthlyData[monthYear]) monthlyData[monthYear] = {...}` followed by
the reads of `monthlyData[monthYear]`: the bucket the record is added to.  A key that names a
member of `Object.prototype` would read as that member, which has no `users`. -/
def bucketFor (monthlyData : List (String × MonthBucket)) (monthYear : String) :
    Except JSError MonthBucket :=
  match objGet monthlyData monthYear with
  | Lookup.own b => Except.ok b
  | Lookup.missing => Except.ok emptyBucket
  | Lookup.inherited =>
    Except.error (JSError.typeError "Cannot read properties of undefined (reading 'add')")

/-- The body of the first `forEach` of `updateCharts` (script.js 1217-1238). -/
def groupItem (env : Env) (monthlyData : List (String × MonthBucket)) (item : Transaction) :
    Except JSError (List (String × MonthBucket)) :=
  let monthYear := formatYearMonth env item.date
  match bucketFor monthlyData monthYear with
  | Except.error e => Except.error e
  | Except.ok bucket =>
    match trackVisit bucket.visits item.email (toDateString env item.date) with
    | Except.error e => Except.error e
    | Except.ok visits =>
      Except.ok (mapSet monthlyData monthYear
        { bucket with
          users := setAdd bucket.users item.email
          amount := bucket.amount + item.amount
          visits := visits })

/-- The first pass of `updateCharts`: group the records by month. -/
def groupByMonth (env : Env) : List (String × MonthBucket) → List Transaction →
    Except JSError (List (String × MonthBucket))
  | monthlyData, [] => Except.ok monthlyData
  | monthlyData, item :: rest =>
    match groupItem env monthlyData item with
    | Except.error e => Except.error e
    | Except.ok next => groupByMonth env next rest

/-- The decision taken for one user of a month in the first-time-users loop
(script.js 1247-1272): `ok true` when the email is added to `firstTimeUsers`. -/
def isFirstTimeUser (env : Env) (st : State) (month email : String) : Except JSError Bool :=
  if st.selectedBusiness = "all" then Except.ok false
  else
    match mapGet st.globalUserBusinessFirstVisit (userBusinessKey email st.selectedBusiness) with
    | none => Except.ok false
    | some businessFirstVisit =>
      if formatYearMonth env businessFirstVisit ≠ month then Except.ok false
      else
        match mapGet st.globalUserFirstVisit email with
        | none =>
          Except.error (JSError.typeError "Cannot read properties of undefined (reading 'getTime')")
        | some userFirstEverVisit =>
          let daysDiff : ℚ := ((businessFirstVisit - userFirstEverVisit : Int) : ℚ) / 86400000
          Except.ok (decide (daysDiff ≥ (st.firstTimeUsersThreshold : ℚ)))

/-- The first-time-users loop over the users of a month. -/
def firstTimeUsersOf (env : Env) (st : State) (month : String) :
    List String → List String → Except JSError (List String)
  | acc, [] => Except.ok acc
  | acc, email :: rest =>
    match isFirstTimeUser env st month email with
    | Except.error e => Except.error e
    | Except.ok true => firstTimeUsersOf env st month (setAdd acc email) rest
    | Except.ok false => firstTimeUsersOf env st month acc rest

/-- `Array.prototype.indexOf`, `-1` when absent. -/
def indexOf (l : List String) (x : String) : Int :=
  match findIndex (fun y => y == x) l with
  | some i => (i : Int)
  | none => -1

/-- Array read `arr[i]` for an integer `i`: `undefined` outside the array. -/
def arrayGet (l : List String) (i : Int) : Option String :=
  if i < 0 then none else l.get? i.toNat

/-- The users that one round of the returning-window loop adds (script.js 1285-1288):
those of the bucket `i` places before `month` in `sortedMonths`, none when
`sortedMonths[indexOf(month) - i]` is `undefined`. -/
def usersAtOffset (monthlyData : List (String × MonthBucket)) (sortedMonths : List String)
    (month : String) (i : Int) : List String :=
  match arrayGet sortedMonths (indexOf sortedMonths month - i) with
  | none => []
  | some previousMonth =>
    match mapGet monthlyData previousMonth with
    | none => []
    | some b => b.users

/-- The loop `for (let i = 1; i <= returningWindow; i++)` (script.js 1284-1289), run for
`i = 1, ..., window`: the set `previousMonthsUsers`. -/
def previousMonthsUsers (monthlyData : List (String × MonthBucket)) (sortedMonths : List String)
    (month : String) (window : Nat) : List String :=
  ((List.range window).map (fun (j : Nat) => (j : Int) + 1)).foldl
    (fun acc i => (usersAtOffset monthlyData sortedMonths month i).foldl setAdd acc) []

/-- The body of the second `forEach` of `updateCharts` (script.js 1242-1298) for one month:
the bucket of `month` with its derived fields assigned. -/
def finishBucket (env : Env) (st : State) (monthlyData : List (String × MonthBucket))
    (sortedMonths : List String) (month : String) (bucket : MonthBucket) :
    Except JSError MonthBucket :=
  match firstTimeUsersOf env st month [] bucket.users with
  | Except.error e => Except.error e
  | Except.ok firstTimeUsers =>
    let returningUsers :=
      setOfList ((bucket.visits.filter (fun p => decide (p.2.length > 1))).map (fun p => p.1))
    let lastMonthReturningUsers :=
      if month ≠ "" ∧ st.returningWindow > 0 then
        setOfList (bucket.users.filter (fun email =>
          decide (email ∈ previousMonthsUsers monthlyData sortedMonths month st.returningWindow)))
      else bucket.lastMonthReturningUsers
    let totalVisits := (bucket.visits.map (fun p => p.2.length)).sum
    Except.ok { bucket with
      firstTimeUsers := firstTimeUsers
      returningUsers := returningUsers
      lastMonthReturningUsers := lastMonthReturningUsers
      avgVisits := some (jsDivNat totalVisits bucket.users.length) }

/-- The second pass of `updateCharts`: `sortedMonths.forEach`, over the months still to
visit.  Every month visited is an own key of `monthlyData`. -/
def finishMonths (env : Env) (st : State) (sortedMonths : List String) :
    List (String × MonthBucket) → List String → Except JSError (List (String × MonthBucket))
  | monthlyData, [] => Except.ok monthlyData
  | monthlyData, month :: rest =>
    match finishBucket env st monthlyData sortedMonths month
        ((mapGet monthlyData month).getD emptyBucket) with
    | Except.error e => Except.error e
    | Except.ok b => finishMonths env st sortedMonths (mapSet monthlyData month b) rest

/-- The object `monthlyData` at the end of `updateCharts`. -/
def monthlyBuckets (env : Env) (st : State) (data : List Transaction) :
    Except JSError (List (String × MonthBucket)) :=
  match groupByMonth env [] data with
  | Except.error e => Except.error e
  | Except.ok grouped =>
    let sortedMonths := sortStrings (grouped.map (fun p => p.1))
    finishMonths env st sortedMonths grouped sortedMonths

/-- The object handed to the chart renderer. -/
structure ChartData where
  labels : List String
  uniqueUsers : List Nat
  returningUsers : List Nat
  lastMonthReturningUsers : List Nat
  firstTimeUsers : List Nat
  totalAmount : List ℚ
  avgVisits : List (Option JSNum)
  deriving DecidableEq

/-- The `chartData` literal (script.js 1301-1310). -/
def chartDataOf (monthlyData : List (String × MonthBucket)) : ChartData :=
  let labels := sortStrings (monthlyData.map (fun p => p.1))
  let bucket := fun month => (mapGet monthlyData month).getD emptyBucket
  { labels := labels
    uniqueUsers := labels.map (fun month => (bucket month).users.length)
    returningUsers := labels.map (fun month => (bucket month).returningUsers.length)
    lastMonthReturningUsers := labels.map (fun month => (bucket month).lastMonthReturningUsers.length)
    firstTimeUsers := labels.map (fun month => (bucket month).firstTimeUsers.length)
    totalAmount := labels.map (fun month => (bucket month).amount)
    avgVisits := labels.map (fun month => (bucket month).avgVisits) }

/-- The function `updateCharts`: the series it hands to `initMetricsCharts`, or the
exception it raises. -/
def updateCharts (env : Env) (st : State) (data : List Transaction) : Except JSError ChartData :=
  match monthlyBuckets env st data with
  | Except.error e => Except.error e
  | Except.ok monthlyData => Except.ok (chartDataOf monthlyData)

/-! ## Scalar summaries (script.js 707-723, 1316-1428) -/

/-- The statements `if (!userVisits[email]) userVisits[email] = 0; userVisits[email]++` on a
plain object.  A stored count is `none` when it is `NaN`.  An inherited member is truthy, so
it is not reset; incrementing it gives `NaN`, which is stored as an own property, except for
`__proto__`, whose setter ignores a number. -/
def countVisit (userVisits : List (String × Option Nat)) (email : String) :
    List (String × Option Nat) :=
  match objGet userVisits email with
  | Lookup.missing => mapSet userVisits email (some 1)
  | Lookup.own none => mapSet userVisits email (some 1)
  | Lookup.own (some n) =>
    if n = 0 then mapSet userVisits email (some 1) else mapSet userVisits email (some (n + 1))
  | Lookup.inherited =>
    if email = "__proto__" then userVisits else mapSet userVisits email none

/-- The sum `Object.values(userVisits).reduce((sum, visits) => sum + visits, 0)`; `none` is
`NaN`. -/
def sumVisits : List (String × Option Nat) → Option Nat
  | [] => some 0
  | (_, v) :: rest =>
    match v, sumVisits rest with
    | some n, some s => some (n + s)
    | _, _ => none

/-- The function `calculateAverageVisits` (script.js 707-723). -/
def calculateAverageVisits (data : List Transaction) : JSNum :=
  let userVisits := data.foldl (fun acc item => countVisit acc item.email) []
  let totalUsers := userVisits.length
  if totalUsers = 0 then JSNum.finite 0
  else
    match sumVisits userVisits with
    | some totalVisits => jsDivNat totalVisits totalUsers
    | none => JSNum.nan

/-- The loop that fills `userVisits` in `updateDashboard` (script.js 1365-1371). -/
def userVisitDays (env : Env) : List (String × List DateString) → List Transaction →
    Except JSError (List (String × List DateString))
  | userVisits, [] => Except.ok userVisits
  | userVisits, item :: rest =>
    match trackVisit userVisits item.email (toDateString env item.date) with
    | Except.error e => Except.error e
    | Except.ok next => userVisitDays env next rest

/-- The current-period subset computed by `updateDashboard` (script.js 1320-1332). -/
def currentPeriodData (env : Env) (st : State) (data : List Transaction) : List Transaction :=
  match st.currentDateRange with
  | some range => filterByRange env range data
  | none => data

/-- The previous-period subset computed by `updateDashboard` (script.js 1334-1346). -/
def previousPeriodData (env : Env) (st : State) (data : List Transaction) : List Transaction :=
  match st.previousDateRange with
  | some range => filterByRange env range data
  | none => []

/-- What `updateDashboard` shows: the scalar figures of both periods and the monthly series.
`charts` is `none` when the current subset is empty or `updateCharts` raised (the exception
is caught and logged). -/
structure Dashboard where
  uniqueUsers : Nat
  uniqueUsersPrev : Nat
  returningUsers : Nat
  returningUsersPrev : Nat
  totalAmount : ℚ
  totalAmountPrev : ℚ
  avgVisits : JSNum
  avgVisitsPrev : JSNum
  charts : Option ChartData

/-- The function `updateDashboard`; the growth figures it displays are `calculateGrowth` of
the scalar pairs returned here. -/
def updateDashboard (env : Env) (st : State) (data : List Transaction) :
    Except JSError Dashboard :=
  let filteredData := currentPeriodData env st data
  let previousData := previousPeriodData env st data
  match userVisitDays env [] filteredData with
  | Except.error e => Except.error e
  | Except.ok userVisits =>
    match userVisitDays env [] previousData with
    | Except.error e => Except.error e
    | Except.ok userVisitsPrev =>
      Except.ok
        { uniqueUsers := (setOfList (filteredData.map (fun item => item.email))).length
          uniqueUsersPrev := (setOfList (previousData.map (fun item => item.email))).length
          returningUsers := (userVisits.filter (fun p => decide (p.2.length > 1))).length
          returningUsersPrev := (userVisitsPrev.filter (fun p => decide (p.2.length > 1))).length
          totalAmount := filteredData.foldl (fun sum item => sum + item.amount) 0
          totalAmountPrev := previousData.foldl (fun sum item => sum + item.amount) 0
          avgVisits := calculateAverageVisits filteredData
          avgVisitsPrev := calculateAverageVisits previousData
          charts :=
            if filteredData.length > 0 then
              match updateCharts env st filteredData with
              | Except.ok c => some c
              | Except.error _ => none
            else none }

/-- The function `filterAndUpdateDashboard`: the globals after the call, and what
`updateDashboard` produced. -/
def filterAndUpdateDashboard (env : Env) (st : State) : State × Except JSError Dashboard :=
  let filteredData := filterByBusiness st
  let st1 := setDefaultPeriods st filteredData
  (st1, updateDashboard env st1 filteredData)

/-! ## Calendar order of months -/

/-- The calendar month of `d1` is earlier than the calendar month of `d2` (local time). -/
def calendarMonthBefore (env : Env) (d1 d2 : Int) : Prop :=
  getFullYear env d1 < getFullYear env d2 ∨
    (getFullYear env d1 = getFullYear env d2 ∧ getMonth env d1 < getMonth env d2)

instance calendarMonthBefore_decidable (env : Env) (d1 d2 : Int) :
    Decidable (calendarMonthBefore env d1 d2) :=
  inferInstanceAs (Decidable (_ ∨ _))

/-- The local year of `d` is written with four digits. -/
def fourDigitYear (env : Env) (d : Int) : Prop :=
  1000 ≤ getFullYear env d ∧ getFullYear env d ≤ 9999

/-! ## Sample inputs -/

/-- A host in the UTC zone whose implementation-defined parsers accept nothing. -/
def utcEnv : Env :=
  { tzOffsetMs := 0
    legacyDateParse := fun _ => none
    unicodeLower := fun s => s
    toNumberOther := fun _ => none }

/-- Three months of records: Ann visits "Cafe" in January (twice on the 5th, once on the
20th) and in March, Bob visits "Cafe" in January and February and "Deli" in December 2023. -/
def sampleData : List Transaction :=
  [ { email := "bob@x.com", merchant := "Deli-LA", date := 1702641600000, amount := 7 },
    { email := "ann@x.com", merchant := "Cafe-NY", date := 1704412800000, amount := 10 },
    { email := "ann@x.com", merchant := "Cafe-NY", date := 1704448800000, amount := 4 },
    { email := "ann@x.com", merchant := "Cafe-NY", date := 1705708800000, amount := 20 },
    { email := "bob@x.com", merchant := "Cafe-LA", date := 1704844800000, amount := 5 },
    { email := "bob@x.com", merchant := "Cafe-LA", date := 1707523200000, amount := 8 },
    { email := "ann@x.com", merchant := "Cafe-NY", date := 1710028800000, amount := 3 } ]

/-- The globals after `sampleData` is loaded, with business "Cafe" selected, a returning
window of 2 months and a first-time threshold of 10 days. -/
def sampleState : State :=
  { initialState with
    transactionData := sampleData
    globalUserFirstVisit := (calculateFirstVisitDates sampleData).1
    globalUserBusinessFirstVisit := (calculateFirstVisitDates sampleData).2
    selectedBusiness := "Cafe"
    returningWindow := 2
    firstTimeUsersThreshold := 10 }

/-- The records of `sampleData` at "Cafe", which is what the business filter passes on. -/
def sampleCafe : List Transaction := filterByBusiness sampleState

/-- The object `monthlyData` that `updateCharts` builds from `sampleCafe` in the UTC zone. -/
def sampleBuckets : List (String × MonthBucket) :=
  [ ("2024-01",
      { users := ["ann@x.com", "bob@x.com"]
        returningUsers := ["ann@x.com"]
        lastMonthReturningUsers := []
        firstTimeUsers := ["bob@x.com"]
        amount := 39
        visits := [("ann@x.com", [⟨5, 0, 5, 2024⟩, ⟨6, 0, 20, 2024⟩]),
                   ("bob@x.com", [⟨3, 0, 10, 2024⟩])]
        avgVisits := some (JSNum.finite (3 / 2)) }),
    ("2024-02",
      { users := ["bob@x.com"]
        returningUsers := []
        lastMonthReturningUsers := ["bob@x.com"]
        firstTimeUsers := []
        amount := 8
        visits := [("bob@x.com", [⟨6, 1, 10, 2024⟩])]
        avgVisits := some (JSNum.finite 1) }),
    ("2024-03",
      { users := ["ann@x.com"]
        returningUsers := []
        lastMonthReturningUsers := ["ann@x.com"]
        firstTimeUsers := []
        amount := 3
        visits := [("ann@x.com", [⟨0, 2, 10, 2024⟩])]
        avgVisits := some (JSNum.finite 1) }) ]

/-- The series `updateCharts` emits for `sampleCafe` in the UTC zone. -/
def sampleChart : ChartData :=
  { labels := ["2024-01", "2024-02", "2024-03"]
    uniqueUsers := [2, 1, 1]
    returningUsers := [1, 0, 0]
    lastMonthReturningUsers := [0, 1, 1]
    firstTimeUsers := [1, 0, 0]
    totalAmount := [39, 8, 3]
    avgVisits := [some (JSNum.finite (3 / 2)), some (JSNum.finite 1), some (JSNum.finite 1)] }

/-- Two users and two businesses whose first-visit keys coincide: "sam" at "7-Eleven" and
"sam-7" at "Eleven" are both stored under "sam-7-Eleven". -/
def collisionData : List Transaction :=
  [ { email := "sam", merchant := "7-Eleven-NY", date := 1705708800000, amount := 10 },
    { email := "sam-7", merchant := "Eleven-NY", date := 1704412800000, amount := 5 } ]

/-- One user with two records on the same day (5 January 2024, 00:00 and 10:00 UTC). -/
def sameDayData : List Transaction :=
  [ { email := "a@x.com", merchant := "Store-NY", date := 1704412800000, amount := 10 },
    { email := "a@x.com", merchant := "Store-NY", date := 1704448800000, amount := 20 } ]

/-- A file with a record in December 999 and one in January 1000. -/
def earlyYearsCsv : String :=
  "User Email,Merchant,Date,Transaction Amount\na@x.com,Store-NY,0999-12-15,10.00\na@x.com,Store-NY,1000-01-15,20.00"

/-- The records `processData` reads from `earlyYearsCsv`. -/
def earlyYearsData : List Transaction :=
  [ { email := "a@x.com", merchant := "Store-NY", date := -30611692800000, amount := 10 },
    { email := "a@x.com", merchant := "Store-NY", date := -30609014400000, amount := 20 } ]

/-! ## The end-to-end scenario -/

/-- The file of the scenario. -/
def scenarioCsv : String :=
  "User Email,Merchant,Date,Transaction Amount\na@x.com,Store-NY,2024-01-05,10.00\na@x.com,Store-NY,2024-01-20,20.00\nb@x.com,Store-LA,2024-01-10,5.00"

/-- The records `processData` reads from `scenarioCsv`: date-only strings are UTC midnights. -/
def scenarioRecords : List Transaction :=
  [ { email := "a@x.com", merchant := "Store-NY", date := 1704412800000, amount := 10 },
    { email := "a@x.com", merchant := "Store-NY", date := 1705708800000, amount := 20 },
    { email := "b@x.com", merchant := "Store-LA", date := 1704844800000, amount := 5 } ]

/-- The globals after `scenarioCsv` is loaded into the initial state. -/
def scenarioLoaded : State :=
  { initialState with
    transactionData := scenarioRecords
    globalUserFirstVisit := (calculateFirstVisitDates scenarioRecords).1
    globalUserBusinessFirstVisit := (calculateFirstVisitDates scenarioRecords).2
    selectedBusiness := "all"
    selectedLocation := "all" }

/-- The view of the scenario: business "Store", every location, and the current range
1 January 2024 to 31 January 2024, two local midnights as a date picker delivers them
(day numbers 19723 and 19753). -/
def scenarioView (env : Env) (st : State) : State :=
  { st with
    selectedBusiness := "Store"
    selectedLocation := "all"
    currentDateRange := some (some (19723 * msPerDay - env.tzOffsetMs),
                              some (19753 * msPerDay - env.tzOffsetMs)) }

/-- The bucket of January 2024 in the scenario. -/
def scenarioBucket (env : Env) : MonthBucket :=
  { users := ["a@x.com", "b@x.com"]
    returningUsers := ["a@x.com"]
    lastMonthReturningUsers := []
    firstTimeUsers := []
    amount := 35
    visits := [("a@x.com", [toDateString env 1704412800000, toDateString env 1705708800000]),
               ("b@x.com", [toDateString env 1704844800000])]
    avgVisits := some (JSNum.finite (3 / 2)) }

/-! ## Order of the records by date -/

instance dateLe_total : IsTotal Transaction dateLe :=
  ⟨fun a b => le_total a.date b.date⟩

instance dateLe_trans : IsTrans Transaction dateLe :=
  ⟨fun a b c (hab : a.date ≤ b.date) (hbc : b.date ≤ c.date) => le_trans hab hbc⟩

/-! ## The tokenizer: quote state and serialisation -/

/-- Number of loop rounds of `parseCSVLine` (script.js 70-87) that read a comma while the
flag `inQuotes` is off, from the state (`inQuotes`, `skip`) at the head of the input. -/
def splitCommas : List Char → Bool → Bool → Nat
  | [], _, _ => 0
  | c :: rest, inQuotes, skip =>
    if skip then splitCommas rest inQuotes false
    else if c = '"' then
      if inQuotes ∧ rest.head? = some '"' then splitCommas rest inQuotes true
      else splitCommas rest (!inQuotes) false
    else if c = ',' ∧ inQuotes = false then 1 + splitCommas rest inQuotes false
    else splitCommas rest inQuotes false

/-- Number of commas of the input that are preceded by an even number of double-quote
characters (`odd` tells whether an odd number of them precedes the input). -/
def commasOutsideQuotes : List Char → Bool → Nat
  | [], _ => 0
  | c :: rest, odd =>
    if c = '"' then commasOutsideQuotes rest (!odd)
    else if c = ',' ∧ odd = false then 1 + commasOutsideQuotes rest odd
    else commasOutsideQuotes rest odd

/-- A field has to be quoted when it contains a comma or a double quote. -/
def needsQuotes (field : List Char) : Bool :=
  field.any (fun c => c == ',' || c == '"')

/-- The characters of a field with every double quote doubled. -/
def doubleQuotes : List Char → List Char
  | [] => []
  | c :: rest => if c = '"' then '"' :: '"' :: doubleQuotes rest else c :: doubleQuotes rest

/-- The written form of one field: wrapped in double quotes, internal quotes doubled, when
it contains a comma or a quote; as it is otherwise. -/
def serializeField (field : String) : String :=
  if needsQuotes field.data then ⟨'"' :: (doubleQuotes field.data ++ ['"'])⟩ else field

/-- The line that writes a sequence of fields: the written fields joined by commas. -/
def serialize (fields : List String) : String :=
  jsJoin "," (fields.map serializeField)

/-! ## The header and the rows of a file -/

/-- The text in lower case, ASCII letters only. -/
def asciiLower (s : String) : String := ⟨s.data.map Char.toLower⟩

/-- The header line of a file, as written. -/
def headerLine (csvText : String) : String :=
  (jsSplit (fun c => c == '\n') csvText).headD ""

/-- The lines after the header line. -/
def dataLines (csvText : String) : List String :=
  (jsSplit (fun c => c == '\n') csvText).tail

/-- The array `headers` of `processData` (script.js 326): the header line in lower case,
tokenized. -/
def headerRow (env : Env) (csvText : String) : List String :=
  parseCSVLine (toLowerCase env (headerLine csvText))

/-- The column names of the header line as written: the tokens of the line. -/
def headerNames (csvText : String) : List String :=
  parseCSVLine (headerLine csvText)

/-- The object `columnMappings` of `processData` (script.js 329-334): each required column
with the header names accepted for it. -/
def columnMappings : List (String × List String) :=
  [("email", ["user email"]), ("merchant", ["merchant"]), ("date", ["date"]),
   ("amount", ["transaction amount"])]

/-- An entry of `columnIndices` (script.js 337-342): the index of the first header that is
one of `names`; `none` stands for `-1`. -/
def columnIndex (names : List String) (headers : List String) : Option Nat :=
  findIndex (fun header => names.contains header) headers

/-- The required columns none of whose accepted names occurs in the header row. -/
def unresolvedColumns (headers : List String) : List String :=
  (columnMappings.filter (fun p => headers.all (fun header => !p.2.contains header))).map
    (fun p => p.1)

/-- The index of the first column of the header whose name is `name` up to letter case. -/
def firstColumn (name : String) (names : List String) : Option Nat :=
  findIndex (fun n => asciiLower n == asciiLower name) names

/-- The record that a (trimmed, non-blank) data line stands for when the four columns are at
the indices `iEmail`, `iMerchant`, `iDate`, `iAmount`: the email and the merchant fields are
there and not empty, the date field parses to a date, and the cleaned amount field is a
number. -/
def IsRecordOf (env : Env) (iEmail iMerchant iDate iAmount : Nat) (line : String)
    (t : Transaction) : Prop :=
  (parseCSVLine line).get? iEmail = some t.email ∧ t.email ≠ "" ∧
  (parseCSVLine line).get? iMerchant = some t.merchant ∧ t.merchant ≠ "" ∧
  (∃ s, (parseCSVLine line).get? iDate = some s ∧ parseDate env (some s) = Except.ok t.date) ∧
  (∃ raw, (parseCSVLine line).get? iAmount = some raw ∧
    parseFloat (stripNonNumeric raw) = some t.amount)

/-- The globals after a call `processData(csvText)` made in state `st`.  The one `throw` of
`processData` (script.js 360) comes before its first assignment to a global (script.js 364),
and what is raised while a data line is read is caught inside the loop, so a call that raises
leaves the globals as they were. -/
def globalsAfterProcessData (env : Env) (csvText : String) (st : State) : State :=
  match processData env csvText st with
  | Except.ok st1 => st1
  | Except.error _ => st

/-! ## Calendar dates -/

/-- The calendar has a day `d` in month `m` (1 is January) of year `y`. -/
def validCalendarDate (y m d : Int) : Bool :=
  decide (1 ≤ m ∧ m ≤ 12 ∧ 1 ≤ d ∧ d ≤ daysInMonth y (m - 1))

/-! ## Sample views -/

/-- Three records at the edges of the range 5 January 2024 to 20 January 2024: they are
dated 5 January 00:00:00, 20 January 23:59:59 and 21 January 00:00:01 (UTC). -/
def edgeData : List Transaction :=
  [ { email := "a@x.com", merchant := "Store-NY", date := 1704412800000, amount := 1 },
    { email := "a@x.com", merchant := "Store-NY", date := 1705795199000, amount := 2 },
    { email := "a@x.com", merchant := "Store-NY", date := 1705795201000, amount := 4 } ]

/-- A file whose header has no `Transaction Amount` column. -/
def noAmountCsv : String :=
  "User Email,Merchant,Date\na@x.com,Store-NY,2024-01-05"

/-- A file whose header writes the four names in another order and letter case, between two
other columns, followed by a good row, a row with too few fields, a row with a text amount, a
blank line and a row with an empty email. -/
def shuffledCsv : String :=
  "Id,DATE,transaction AMOUNT,Notes,merchant,USER EMAIL\n1,2024-01-05,$10.50,\"first, visit\",Store-NY,a@x.com\n2,2024-01-06\n3,2024-01-07,n/a,,Store-NY,b@x.com\n\n4,2024-01-08,3,,Store-LA,"

/-- The one record that `shuffledCsv` holds. -/
def shuffledRecords : List Transaction :=
  [ { email := "a@x.com", merchant := "Store-NY", date := 1704412800000, amount := 21 / 2 } ]

/-! ## Period comparator (script.js 680-705, 729-732) -/

/-- The function `calculateGrowth` (script.js 680-683), on finite numbers. -/
def calculateGrowth (current previous : ℚ) : ℚ :=
  if previous = 0 then (if current > 0 then 100 else 0)
  else ((current - previous) / previous) * 100

/-- The function `calculateGrowthPercentage` (script.js 729-732), on finite numbers. -/
def calculateGrowthPercentage (current previous : ℚ) : ℚ :=
  if previous = 0 then (if current > 0 then 100 else 0)
  else ((current - previous) / previous) * 100

/-- The class that `updateComparisonDisplay` (script.js 699-705) gives the element. -/
def comparisonClass (growth : ℚ) : String :=
  if growth > 0 then "positive"
  else if growth < 0 then "negative"
  else "neutral"

/-! ## Returning-users percentage (script.js 889-898) -/

/-- One entry of `percentages`: `(returningData[index] / data.uniqueUsers[index] * 100) || 0`.
An index outside an array reads `undefined`, which makes the product `NaN`; `NaN` and zero are
replaced by 0. -/
def percentageEntry (returning unique : Option Nat) : JSNum :=
  match returning, unique with
  | some r, some u =>
    match jsDivNat r u with
    | JSNum.finite q => JSNum.finite (q * 100)
    | JSNum.infinity => JSNum.infinity
    | JSNum.nan => JSNum.finite 0
  | _, _ => JSNum.finite 0

/-- The array `percentages` of `initReturningUsersPercentageChart`. -/
def returningUsersPercentages (st : State) (data : ChartData) : List JSNum :=
  let returningData :=
    if st.returningWindow = 0 then data.returningUsers else data.lastMonthReturningUsers
  (List.range data.labels.length).map (fun index =>
    percentageEntry (returningData.get? index) (data.uniqueUsers.get? index))

/-! ## More sample views -/

/-- The globals after `collisionData` is loaded, with business "7-Eleven" selected and a
first-time threshold of 0 days. -/
def collisionState : State :=
  { initialState with
    transactionData := collisionData
    globalUserFirstVisit := (calculateFirstVisitDates collisionData).1
    globalUserBusinessFirstVisit := (calculateFirstVisitDates collisionData).2
    selectedBusiness := "7-Eleven"
    firstTimeUsersThreshold := 0 }

/-- What `updateDashboard` shows for `sampleCafe` with no date range set, in the UTC zone. -/
def sampleDashboard : Dashboard :=
  { uniqueUsers := 2, uniqueUsersPrev := 0, returningUsers := 2, returningUsersPrev := 0
    totalAmount := 50, totalAmountPrev := 0
    avgVisits := JSNum.finite 3, avgVisitsPrev := JSNum.finite 0
    charts := some sampleChart }

/-! ## The host's lower case -/

/-- What `toLowerCase` may put for one character `c` of its input, by the Unicode case
mappings that ECMAScript prescribes (the lower-case mappings of `UnicodeData.txt` and the
entries of `SpecialCasing.txt` that depend on no language): an ASCII character gives its ASCII
lower case; a white-space character gives itself; any other character gives a text without
comma and without double quote that either holds a character which is neither ASCII nor white
space, or is the letter `k` alone (the lower case of the Kelvin sign U+212A, the one character
outside ASCII whose lower case is all ASCII). -/
def LowerOf (c : Char) (out : List Char) : Prop :=
  if c.toNat < 128 then out = [c.toLower]
  else if isJsWhitespace c = true then out = [c]
  else ',' ∉ out ∧ '"' ∉ out ∧
    ((∃ d ∈ out, 128 ≤ d.toNat ∧ isJsWhitespace d = false) ∨ out = ['k'])

instance LowerOf_decidable (c : Char) (out : List Char) : Decidable (LowerOf c out) := by
  unfold LowerOf
  infer_instance

/-- The text `lowered` is the text `cs` with each character replaced by what `LowerOf` allows
for it; what replaces a character may depend on the characters around it (as it does for the
Greek capital sigma). -/
def LowerCased (cs lowered : List Char) : Prop :=
  ∃ outs : List (List Char), List.Forall₂ LowerOf cs outs ∧ lowered = outs.flatten

/-- The host's `toLowerCase` works character by character within the Unicode case mappings:
a property of every ECMAScript host. -/
def UnicodeLowerCase (env : Env) : Prop :=
  ∀ s : String, LowerCased s.data (env.unicodeLower s).data

/-- The field `g` read off a lower-cased line where the field `f` is read off the line as
written: both are the trimmed forms of a text and of its lower-cased form. -/
def FieldLowerCased (f g : String) : Prop :=
  ∃ cur low : List Char, LowerCased cur low ∧ f = jsTrim ⟨cur⟩ ∧ g = jsTrim ⟨low⟩

/-- A host in the UTC zone whose case tables know, outside ASCII, the letter É (U+00C9, lower
case U+00E9). -/
def accentEnv : Env :=
  { utcEnv with
    unicodeLower := fun s =>
      ⟨s.data.map (fun c => if c = Char.ofNat 201 then Char.ofNat 233 else c.toLower)⟩ }

/-- A file whose header has, besides the four names in another order and letter case, a
column named with a letter outside ASCII; its one full row is the record of
`shuffledRecords`. -/
def accentCsv : String :=
  "CAFÉ,DATE,transaction AMOUNT,Notes,merchant,USER EMAIL\nlatte,2024-01-05,$10.50,\"first, visit\",Store-NY,a@x.com\nmocha,2024-01-06"

/-! ## Sets and maps -/

theorem mem_setAdd {α : Type} [DecidableEq α] (s : List α) (x y : α) :
    y ∈ setAdd s x ↔ y ∈ s ∨ y = x := by
  unfold setAdd
  split_ifs with h
  · constructor
    · intro hy; exact Or.inl hy
    · rintro (hy | rfl)
      · exact hy
      · exact h
  · simp

theorem nodup_setAdd {α : Type} [DecidableEq α] (s : List α) (x : α) (h : s.Nodup) :
    (setAdd s x).Nodup := by
  unfold setAdd
  split_ifs with hx
  · exact h
  · exact List.Nodup.append h (List.nodup_singleton x) (by simpa using hx)

theorem foldl_setAdd_spec {α : Type} [DecidableEq α] (l acc : List α) :
    (∀ y, y ∈ l.foldl setAdd acc ↔ y ∈ acc ∨ y ∈ l) ∧
      (acc.Nodup → (l.foldl setAdd acc).Nodup) := by
  induction l generalizing acc with
  | nil => simp
  | cons x xs ih =>
    obtain ⟨h1, h2⟩ := ih (setAdd acc x)
    refine ⟨fun y => ?_, fun hn => h2 (nodup_setAdd acc x hn)⟩
    rw [List.foldl_cons, h1, mem_setAdd, List.mem_cons]
    tauto

theorem mem_setOfList {α : Type} [DecidableEq α] (l : List α) (y : α) :
    y ∈ setOfList l ↔ y ∈ l := by
  have h := (foldl_setAdd_spec l []).1 y
  simpa [setOfList] using h

theorem nodup_setOfList {α : Type} [DecidableEq α] (l : List α) : (setOfList l).Nodup :=
  (foldl_setAdd_spec l []).2 List.nodup_nil

theorem setOfList_append_singleton {α : Type} [DecidableEq α] (l : List α) (x : α) :
    setOfList (l ++ [x]) = setAdd (setOfList l) x := by
  simp [setOfList, List.foldl_append]

theorem length_setOfList {α : Type} [DecidableEq α] (l : List α) :
    (setOfList l).length = l.toFinset.card := by
  rw [← List.toFinset_card_of_nodup (nodup_setOfList l)]
  congr 1
  ext y
  simp [mem_setOfList]

theorem mapGet_mapSet {α : Type} (m : List (String × α)) (k k2 : String) (v : α) :
    mapGet (mapSet m k v) k2 = if k = k2 then some v else mapGet m k2 := by
  induction m with
  | nil => simp [mapSet, mapGet]
  | cons p rest ih =>
    obtain ⟨a, w⟩ := p
    by_cases h : a = k
    · subst h
      by_cases h2 : a = k2 <;> simp [mapSet, mapGet, h2]
    · by_cases h2 : k = k2
      · subst h2
        simp [mapSet, mapGet, h, ih]
      · by_cases h3 : a = k2
        · subst h3
          simp [mapSet, mapGet, h, h2]
        · simp [mapSet, mapGet, h, h2, h3, ih]

theorem mapGet_isSome_iff {α : Type} (m : List (String × α)) (k : String) :
    (mapGet m k).isSome ↔ k ∈ m.map Prod.fst := by
  induction m with
  | nil => simp [mapGet]
  | cons p rest ih =>
    obtain ⟨a, w⟩ := p
    by_cases h : a = k
    · simp [mapGet, h]
    · simp only [mapGet, h, if_false, ih, List.map_cons, List.mem_cons]
      constructor
      · intro hm; exact Or.inr hm
      · rintro (hm | hm)
        · exact absurd hm.symm h
        · exact hm

theorem mapGet_eq_none_iff {α : Type} (m : List (String × α)) (k : String) :
    mapGet m k = none ↔ k ∉ m.map Prod.fst := by
  rw [← mapGet_isSome_iff]
  cases mapGet m k <;> simp

theorem keys_mapSet {α : Type} (m : List (String × α)) (k : String) (v : α) :
    (mapSet m k v).map Prod.fst = setAdd (m.map Prod.fst) k := by
  induction m with
  | nil => simp [mapSet, setAdd]
  | cons p rest ih =>
    obtain ⟨a, w⟩ := p
    by_cases h : a = k
    · subst h
      simp [mapSet, setAdd]
    · have hk : k ≠ a := fun e => h e.symm
      simp only [mapSet, h, if_false, List.map_cons, ih]
      unfold setAdd
      by_cases hm : k ∈ rest.map Prod.fst
      · simp [hm]
      · simp [hm, hk]

theorem mapGet_mem {α : Type} (m : List (String × α)) (k : String) (v : α)
    (h : mapGet m k = some v) : (k, v) ∈ m := by
  induction m with
  | nil => simp [mapGet] at h
  | cons p rest ih =>
    obtain ⟨a, w⟩ := p
    by_cases e : a = k
    · simp [mapGet, e] at h
      simp [e, h]
    · simp [mapGet, e] at h
      exact List.mem_cons_of_mem _ (ih h)

theorem mapGet_of_mem {α : Type} (m : List (String × α)) (k : String) (v : α)
    (hn : (m.map Prod.fst).Nodup) (h : (k, v) ∈ m) : mapGet m k = some v := by
  induction m with
  | nil => simp at h
  | cons p rest ih =>
    obtain ⟨a, w⟩ := p
    simp only [List.map_cons, List.nodup_cons] at hn
    rcases List.mem_cons.mp h with e | e
    · injection e with e1 e2
      simp [mapGet, e1, e2]
    · have : a ≠ k := by
        rintro rfl
        exact hn.1 (List.mem_map_of_mem Prod.fst e)
      simp [mapGet, this, ih hn.2 e]

/-! ## First-visit tracker -/

theorem mapGet_firstVisitStep (m : List (String × Int)) (key k : String) (d : Int) :
    mapGet (firstVisitStep m key d) k =
      if key = k then
        (match mapGet m k with
          | none => some d
          | some cur => some (min cur d))
      else mapGet m k := by
  unfold firstVisitStep
  by_cases hk : key = k
  · subst hk
    cases hm : mapGet m key with
    | none => simp [mapGet_mapSet]
    | some cur =>
      by_cases hd : d < cur
      · simp [hd, mapGet_mapSet, min_eq_right (le_of_lt hd)]
      · simp [hd, hm, min_eq_left (not_lt.mp hd)]
  · cases hm : mapGet m key with
    | none => simp [mapGet_mapSet, hk]
    | some cur =>
      by_cases hd : d < cur
      · simp [hd, mapGet_mapSet, hk]
      · simp [hd, hk]

theorem firstVisits_fst (l : List Transaction) (acc : List (String × Int) × List (String × Int)) :
    (l.foldl firstVisitItem acc).1 =
      l.foldl (fun m t => firstVisitStep m (globalKey t) t.date) acc.1 := by
  induction l generalizing acc with
  | nil => rfl
  | cons t rest ih => simp only [List.foldl_cons, ih]; rfl

theorem firstVisits_snd (l : List Transaction) (acc : List (String × Int) × List (String × Int)) :
    (l.foldl firstVisitItem acc).2 =
      l.foldl (fun m t => firstVisitStep m (businessKey t) t.date) acc.2 := by
  induction l generalizing acc with
  | nil => rfl
  | cons t rest ih => simp only [List.foldl_cons, ih]; rfl

theorem firstVisit_fold_inv (key : Transaction → String) (l : List Transaction) (k : String) :
    match mapGet (l.foldl (fun m t => firstVisitStep m (key t) t.date) []) k with
    | none => ∀ t ∈ l, key t ≠ k
    | some v => IsEarliest key l k v := by
  induction l using List.reverseRecOn with
  | nil => simp [mapGet]
  | append_singleton l t ih =>
    rw [List.foldl_append, List.foldl_cons, List.foldl_nil, mapGet_firstVisitStep]
    by_cases hk : key t = k
    · simp only [hk, if_true]
      cases hm : mapGet (l.foldl (fun m t => firstVisitStep m (key t) t.date) []) k with
      | none =>
        rw [hm] at ih
        simp only at ih ⊢
        refine ⟨⟨t, by simp, hk, rfl⟩, fun u hu huk => ?_⟩
        rcases List.mem_append.mp hu with h | h
        · exact absurd huk (ih u h)
        · simp only [List.mem_singleton] at h; subst h; exact le_refl _
      | some cur =>
        rw [hm] at ih
        simp only at ih ⊢
        obtain ⟨⟨u, hu, huk, hud⟩, hmin⟩ := ih
        refine ⟨?_, fun w hw hwk => ?_⟩
        · by_cases hc : cur ≤ t.date
          · exact ⟨u, List.mem_append_left _ hu, huk, by rw [hud, min_eq_left hc]⟩
          · exact ⟨t, by simp, hk, by rw [min_eq_right (le_of_lt (not_le.mp hc))]⟩
        · rcases List.mem_append.mp hw with h | h
          · exact le_trans (min_le_left _ _) (hmin w h hwk)
          · simp only [List.mem_singleton] at h; subst h; exact min_le_right _ _
    · simp only [hk, if_false]
      cases hm : mapGet (l.foldl (fun m t => firstVisitStep m (key t) t.date) []) k with
      | none =>
        rw [hm] at ih
        simp only at ih ⊢
        intro u hu
        rcases List.mem_append.mp hu with h | h
        · exact ih u h
        · simp only [List.mem_singleton] at h; subst h; exact hk
      | some cur =>
        rw [hm] at ih
        simp only at ih ⊢
        obtain ⟨⟨u, hu, huk, hud⟩, hmin⟩ := ih
        refine ⟨⟨u, List.mem_append_left _ hu, huk, hud⟩, fun w hw hwk => ?_⟩
        rcases List.mem_append.mp hw with h | h
        · exact hmin w h hwk
        · simp only [List.mem_singleton] at h; subst h; exact absurd hwk hk

theorem isEarliest_unique (key : Transaction → String) (l : List Transaction) (k : String)
    (v w : Int) (hv : IsEarliest key l k v) (hw : IsEarliest key l k w) : v = w := by
  obtain ⟨⟨t, ht, htk, htd⟩, hmin⟩ := hv
  obtain ⟨⟨u, hu, huk, hud⟩, hmin2⟩ := hw
  have h1 := hmin u hu huk
  have h2 := hmin2 t ht htk
  omega

theorem firstVisit_fold_iff (key : Transaction → String) (l : List Transaction) (k : String)
    (v : Int) :
    mapGet (l.foldl (fun m t => firstVisitStep m (key t) t.date) []) k = some v ↔
      IsEarliest key l k v := by
  have h := firstVisit_fold_inv key l k
  cases hm : mapGet (l.foldl (fun m t => firstVisitStep m (key t) t.date) []) k with
  | none =>
    rw [hm] at h
    simp only at h
    constructor
    · intro e; cases e
    · rintro ⟨⟨t, ht, htk, _⟩, _⟩
      exact absurd htk (h t ht)
  | some cur =>
    rw [hm] at h
    simp only at h
    constructor
    · intro e; injection e with e; subst e; exact h
    · intro hv; rw [isEarliest_unique key l k cur v h hv]

theorem globalFirstVisit_iff (l : List Transaction) (email : String) (v : Int) :
    mapGet (calculateFirstVisitDates l).1 email = some v ↔ IsEarliest globalKey l email v := by
  unfold calculateFirstVisitDates
  rw [firstVisits_fst]
  exact firstVisit_fold_iff globalKey l email v

theorem businessFirstVisit_iff (l : List Transaction) (k : String) (v : Int) :
    mapGet (calculateFirstVisitDates l).2 k = some v ↔ IsEarliest businessKey l k v := by
  unfold calculateFirstVisitDates
  rw [firstVisits_snd]
  exact firstVisit_fold_iff businessKey l k v

theorem firstVisit_exists (key : Transaction → String) (l : List Transaction) (t : Transaction)
    (ht : t ∈ l) :
    ∃ v, mapGet (l.foldl (fun m t => firstVisitStep m (key t) t.date) []) (key t) = some v := by
  have h := firstVisit_fold_inv key l (key t)
  cases hm : mapGet (l.foldl (fun m t => firstVisitStep m (key t) t.date) []) (key t) with
  | none =>
    rw [hm] at h
    exact absurd rfl (h t ht)
  | some cur => exact ⟨cur, rfl⟩

/-! ## Month keys -/

theorem dash_not_in_prototypeKeys : ∀ k ∈ objectPrototypeKeys, '-' ∉ k.data := by decide

theorem formatYearMonth_has_dash (env : Env) (t : Int) : '-' ∈ (formatYearMonth env t).data := by
  unfold formatYearMonth
  simp [String.data_append]

theorem formatYearMonth_not_prototypeKey (env : Env) (t : Int) :
    formatYearMonth env t ∉ objectPrototypeKeys :=
  fun h => dash_not_in_prototypeKeys _ h (formatYearMonth_has_dash env t)

/-! ## First pass of `updateCharts` -/

theorem monthRecords_append (env : Env) (pre : List Transaction) (t : Transaction) (K : String) :
    monthRecords env (pre ++ [t]) K =
      if formatYearMonth env t.date = K then monthRecords env pre K ++ [t]
      else monthRecords env pre K := by
  unfold monthRecords
  by_cases h : formatYearMonth env t.date = K <;> simp [List.filter_append, List.filter_cons, h]

theorem mapSet_map_mem {β : Type} (l : List String) (f : String → β) (x : String) (v : β)
    (hx : x ∈ l) (hn : l.Nodup) :
    mapSet (l.map (fun e => (e, f e))) x v = l.map (fun e => (e, if e = x then v else f e)) := by
  induction l with
  | nil => simp at hx
  | cons a rest ih =>
    simp only [List.nodup_cons] at hn
    by_cases h : a = x
    · subst h
      simp only [List.map_cons, mapSet, if_true, List.cons.injEq, true_and]
      apply List.map_congr_left
      intro e he
      have : e ≠ a := fun e1 => hn.1 (e1 ▸ he)
      simp [this]
    · have hx2 : x ∈ rest := by
        rcases List.mem_cons.mp hx with e | e
        · exact absurd e.symm h
        · exact e
      simp only [List.map_cons, mapSet, h, if_false, ih hx2 hn.2]

theorem mapSet_map_not_mem {β : Type} (l : List String) (f : String → β) (x : String) (v : β)
    (hx : x ∉ l) :
    mapSet (l.map (fun e => (e, f e))) x v =
      (l ++ [x]).map (fun e => (e, if e = x then v else f e)) := by
  induction l with
  | nil => simp [mapSet]
  | cons a rest ih =>
    have h : a ≠ x := fun e => hx (by simp [e])
    have hx2 : x ∉ rest := fun e => hx (List.mem_cons_of_mem _ e)
    simp only [List.map_cons, mapSet, h, if_false, ih hx2, List.cons_append]

theorem mapGet_map_pair {β : Type} (l : List String) (f : String → β) (x : String) :
    mapGet (l.map (fun e => (e, f e))) x = if x ∈ l then some (f x) else none := by
  induction l with
  | nil => simp [mapGet]
  | cons a rest ih =>
    by_cases h : a = x
    · simp [mapGet, h]
    · have h2 : x ≠ a := fun e => h e.symm
      simp [mapGet, h, h2, ih]

theorem userDays_append (env : Env) (pre : List Transaction) (t : Transaction) (K e : String) :
    userDays env (pre ++ [t]) K e =
      if formatYearMonth env t.date = K ∧ t.email = e then
        setAdd (userDays env pre K e) (toDateString env t.date)
      else userDays env pre K e := by
  unfold userDays
  rw [monthRecords_append]
  by_cases h : formatYearMonth env t.date = K
  · by_cases h2 : t.email = e
    · simp only [h, h2, and_self, if_true, List.filter_append, List.map_append]
      simp [List.filter_cons, h2, setOfList_append_singleton]
    · simp [h, h2, List.filter_append, List.filter_cons]
  · simp [h]

theorem monthUsers_append (env : Env) (pre : List Transaction) (t : Transaction) (K : String) :
    monthUsers env (pre ++ [t]) K =
      if formatYearMonth env t.date = K then setAdd (monthUsers env pre K) t.email
      else monthUsers env pre K := by
  unfold monthUsers
  rw [monthRecords_append]
  by_cases h : formatYearMonth env t.date = K
  · simp [h, setOfList_append_singleton]
  · simp [h]

theorem mem_monthUsers (env : Env) (data : List Transaction) (K e : String) :
    e ∈ monthUsers env data K ↔ ∃ t ∈ data, formatYearMonth env t.date = K ∧ t.email = e := by
  unfold monthUsers monthRecords
  rw [mem_setOfList]
  simp only [List.mem_map, List.mem_filter, decide_eq_true_eq]
  constructor
  · rintro ⟨t, ⟨ht, hk⟩, he⟩; exact ⟨t, ht, hk, he⟩
  · rintro ⟨t, ht, hk, he⟩; exact ⟨t, ⟨ht, hk⟩, he⟩

theorem monthUsers_nodup (env : Env) (data : List Transaction) (K : String) :
    (monthUsers env data K).Nodup := nodup_setOfList _

theorem groupedBucket_nil (env : Env) (pre : List Transaction) (K : String)
    (h : monthRecords env pre K = []) : groupedBucket env pre K = emptyBucket := by
  simp [groupedBucket, monthUsers, h, emptyBucket, setOfList]

theorem userDays_of_not_mem (env : Env) (pre : List Transaction) (K e : String)
    (h : e ∉ monthUsers env pre K) : userDays env pre K e = [] := by
  have hf : (monthRecords env pre K).filter (fun t => decide (t.email = e)) = [] := by
    rw [List.filter_eq_nil_iff]
    intro u hu
    simp only [decide_eq_true_eq]
    intro hue
    apply h
    unfold monthRecords at hu
    simp only [List.mem_filter, decide_eq_true_eq] at hu
    exact (mem_monthUsers env pre K e).mpr ⟨u, hu.1, hu.2, hue⟩
  simp [userDays, hf, setOfList]

theorem groupedBucket_append_other (env : Env) (pre : List Transaction) (t : Transaction)
    (K : String) (h : formatYearMonth env t.date ≠ K) :
    groupedBucket env (pre ++ [t]) K = groupedBucket env pre K := by
  have h1 : monthRecords env (pre ++ [t]) K = monthRecords env pre K := by
    rw [monthRecords_append]; simp [h]
  have h2 : monthUsers env (pre ++ [t]) K = monthUsers env pre K := by
    rw [monthUsers_append]; simp [h]
  have h3 : ∀ e, userDays env (pre ++ [t]) K e = userDays env pre K e := by
    intro e; rw [userDays_append]; simp [h]
  simp only [groupedBucket, h1, h2, h3]

theorem groupedBucket_append_same (env : Env) (pre : List Transaction) (t : Transaction) :
    ∃ visits,
      trackVisit (groupedBucket env pre (formatYearMonth env t.date)).visits t.email
        (toDateString env t.date) =
        (if t.email ∈ monthUsers env pre (formatYearMonth env t.date) ∨
            t.email ∉ objectPrototypeKeys
          then Except.ok visits
          else Except.error (JSError.typeError "visits[email].add is not a function")) ∧
      groupedBucket env (pre ++ [t]) (formatYearMonth env t.date) =
        { groupedBucket env pre (formatYearMonth env t.date) with
          users := setAdd (groupedBucket env pre (formatYearMonth env t.date)).users t.email
          amount := (groupedBucket env pre (formatYearMonth env t.date)).amount + t.amount
          visits := visits } := by
  refine ⟨(monthUsers env (pre ++ [t]) (formatYearMonth env t.date)).map
    (fun e => (e, userDays env (pre ++ [t]) (formatYearMonth env t.date) e)), ?_, ?_⟩
  · unfold trackVisit objGet
    simp only [groupedBucket, mapGet_map_pair]
    by_cases hm : t.email ∈ monthUsers env pre (formatYearMonth env t.date)
    · simp only [hm, if_true, true_or]
      rw [mapSet_map_mem _ _ _ _ hm (monthUsers_nodup env pre _), monthUsers_append]
      simp only [if_true, setAdd, hm]
      congr 1
      apply List.map_congr_left
      intro e _
      rw [userDays_append]
      by_cases he : e = t.email
      · subst he; simp [setAdd]
      · have he2 : t.email ≠ e := fun x => he x.symm
        simp [he, he2]
    · by_cases hp : t.email ∈ objectPrototypeKeys
      · simp [hm, hp]
      · simp only [hm, hp, if_false, or_true, if_true]
        rw [mapSet_map_not_mem _ _ _ _ hm, monthUsers_append]
        simp only [if_true, setAdd, hm, if_false]
        congr 1
        apply List.map_congr_left
        intro e _
        rw [userDays_append]
        by_cases he : e = t.email
        · subst he; simp [userDays_of_not_mem env pre _ _ hm, setAdd]
        · have he2 : t.email ≠ e := fun x => he x.symm
          simp [he, he2]
  · simp only [groupedBucket, monthUsers_append, if_true, monthRecords_append, List.map_append,
      List.sum_append, List.map_cons, List.map_nil, List.sum_cons, List.sum_nil, add_zero]

/-- The invariant of the first pass: after the records `pre`, `monthlyData` holds exactly the
months that occur in `pre`, each with the bucket `groupedBucket` describes. -/
theorem groupItem_spec (env : Env) (pre : List Transaction) (acc : List (String × MonthBucket))
    (t : Transaction)
    (hk : (acc.map Prod.fst).Nodup)
    (hnone : ∀ K, monthRecords env pre K = [] → mapGet acc K = none)
    (hsome : ∀ K, monthRecords env pre K ≠ [] → mapGet acc K = some (groupedBucket env pre K))
    (hp : ∀ u ∈ pre, u.email ∉ objectPrototypeKeys) :
    (t.email ∈ objectPrototypeKeys → ∃ e, groupItem env acc t = Except.error e) ∧
    (t.email ∉ objectPrototypeKeys → ∃ next, groupItem env acc t = Except.ok next ∧
      (next.map Prod.fst).Nodup ∧
      (∀ K, monthRecords env (pre ++ [t]) K = [] → mapGet next K = none) ∧
      (∀ K, monthRecords env (pre ++ [t]) K ≠ [] →
        mapGet next K = some (groupedBucket env (pre ++ [t]) K))) := by
  have hb : bucketFor acc (formatYearMonth env t.date) =
      Except.ok (groupedBucket env pre (formatYearMonth env t.date)) := by
    unfold bucketFor objGet
    by_cases h0 : monthRecords env pre (formatYearMonth env t.date) = []
    · rw [hnone _ h0]
      simp [formatYearMonth_not_prototypeKey, groupedBucket_nil env pre _ h0]
    · rw [hsome _ h0]
  have hmem : t.email ∈ monthUsers env pre (formatYearMonth env t.date) →
      t.email ∉ objectPrototypeKeys := by
    intro h
    obtain ⟨u, hu, _, hue⟩ := (mem_monthUsers env pre _ _).mp h
    exact hue ▸ hp u hu
  constructor
  · intro hproto
    have hnm : t.email ∉ monthUsers env pre (formatYearMonth env t.date) :=
      fun h => hmem h hproto
    refine ⟨JSError.typeError "visits[email].add is not a function", ?_⟩
    simp [groupItem, hb, trackVisit, objGet, groupedBucket, mapGet_map_pair, hnm, hproto]
  · intro hproto
    obtain ⟨visits, hv, hg⟩ := groupedBucket_append_same env pre t
    have hcond : t.email ∈ monthUsers env pre (formatYearMonth env t.date) ∨
        t.email ∉ objectPrototypeKeys := Or.inr hproto
    rw [if_pos hcond] at hv
    refine ⟨mapSet acc (formatYearMonth env t.date)
      (groupedBucket env (pre ++ [t]) (formatYearMonth env t.date)),
      by simp only [groupItem, hb, hv, hg], ?_, ?_, ?_⟩
    · rw [keys_mapSet]
      exact nodup_setAdd _ _ hk
    · intro K hK
      rw [monthRecords_append] at hK
      by_cases hKe : formatYearMonth env t.date = K
      · simp [hKe] at hK
      · simp only [hKe, if_false] at hK
        rw [mapGet_mapSet, if_neg hKe]
        exact hnone K hK
    · intro K hK
      by_cases hKe : formatYearMonth env t.date = K
      · subst hKe
        rw [mapGet_mapSet, if_pos rfl]
      · rw [monthRecords_append, if_neg hKe] at hK
        rw [mapGet_mapSet, if_neg hKe, groupedBucket_append_other env pre t K hKe]
        exact hsome K hK

theorem grouped_nil (env : Env) : Grouped env [] [] := by
  refine ⟨by simp, fun K _ => rfl, fun K h => ?_, fun u hu => ?_⟩
  · exact absurd rfl h
  · cases hu

theorem groupByMonth_inv (env : Env) (rest pre : List Transaction)
    (acc : List (String × MonthBucket)) (hacc : Grouped env pre acc) :
    (∀ g, groupByMonth env acc rest = Except.ok g → Grouped env (pre ++ rest) g) ∧
    ((∀ t ∈ rest, t.email ∉ objectPrototypeKeys) → ∃ g, groupByMonth env acc rest = Except.ok g) := by
  induction rest generalizing pre acc with
  | nil =>
    refine ⟨fun g hg => ?_, fun _ => ⟨acc, rfl⟩⟩
    simp only [groupByMonth, Except.ok.injEq] at hg
    subst hg
    simpa using hacc
  | cons t rest ih =>
    obtain ⟨hk, hnone, hsome, hp⟩ := hacc
    obtain ⟨hbad, hgood⟩ := groupItem_spec env pre acc t hk hnone hsome hp
    by_cases hproto : t.email ∈ objectPrototypeKeys
    · obtain ⟨e, he⟩ := hbad hproto
      refine ⟨fun g hg => ?_, fun hall => ?_⟩
      · simp [groupByMonth, he] at hg
      · exact absurd hproto (hall t (by simp))
    · obtain ⟨next, hn, hk2, hnone2, hsome2⟩ := hgood hproto
      have hnext : Grouped env (pre ++ [t]) next := by
        refine ⟨hk2, hnone2, hsome2, fun u hu => ?_⟩
        rcases List.mem_append.mp hu with h | h
        · exact hp u h
        · simp only [List.mem_singleton] at h; subst h; exact hproto
      obtain ⟨ih1, ih2⟩ := ih (pre ++ [t]) next hnext
      refine ⟨fun g hg => ?_, fun hall => ?_⟩
      · simp only [groupByMonth, hn] at hg
        have := ih1 g hg
        simpa using this
      · obtain ⟨g, hg⟩ := ih2 (fun u hu => hall u (List.mem_cons_of_mem _ hu))
        exact ⟨g, by simp only [groupByMonth, hn, hg]⟩

theorem groupByMonth_spec (env : Env) (data : List Transaction) (g : List (String × MonthBucket))
    (h : groupByMonth env [] data = Except.ok g) : Grouped env data g := by
  have := (groupByMonth_inv env data [] [] (grouped_nil env)).1 g h
  simpa using this

theorem groupByMonth_ok (env : Env) (data : List Transaction)
    (h : ∀ t ∈ data, t.email ∉ objectPrototypeKeys) :
    ∃ g, groupByMonth env [] data = Except.ok g :=
  (groupByMonth_inv env data [] [] (grouped_nil env)).2 h

theorem grouped_mem_keys (env : Env) (data : List Transaction) (g : List (String × MonthBucket))
    (hg : Grouped env data g) (K : String) :
    K ∈ g.map Prod.fst ↔ ∃ t ∈ data, formatYearMonth env t.date = K := by
  obtain ⟨_, hnone, hsome, _⟩ := hg
  rw [← mapGet_isSome_iff]
  by_cases h0 : monthRecords env data K = []
  · rw [hnone K h0]
    simp only [Option.isSome_none, Bool.false_eq_true, false_iff]
    rintro ⟨t, ht, hk⟩
    have : t ∈ monthRecords env data K := by
      unfold monthRecords; simp [ht, hk]
    rw [h0] at this
    cases this
  · rw [hsome K h0]
    simp only [Option.isSome_some, true_iff]
    obtain ⟨t, ht⟩ := List.exists_mem_of_ne_nil _ h0
    unfold monthRecords at ht
    simp only [List.mem_filter, decide_eq_true_eq] at ht
    exact ⟨t, ht.1, ht.2⟩

theorem grouped_get (env : Env) (data : List Transaction) (g : List (String × MonthBucket))
    (hg : Grouped env data g) (K : String) (hK : K ∈ g.map Prod.fst) :
    mapGet g K = some (groupedBucket env data K) := by
  obtain ⟨_, hnone, hsome, _⟩ := hg
  by_cases h0 : monthRecords env data K = []
  · have := (mapGet_eq_none_iff g K).mp (hnone K h0)
    exact absurd hK this
  · exact hsome K h0

/-! ## Second pass of `updateCharts` -/

theorem firstTimeUsersOf_spec (env : Env) (st : State) (month : String) (users acc r : List String)
    (h : firstTimeUsersOf env st month acc users = Except.ok r) :
    (∀ e, e ∈ r ↔ e ∈ acc ∨ (e ∈ users ∧ isFirstTimeUser env st month e = Except.ok true)) ∧
    (∀ e ∈ users, ∃ b, isFirstTimeUser env st month e = Except.ok b) ∧
    (acc.Nodup → r.Nodup) := by
  induction users generalizing acc with
  | nil =>
    simp only [firstTimeUsersOf, Except.ok.injEq] at h
    subst h
    simp
  | cons u rest ih =>
    unfold firstTimeUsersOf at h
    cases hu : isFirstTimeUser env st month u with
    | error e => simp [hu] at h
    | ok b =>
      cases b with
      | true =>
        simp only [hu] at h
        obtain ⟨h1, h2, h3⟩ := ih (setAdd acc u) h
        refine ⟨fun e => ?_, ?_, fun hn => h3 (nodup_setAdd acc u hn)⟩
        · rw [h1, mem_setAdd, List.mem_cons]
          constructor
          · rintro ((h | h) | ⟨h, h4⟩)
            · exact Or.inl h
            · exact Or.inr ⟨Or.inl h, h ▸ hu⟩
            · exact Or.inr ⟨Or.inr h, h4⟩
          · rintro (h | ⟨h | h, h4⟩)
            · exact Or.inl (Or.inl h)
            · exact Or.inl (Or.inr h)
            · exact Or.inr ⟨h, h4⟩
        · intro e he
          rcases List.mem_cons.mp he with h | h
          · exact ⟨true, h ▸ hu⟩
          · exact h2 e h
      | false =>
        simp only [hu] at h
        obtain ⟨h1, h2, h3⟩ := ih acc h
        refine ⟨fun e => ?_, ?_, h3⟩
        · rw [h1, List.mem_cons]
          constructor
          · rintro (h | ⟨h, h4⟩)
            · exact Or.inl h
            · exact Or.inr ⟨Or.inr h, h4⟩
          · rintro (h | ⟨h | h, h4⟩)
            · exact Or.inl h
            · rw [h, hu] at h4; cases h4
            · exact Or.inr ⟨h, h4⟩
        · intro e he
          rcases List.mem_cons.mp he with h | h
          · exact ⟨false, h ▸ hu⟩
          · exact h2 e h

theorem firstTimeUsersOf_ok (env : Env) (st : State) (month : String) (users acc : List String)
    (h : ∀ e ∈ users, ∃ b, isFirstTimeUser env st month e = Except.ok b) :
    ∃ r, firstTimeUsersOf env st month acc users = Except.ok r := by
  induction users generalizing acc with
  | nil => exact ⟨acc, rfl⟩
  | cons u rest ih =>
    obtain ⟨b, hb⟩ := h u (by simp)
    have hrest : ∀ e ∈ rest, ∃ b, isFirstTimeUser env st month e = Except.ok b :=
      fun e he => h e (List.mem_cons_of_mem _ he)
    unfold firstTimeUsersOf
    cases b with
    | true => simp only [hb]; exact ih _ hrest
    | false => simp only [hb]; exact ih _ hrest

theorem mem_foldl_union (f : Int → List String) (l : List Int) (acc : List String) (e : String) :
    e ∈ l.foldl (fun acc i => (f i).foldl setAdd acc) acc ↔ e ∈ acc ∨ ∃ i ∈ l, e ∈ f i := by
  induction l generalizing acc with
  | nil => simp
  | cons i rest ih =>
    rw [List.foldl_cons, ih, (foldl_setAdd_spec (f i) acc).1 e]
    constructor
    · rintro ((h | h) | ⟨j, hj, h⟩)
      · exact Or.inl h
      · exact Or.inr ⟨i, by simp, h⟩
      · exact Or.inr ⟨j, List.mem_cons_of_mem _ hj, h⟩
    · rintro (h | ⟨j, hj, h⟩)
      · exact Or.inl (Or.inl h)
      · rcases List.mem_cons.mp hj with e1 | e1
        · exact Or.inl (Or.inr (e1 ▸ h))
        · exact Or.inr ⟨j, e1, h⟩

theorem mem_previousMonthsUsers (md : List (String × MonthBucket)) (sorted : List String)
    (month : String) (window : Nat) (e : String) :
    e ∈ previousMonthsUsers md sorted month window ↔
      ∃ i : Nat, 1 ≤ i ∧ i ≤ window ∧ e ∈ usersAtOffset md sorted month i := by
  unfold previousMonthsUsers
  rw [mem_foldl_union (usersAtOffset md sorted month)]
  simp only [List.not_mem_nil, false_or]
  constructor
  · rintro ⟨i, hi, h⟩
    obtain ⟨j, hj, hji⟩ := List.mem_map.mp hi
    rw [List.mem_range] at hj
    refine ⟨j + 1, by omega, by omega, ?_⟩
    rw [← hji] at h
    simpa using h
  · rintro ⟨i, h1, h2, h⟩
    exact ⟨(i : Int), List.mem_map.mpr ⟨i - 1, List.mem_range.mpr (by omega), by omega⟩, h⟩

theorem usersAtOffset_congr (md g : List (String × MonthBucket)) (sorted : List String)
    (month : String) (i : Int)
    (h : ∀ K, (mapGet md K).map (fun b => b.users) = (mapGet g K).map (fun b => b.users)) :
    usersAtOffset md sorted month i = usersAtOffset g sorted month i := by
  unfold usersAtOffset
  cases arrayGet sorted (indexOf sorted month - i) with
  | none => rfl
  | some p =>
    have hp := h p
    cases h1 : mapGet md p <;> cases h2 : mapGet g p <;> simp [h1, h2] at hp ⊢
    exact hp

theorem previousMonthsUsers_congr (md g : List (String × MonthBucket)) (sorted : List String)
    (month : String) (window : Nat)
    (h : ∀ K, (mapGet md K).map (fun b => b.users) = (mapGet g K).map (fun b => b.users)) :
    previousMonthsUsers md sorted month window = previousMonthsUsers g sorted month window := by
  unfold previousMonthsUsers
  congr 1
  funext acc i
  rw [usersAtOffset_congr md g sorted month i h]

theorem finishBucket_congr (env : Env) (st : State) (md g : List (String × MonthBucket))
    (sorted : List String) (month : String) (b : MonthBucket)
    (h : ∀ K, (mapGet md K).map (fun b => b.users) = (mapGet g K).map (fun b => b.users)) :
    finishBucket env st md sorted month b = finishBucket env st g sorted month b := by
  unfold finishBucket
  rw [previousMonthsUsers_congr md g sorted month st.returningWindow h]

theorem finishBucket_users (env : Env) (st : State) (md : List (String × MonthBucket))
    (sorted : List String) (month : String) (b r : MonthBucket)
    (h : finishBucket env st md sorted month b = Except.ok r) :
    r.users = b.users ∧ r.amount = b.amount ∧ r.visits = b.visits := by
  unfold finishBucket at h
  cases hf : firstTimeUsersOf env st month [] b.users with
  | error e => simp [hf] at h
  | ok ftu =>
    simp only [hf, Except.ok.injEq] at h
    subst h
    exact ⟨rfl, rfl, rfl⟩

theorem finishMonths_inv (env : Env) (st : State) (sorted : List String)
    (g : List (String × MonthBucket)) (months : List String) (md : List (String × MonthBucket))
    (hnd : months.Nodup) (hsub : ∀ K ∈ months, K ∈ g.map Prod.fst)
    (hkeys : md.map Prod.fst = g.map Prod.fst)
    (husers : ∀ K, (mapGet md K).map (fun b => b.users) = (mapGet g K).map (fun b => b.users))
    (hsame : ∀ K ∈ months, mapGet md K = mapGet g K) :
    (∀ md2, finishMonths env st sorted md months = Except.ok md2 →
      md2.map Prod.fst = g.map Prod.fst ∧
      (∀ K, K ∉ months → mapGet md2 K = mapGet md K) ∧
      (∀ K ∈ months, ∃ b,
        finishBucket env st g sorted K ((mapGet g K).getD emptyBucket) = Except.ok b ∧
        mapGet md2 K = some b)) ∧
    ((∀ K ∈ months, ∃ b,
        finishBucket env st g sorted K ((mapGet g K).getD emptyBucket) = Except.ok b) →
      ∃ md2, finishMonths env st sorted md months = Except.ok md2) := by
  induction months generalizing md with
  | nil =>
    refine ⟨fun md2 h => ?_, fun _ => ⟨md, rfl⟩⟩
    simp only [finishMonths, Except.ok.injEq] at h
    subst h
    exact ⟨hkeys, fun K _ => rfl, fun K hK => by cases hK⟩
  | cons m rest ih =>
    simp only [List.nodup_cons] at hnd
    have hm : mapGet md m = mapGet g m := hsame m (by simp)
    have hmk : m ∈ g.map Prod.fst := hsub m (by simp)
    have hfb : finishBucket env st md sorted m ((mapGet md m).getD emptyBucket) =
        finishBucket env st g sorted m ((mapGet g m).getD emptyBucket) := by
      rw [hm]; exact finishBucket_congr env st md g sorted m _ husers
    cases hres : finishBucket env st g sorted m ((mapGet g m).getD emptyBucket) with
    | error e =>
      refine ⟨fun md2 h => ?_, fun hall => ?_⟩
      · simp [finishMonths, hfb, hres] at h
      · obtain ⟨b, hb⟩ := hall m (by simp)
        rw [hres] at hb; cases hb
    | ok b =>
      obtain ⟨g0, hg0⟩ : ∃ g0, mapGet g m = some g0 := by
        have := (mapGet_isSome_iff g m).mpr hmk
        exact Option.isSome_iff_exists.mp this
      have hbu : b.users = g0.users := by
        have := (finishBucket_users env st g sorted m _ b hres).1
        simpa [hg0] using this
      have hkeys1 : (mapSet md m b).map Prod.fst = g.map Prod.fst := by
        rw [keys_mapSet, hkeys]
        unfold setAdd
        simp [hmk]
      have husers1 : ∀ K, (mapGet (mapSet md m b) K).map (fun b => b.users) =
          (mapGet g K).map (fun b => b.users) := by
        intro K
        rw [mapGet_mapSet]
        by_cases hK : m = K
        · subst hK; simp [hg0, hbu]
        · simp only [hK, if_false]; exact husers K
      have hsame1 : ∀ K ∈ rest, mapGet (mapSet md m b) K = mapGet g K := by
        intro K hK
        have hne : m ≠ K := fun e => hnd.1 (e ▸ hK)
        rw [mapGet_mapSet, if_neg hne]
        exact hsame K (List.mem_cons_of_mem _ hK)
      obtain ⟨ih1, ih2⟩ := ih (mapSet md m b) hnd.2
        (fun K hK => hsub K (List.mem_cons_of_mem _ hK)) hkeys1 husers1 hsame1
      refine ⟨fun md2 h => ?_, fun hall => ?_⟩
      · simp only [finishMonths, hfb, hres] at h
        obtain ⟨k1, k2, k3⟩ := ih1 md2 h
        refine ⟨k1, fun K hK => ?_, fun K hK => ?_⟩
        · have hKm : m ≠ K := fun e => hK (by simp [e])
          have hKr : K ∉ rest := fun e => hK (List.mem_cons_of_mem _ e)
          rw [k2 K hKr, mapGet_mapSet, if_neg hKm]
        · rcases List.mem_cons.mp hK with e | e
          · subst e
            refine ⟨b, hres, ?_⟩
            rw [k2 K hnd.1, mapGet_mapSet, if_pos rfl]
          · exact k3 K e
      · obtain ⟨md2, hmd2⟩ := ih2 (fun K hK => hall K (List.mem_cons_of_mem _ hK))
        exact ⟨md2, by simp only [finishMonths, hfb, hres, hmd2]⟩

/-! ## Sorted month keys -/

theorem mem_sortStrings (l : List String) (x : String) : x ∈ sortStrings l ↔ x ∈ l :=
  (List.perm_insertionSort jsStrLe l).mem_iff

theorem nodup_sortStrings (l : List String) (h : l.Nodup) : (sortStrings l).Nodup :=
  (List.perm_insertionSort jsStrLe l).nodup_iff.mpr h

theorem length_sortStrings (l : List String) : (sortStrings l).length = l.length :=
  (List.perm_insertionSort jsStrLe l).length_eq

/-- What `updateCharts` leaves in `monthlyData`: the months of the data, each with the
bucket of the first pass completed by `finishBucket`. -/
theorem monthlyBuckets_spec (env : Env) (st : State) (data : List Transaction)
    (md : List (String × MonthBucket)) (h : monthlyBuckets env st data = Except.ok md) :
    ∃ g, groupByMonth env [] data = Except.ok g ∧ Grouped env data g ∧
      md.map Prod.fst = g.map Prod.fst ∧
      ∀ K ∈ g.map Prod.fst, ∃ b,
        finishBucket env st g (sortStrings (g.map Prod.fst)) K (groupedBucket env data K) =
          Except.ok b ∧ mapGet md K = some b := by
  unfold monthlyBuckets at h
  cases hg : groupByMonth env [] data with
  | error e => simp [hg] at h
  | ok g =>
    simp only [hg] at h
    have hG := groupByMonth_spec env data g hg
    have hinv := (finishMonths_inv env st (sortStrings (g.map Prod.fst)) g
      (sortStrings (g.map Prod.fst)) g (nodup_sortStrings _ hG.1)
      (fun K hK => (mem_sortStrings _ K).mp hK) rfl (fun _ => rfl) (fun _ _ => rfl)).1 md h
    refine ⟨g, rfl, hG, hinv.1, fun K hK => ?_⟩
    obtain ⟨b, hb1, hb2⟩ := hinv.2.2 K ((mem_sortStrings _ K).mpr hK)
    rw [grouped_get env data g hG K hK] at hb1
    exact ⟨b, hb1, hb2⟩

/-! ## Loading -/

/-- Loading a file whose first line is the standard header. -/
theorem processData_standard_header (env : Env) (csvText : String) (st : State)
    (lines : List String)
    (h : jsSplit (fun c => c == '\n') csvText =
      "User Email,Merchant,Date,Transaction Amount" :: lines) :
    processData env csvText st = Except.ok { st with
      transactionData := rowsOfLines env 0 1 2 3 lines
      globalUserFirstVisit := (calculateFirstVisitDates (rowsOfLines env 0 1 2 3 lines)).1
      globalUserBusinessFirstVisit :=
        (calculateFirstVisitDates (rowsOfLines env 0 1 2 3 lines)).2
      selectedBusiness := "all"
      selectedLocation := "all" } := by
  have hh : parseCSVLine (toLowerCase env "User Email,Merchant,Date,Transaction Amount") =
      ["user email", "merchant", "date", "transaction amount"] := by rfl
  have e1 : findIndex (fun h => ["user email"].contains h)
      ["user email", "merchant", "date", "transaction amount"] = some 0 := by decide
  have e2 : findIndex (fun h => ["merchant"].contains h)
      ["user email", "merchant", "date", "transaction amount"] = some 1 := by decide
  have e3 : findIndex (fun h => ["date"].contains h)
      ["user email", "merchant", "date", "transaction amount"] = some 2 := by decide
  have e4 : findIndex (fun h => ["transaction amount"].contains h)
      ["user email", "merchant", "date", "transaction amount"] = some 3 := by decide
  unfold processData
  simp only [h, List.headD_cons, List.tail_cons, hh, e1, e2, e3, e4]

/-! ## Date strings and calendar days -/

theorem day_of_dateString (d : Int) :
    d = dateFromDay d - 1 + dayFromYear (yearFromDay d) +
      monthStart (monthFromDay d) (inLeapYear (yearFromDay d)) := by
  unfold dateFromDay
  simp only
  omega

theorem toDateString_eq_iff (env : Env) (t1 t2 : Int) :
    toDateString env t1 = toDateString env t2 ↔ localDay env t1 = localDay env t2 := by
  constructor
  · intro h
    unfold toDateString getFullYear getMonth getDate at h
    injection h with _ hm hd hy
    rw [day_of_dateString (localDay env t1), day_of_dateString (localDay env t2), hm, hd, hy]
  · intro h
    unfold toDateString getFullYear getMonth getDate
    rw [h]

theorem dateString_injective :
    Function.Injective (fun d : Int =>
      ({ weekday := weekDay d, month := monthFromDay d, date := dateFromDay d,
         year := yearFromDay d } : DateString)) := by
  intro d1 d2 h
  simp only at h
  injection h with _ hm hd hy
  rw [day_of_dateString d1, day_of_dateString d2, hm, hd, hy]

theorem card_dateStrings (env : Env) (l : List Transaction) :
    ((l.map (fun t => toDateString env t.date)).toFinset).card =
      ((l.map (fun t => localDay env t.date)).toFinset).card := by
  have h1 : l.map (fun t => toDateString env t.date) =
      (l.map (fun t => localDay env t.date)).map (fun d : Int =>
        ({ weekday := weekDay d, month := monthFromDay d, date := dateFromDay d,
           year := yearFromDay d } : DateString)) := by
    rw [List.map_map]
    rfl
  have h2 : ∀ (m : List Int) (f : Int → DateString), (m.map f).toFinset = m.toFinset.image f := by
    intro m f; ext x; simp
  rw [h1, h2, Finset.card_image_of_injective _ dateString_injective]

theorem length_userDays (env : Env) (data : List Transaction) (K e : String) :
    (userDays env data K e).length = distinctDayCount env data K e := by
  unfold userDays distinctDayCount
  rw [length_setOfList, card_dateStrings]

theorem length_monthUsers (env : Env) (data : List Transaction) (K : String) :
    (monthUsers env data K).length = (monthEmails env data K).card := by
  unfold monthUsers monthEmails
  rw [length_setOfList]

theorem toFinset_monthUsers (env : Env) (data : List Transaction) (K : String) :
    (monthUsers env data K).toFinset = monthEmails env data K := by
  unfold monthUsers monthEmails
  ext x
  simp [mem_setOfList]

/-! ## The finished buckets -/

theorem isFirstTimeUser_true_iff (env : Env) (st : State) (month email : String) :
    isFirstTimeUser env st month email = Except.ok true ↔
      st.selectedBusiness ≠ "all" ∧
      ∃ bfv gfv,
        mapGet st.globalUserBusinessFirstVisit (userBusinessKey email st.selectedBusiness) =
          some bfv ∧
        formatYearMonth env bfv = month ∧
        mapGet st.globalUserFirstVisit email = some gfv ∧
        ((bfv - gfv : Int) : ℚ) / 86400000 ≥ (st.firstTimeUsersThreshold : ℚ) := by
  unfold isFirstTimeUser
  by_cases hall : st.selectedBusiness = "all"
  · simp [hall]
  · simp only [hall, if_false, ne_eq, not_false_eq_true, true_and]
    cases hb : mapGet st.globalUserBusinessFirstVisit (userBusinessKey email st.selectedBusiness) with
    | none => simp
    | some bfv =>
      by_cases hm : formatYearMonth env bfv = month
      · cases hg : mapGet st.globalUserFirstVisit email with
        | none => simp [hm]
        | some gfv => simp [hm]
      · simp [hm]

/-- The fields of a bucket that `updateCharts` leaves in `monthlyData`. -/
theorem bucket_fields (env : Env) (st : State) (data : List Transaction)
    (md : List (String × MonthBucket)) (h : monthlyBuckets env st data = Except.ok md)
    (K : String) (b : MonthBucket) (hb : mapGet md K = some b) :
    ∃ g, Grouped env data g ∧ md.map Prod.fst = g.map Prod.fst ∧
      b.users = monthUsers env data K ∧
      b.amount = ((monthRecords env data K).map (fun t => t.amount)).sum ∧
      b.visits = (monthUsers env data K).map (fun e => (e, userDays env data K e)) ∧
      firstTimeUsersOf env st K [] (monthUsers env data K) = Except.ok b.firstTimeUsers ∧
      b.returningUsers = setOfList ((((monthUsers env data K).map
        (fun e => (e, userDays env data K e))).filter
          (fun p => decide (p.2.length > 1))).map (fun p => p.1)) ∧
      b.lastMonthReturningUsers =
        (if K ≠ "" ∧ st.returningWindow > 0 then
          setOfList ((monthUsers env data K).filter (fun email =>
            decide (email ∈ previousMonthsUsers g (sortStrings (g.map Prod.fst)) K
              st.returningWindow)))
        else []) ∧
      b.avgVisits = some (jsDivNat
        (((monthUsers env data K).map (fun e => (userDays env data K e).length)).sum)
        (monthUsers env data K).length) := by
  obtain ⟨g, _, hG, hkeys, hall⟩ := monthlyBuckets_spec env st data md h
  have hK : K ∈ g.map Prod.fst := by
    rw [← hkeys, ← mapGet_isSome_iff, hb]; rfl
  obtain ⟨b2, hb2, hget⟩ := hall K hK
  rw [hb] at hget
  injection hget with hget
  subst hget
  refine ⟨g, hG, hkeys, ?_⟩
  unfold finishBucket at hb2
  cases hf : firstTimeUsersOf env st K [] (groupedBucket env data K).users with
  | error e => simp [hf] at hb2
  | ok ftu =>
    simp only [hf, Except.ok.injEq] at hb2
    subst hb2
    refine ⟨rfl, rfl, rfl, hf, rfl, rfl, ?_⟩
    simp only [groupedBucket, List.map_map]
    rfl

/-! ## The emitted series -/

theorem updateCharts_ok_iff (env : Env) (st : State) (data : List Transaction) (chart : ChartData) :
    updateCharts env st data = Except.ok chart ↔
      ∃ md, monthlyBuckets env st data = Except.ok md ∧ chart = chartDataOf md := by
  unfold updateCharts
  cases h : monthlyBuckets env st data with
  | error e => simp
  | ok md =>
    simp only [Except.ok.injEq, exists_eq_left']
    exact eq_comm

theorem label_bucket (env : Env) (st : State) (data : List Transaction)
    (md : List (String × MonthBucket)) (h : monthlyBuckets env st data = Except.ok md)
    (i : Nat) (K : String) (hi : (chartDataOf md).labels.get? i = some K) :
    ∃ b, mapGet md K = some b ∧ (∃ t ∈ data, formatYearMonth env t.date = K) := by
  obtain ⟨g, _, hG, hkeys, _⟩ := monthlyBuckets_spec env st data md h
  have hK : K ∈ md.map Prod.fst := by
    have : K ∈ (chartDataOf md).labels := List.mem_iff_get?.mpr ⟨i, hi⟩
    exact (mem_sortStrings _ K).mp this
  have hs := (mapGet_isSome_iff md K).mpr hK
  obtain ⟨b, hb⟩ := Option.isSome_iff_exists.mp hs
  refine ⟨b, hb, ?_⟩
  rw [hkeys] at hK
  exact (grouped_mem_keys env data g hG K).mp hK

theorem month_is_label (env : Env) (st : State) (data : List Transaction)
    (md : List (String × MonthBucket)) (h : monthlyBuckets env st data = Except.ok md)
    (K : String) (hK : ∃ t ∈ data, formatYearMonth env t.date = K) :
    ∃ i, (chartDataOf md).labels.get? i = some K := by
  obtain ⟨g, _, hG, hkeys, _⟩ := monthlyBuckets_spec env st data md h
  have h1 : K ∈ md.map Prod.fst := by
    rw [hkeys]; exact (grouped_mem_keys env data g hG K).mpr hK
  have h2 : K ∈ (chartDataOf md).labels := (mem_sortStrings _ K).mpr h1
  exact List.mem_iff_get?.mp h2

theorem monthEmails_card_pos (env : Env) (data : List Transaction) (K : String)
    (hK : ∃ t ∈ data, formatYearMonth env t.date = K) : (monthEmails env data K).card ≠ 0 := by
  obtain ⟨t, ht, htk⟩ := hK
  have : t.email ∈ monthEmails env data K := by
    unfold monthEmails monthRecords
    simp only [List.mem_toFinset, List.mem_map, List.mem_filter, decide_eq_true_eq]
    exact ⟨t, ⟨ht, htk⟩, rfl⟩
  exact Finset.card_ne_zero_of_mem this

theorem sum_userDays (env : Env) (data : List Transaction) (K : String) :
    ((monthUsers env data K).map (fun e => (userDays env data K e).length)).sum =
      ∑ e in monthEmails env data K, distinctDayCount env data K e := by
  rw [← toFinset_monthUsers, List.sum_toFinset _ (monthUsers_nodup env data K)]
  congr 1
  apply List.map_congr_left
  intro e _
  exact length_userDays env data K e

theorem distinctDayCount_pos (env : Env) (data : List Transaction) (K e : String)
    (h : 0 < distinctDayCount env data K e) : e ∈ monthUsers env data K := by
  by_contra hn
  have := userDays_of_not_mem env data K e hn
  have h2 := length_userDays env data K e
  rw [this] at h2
  simp at h2
  omega

theorem chart_at (md : List (String × MonthBucket)) (i : Nat) (K : String) (b : MonthBucket)
    (hi : (chartDataOf md).labels.get? i = some K) (hb : mapGet md K = some b) :
    (chartDataOf md).uniqueUsers.get? i = some b.users.length ∧
    (chartDataOf md).returningUsers.get? i = some b.returningUsers.length ∧
    (chartDataOf md).lastMonthReturningUsers.get? i = some b.lastMonthReturningUsers.length ∧
    (chartDataOf md).firstTimeUsers.get? i = some b.firstTimeUsers.length ∧
    (chartDataOf md).totalAmount.get? i = some b.amount ∧
    (chartDataOf md).avgVisits.get? i = some b.avgVisits := by
  unfold chartDataOf at hi ⊢
  simp only [List.get?_eq_getElem?] at hi ⊢
  simp only [List.getElem?_map, hi, Option.map_some', hb, Option.getD_some, and_self]

/-- C6: whenever `updateCharts` emits its series, every month key `K` that occurs in the
filtered set is a label, and at that label `uniqueUsers` is the number of distinct emails
among the records of month `K` and `totalAmount` is the sum of the amounts of exactly those
records. -/
theorem monthly_uniqueUsers_totalAmount (env : Env) (st : State) (data : List Transaction)
    (chart : ChartData) (h : updateCharts env st data = Except.ok chart) (K : String)
    (hK : K ∈ data.map (fun t => formatYearMonth env t.date)) :
    ∃ i, chart.labels.get? i = some K ∧
      chart.uniqueUsers.get? i =
        some (((monthRecords env data K).map (fun t => t.email)).toFinset).card ∧
      chart.totalAmount.get? i = some ((monthRecords env data K).map (fun t => t.amount)).sum := by
  obtain ⟨md, hmd, rfl⟩ := (updateCharts_ok_iff env st data chart).mp h
  obtain ⟨t, ht, htK⟩ := List.mem_map.mp hK
  obtain ⟨i, hi⟩ := month_is_label env st data md hmd K ⟨t, ht, htK⟩
  obtain ⟨b, hb, _⟩ := label_bucket env st data md hmd i K hi
  obtain ⟨g, _, _, hu, ha, _⟩ := bucket_fields env st data md hmd K b hb
  obtain ⟨c1, _, _, _, c5, _⟩ := chart_at md i K b hi hb
  refine ⟨i, hi, ?_, ?_⟩
  · rw [c1, hu, length_monthUsers]; rfl
  · rw [c5, ha]

theorem mem_returningUsers_iff (env : Env) (data : List Transaction) (K e : String) :
    e ∈ setOfList ((((monthUsers env data K).map (fun e => (e, userDays env data K e))).filter
        (fun p => decide (p.2.length > 1))).map (fun p => p.1)) ↔
      2 ≤ distinctDayCount env data K e := by
  rw [mem_setOfList]
  simp only [List.mem_map, List.mem_filter, decide_eq_true_eq, Prod.exists, Prod.mk.injEq]
  constructor
  · rintro ⟨a, ds, ⟨⟨x, _, hxa, hxd⟩, hlen⟩, hae⟩
    subst hae
    subst hxa
    rw [← hxd, length_userDays] at hlen
    omega
  · intro h
    have hm := distinctDayCount_pos env data K e (by omega)
    refine ⟨e, userDays env data K e, ⟨⟨e, hm, rfl, rfl⟩, ?_⟩, rfl⟩
    rw [length_userDays]
    omega

/-- C7: in every bucket that `updateCharts` builds, the multi-visit set `returningUsers`
holds (once each) exactly the emails with records on at least 2 distinct local calendar days
among the records of that month, so several records of one user on the same day count as one
day; the emitted count is the number of such emails. -/
theorem returningUsers_multi_day (env : Env) (st : State) (data : List Transaction)
    (md : List (String × MonthBucket)) (h : monthlyBuckets env st data = Except.ok md)
    (K : String) (b : MonthBucket) (hb : mapGet md K = some b) :
    b.returningUsers.Nodup ∧
    (∀ e, e ∈ b.returningUsers ↔ 2 ≤ distinctDayCount env data K e) ∧
    (∀ i, (chartDataOf md).labels.get? i = some K →
      (chartDataOf md).returningUsers.get? i =
        some ((monthEmails env data K).filter
          (fun e => 2 ≤ distinctDayCount env data K e)).card) := by
  obtain ⟨g, _, _, _, _, _, _, hr, _⟩ := bucket_fields env st data md h K b hb
  have hnd : b.returningUsers.Nodup := by rw [hr]; exact nodup_setOfList _
  have hmem : ∀ e, e ∈ b.returningUsers ↔ 2 ≤ distinctDayCount env data K e := by
    intro e; rw [hr]; exact mem_returningUsers_iff env data K e
  refine ⟨hnd, hmem, fun i hi => ?_⟩
  rw [(chart_at md i K b hi hb).2.1, ← List.toFinset_card_of_nodup hnd]
  congr 2
  ext e
  simp only [List.mem_toFinset, Finset.mem_filter, hmem]
  constructor
  · intro h2
    refine ⟨?_, h2⟩
    rw [← toFinset_monthUsers, List.mem_toFinset]
    exact distinctDayCount_pos env data K e (by omega)
  · exact fun h2 => h2.2

/-- C8: whenever `updateCharts` emits its series, `avgVisits` at every label `K` is the
finite quotient of the sum, over the distinct emails of month `K`, of their numbers of
distinct transaction days in that month, by the number of those emails, which is not zero;
no emitted entry is `NaN`; and the empty input yields empty series. -/
theorem avgVisits_per_month (env : Env) (st : State) (data : List Transaction) :
    (∀ chart, updateCharts env st data = Except.ok chart →
      (∀ i K, chart.labels.get? i = some K →
        (monthEmails env data K).card ≠ 0 ∧
        chart.avgVisits.get? i = some (some (JSNum.finite
          (((∑ e in monthEmails env data K, distinctDayCount env data K e : Nat) : ℚ) /
            ((monthEmails env data K).card : ℚ))))) ∧
      (∀ x ∈ chart.avgVisits, ∃ q, x = some (JSNum.finite q))) ∧
    updateCharts env st [] = Except.ok
      { labels := [], uniqueUsers := [], returningUsers := [], lastMonthReturningUsers := [],
        firstTimeUsers := [], totalAmount := [], avgVisits := [] } := by
  refine ⟨fun chart h => ?_, rfl⟩
  obtain ⟨md, hmd, rfl⟩ := (updateCharts_ok_iff env st data chart).mp h
  have key : ∀ i K, (chartDataOf md).labels.get? i = some K →
      (monthEmails env data K).card ≠ 0 ∧
      (chartDataOf md).avgVisits.get? i = some (some (JSNum.finite
        (((∑ e in monthEmails env data K, distinctDayCount env data K e : Nat) : ℚ) /
          ((monthEmails env data K).card : ℚ)))) := by
    intro i K hi
    obtain ⟨b, hb, hK⟩ := label_bucket env st data md hmd i K hi
    obtain ⟨g, _, _, _, _, _, _, _, _, hav⟩ := bucket_fields env st data md hmd K b hb
    have hpos := monthEmails_card_pos env data K hK
    refine ⟨hpos, ?_⟩
    rw [(chart_at md i K b hi hb).2.2.2.2.2, hav, sum_userDays, length_monthUsers]
    unfold jsDivNat
    rw [if_neg hpos]
  refine ⟨key, fun x hx => ?_⟩
  obtain ⟨i, hi⟩ := List.mem_iff_get?.mp hx
  have hlen : i < (chartDataOf md).labels.length := by
    have h1 := List.get?_eq_some.mp hi
    obtain ⟨h2, _⟩ := h1
    simpa [chartDataOf] using h2
  obtain ⟨K, hK⟩ : ∃ K, (chartDataOf md).labels.get? i = some K :=
    ⟨_, List.get?_eq_get hlen⟩
  have := (key i K hK).2
  rw [hi] at this
  injection this with this
  exact ⟨_, this⟩

theorem returningUsers_multi_day_witness :
    (["ann@x.com"] : List String).Nodup ∧
    (∀ e, e ∈ ["ann@x.com"] ↔ 2 ≤ distinctDayCount utcEnv sampleCafe "2024-01" e) ∧
    (∀ i, (chartDataOf sampleBuckets).labels.get? i = some "2024-01" →
      (chartDataOf sampleBuckets).returningUsers.get? i =
        some ((monthEmails utcEnv sampleCafe "2024-01").filter
          (fun e => 2 ≤ distinctDayCount utcEnv sampleCafe "2024-01" e)).card) :=
  returningUsers_multi_day utcEnv sampleState sampleCafe sampleBuckets
    (by with_unfolding_all decide) "2024-01"
    { users := ["ann@x.com", "bob@x.com"]
      returningUsers := ["ann@x.com"]
      lastMonthReturningUsers := []
      firstTimeUsers := ["bob@x.com"]
      amount := 39
      visits := [("ann@x.com", [⟨5, 0, 5, 2024⟩, ⟨6, 0, 20, 2024⟩]),
                 ("bob@x.com", [⟨3, 0, 10, 2024⟩])]
      avgVisits := some (JSNum.finite (3 / 2)) }
    (by with_unfolding_all decide)

theorem avgVisits_per_month_witness :
    updateCharts utcEnv sampleState sampleCafe = Except.ok sampleChart ∧
    ((∀ i K, sampleChart.labels.get? i = some K →
        (monthEmails utcEnv sampleCafe K).card ≠ 0 ∧
        sampleChart.avgVisits.get? i = some (some (JSNum.finite
          (((∑ e in monthEmails utcEnv sampleCafe K,
              distinctDayCount utcEnv sampleCafe K e : Nat) : ℚ) /
            ((monthEmails utcEnv sampleCafe K).card : ℚ))))) ∧
      (∀ x ∈ sampleChart.avgVisits, ∃ q, x = some (JSNum.finite q))) :=
  ⟨by with_unfolding_all decide,
   (avgVisits_per_month utcEnv sampleState sampleCafe).1 sampleChart
     (by with_unfolding_all decide)⟩

theorem monthly_uniqueUsers_totalAmount_witness :
    "2024-01" ∈ sampleCafe.map (fun t => formatYearMonth utcEnv t.date) ∧
    ∃ i, sampleChart.labels.get? i = some "2024-01" ∧
      sampleChart.uniqueUsers.get? i =
        some (((monthRecords utcEnv sampleCafe "2024-01").map (fun t => t.email)).toFinset).card ∧
      sampleChart.totalAmount.get? i =
        some ((monthRecords utcEnv sampleCafe "2024-01").map (fun t => t.amount)).sum :=
  ⟨by decide,
   monthly_uniqueUsers_totalAmount utcEnv sampleState sampleCafe sampleChart
    (by with_unfolding_all decide) "2024-01" (by decide)⟩

/-! ## Positions in the sorted label list -/

theorem findIndex_get (l : List String) (x : String) (k : Nat) (hn : l.Nodup)
    (hk : l.get? k = some x) : findIndex (fun y => y == x) l = some k := by
  induction l generalizing k with
  | nil => simp at hk
  | cons a rest ih =>
    simp only [List.nodup_cons] at hn
    cases k with
    | zero =>
      simp only [List.get?_cons_zero, Option.some.injEq] at hk
      simp [findIndex, hk]
    | succ n =>
      simp only [List.get?_cons_succ] at hk
      have hx : x ∈ rest := List.mem_iff_get?.mpr ⟨n, hk⟩
      have hne : a ≠ x := fun e => hn.1 (e ▸ hx)
      simp [findIndex, hne, ih n hn.2 hk]

theorem indexOf_get (l : List String) (x : String) (k : Nat) (hn : l.Nodup)
    (hk : l.get? k = some x) : indexOf l x = (k : Int) := by
  unfold indexOf
  rw [findIndex_get l x k hn hk]

theorem arrayGet_offset (l : List String) (k j : Nat) :
    arrayGet l ((k : Int) - (j : Int)) = if j ≤ k then l.get? (k - j) else none := by
  unfold arrayGet
  by_cases h : j ≤ k
  · have h1 : ¬ ((k : Int) - (j : Int) < 0) := by omega
    have h2 : ((k : Int) - (j : Int)).toNat = k - j := by omega
    simp [h, h1, h2]
  · have h1 : (k : Int) - (j : Int) < 0 := by omega
    simp [h, h1]

theorem formatYearMonth_ne_empty (env : Env) (t : Int) : formatYearMonth env t ≠ "" := by
  intro h
  have := formatYearMonth_has_dash env t
  rw [h] at this
  simp at this

/-- C5: in every bucket that `updateCharts` builds, at position `k` of the sorted label
list: with a window `N > 0` the window-returning set holds (once each) exactly the users of
the bucket that are also users of a bucket at one of the positions `k-1, ..., k-N` that
exist; with `N = 0` it is empty; and with `N = 2` a user of the bucket at position `k-2` and
of this bucket is in the set whatever the bucket at position `k-1` holds.  The emitted count
is the size of the set. -/
theorem windowReturningUsers_by_position (env : Env) (st : State) (data : List Transaction)
    (md : List (String × MonthBucket)) (h : monthlyBuckets env st data = Except.ok md)
    (k : Nat) (K : String) (b : MonthBucket)
    (hk : (chartDataOf md).labels.get? k = some K) (hb : mapGet md K = some b) :
    (0 < st.returningWindow →
      b.lastMonthReturningUsers.Nodup ∧
      ∀ e, e ∈ b.lastMonthReturningUsers ↔
        e ∈ b.users ∧ ∃ j, 1 ≤ j ∧ j ≤ st.returningWindow ∧ j ≤ k ∧
          ∃ K2 b2, (chartDataOf md).labels.get? (k - j) = some K2 ∧
            mapGet md K2 = some b2 ∧ e ∈ b2.users) ∧
    (st.returningWindow = 0 → b.lastMonthReturningUsers = []) ∧
    (st.returningWindow = 2 → ∀ e K2 b2, 2 ≤ k →
      (chartDataOf md).labels.get? (k - 2) = some K2 → mapGet md K2 = some b2 →
      e ∈ b.users → e ∈ b2.users → e ∈ b.lastMonthReturningUsers) ∧
    (chartDataOf md).lastMonthReturningUsers.get? k = some b.lastMonthReturningUsers.length := by
  obtain ⟨g, hG, hkeys, hu, _, _, _, _, hl, _⟩ := bucket_fields env st data md h K b hb
  have hlabels : (chartDataOf md).labels = sortStrings (g.map Prod.fst) := by
    simp only [chartDataOf, hkeys]
  have hnd : (sortStrings (g.map Prod.fst)).Nodup := nodup_sortStrings _ hG.1
  have hKne : K ≠ "" := by
    obtain ⟨_, _, t, _, htK⟩ := label_bucket env st data md h k K hk
    rw [← htK]; exact formatYearMonth_ne_empty env t.date
  have hidx : indexOf (sortStrings (g.map Prod.fst)) K = (k : Int) :=
    indexOf_get _ K k hnd (by rw [← hlabels]; exact hk)
  -- users found `j` places before position `k`
  have hoff : ∀ (j : Nat) (e : String),
      e ∈ usersAtOffset g (sortStrings (g.map Prod.fst)) K (j : Int) ↔
        j ≤ k ∧ ∃ K2 b2, (chartDataOf md).labels.get? (k - j) = some K2 ∧
          mapGet md K2 = some b2 ∧ e ∈ b2.users := by
    intro j e
    unfold usersAtOffset
    rw [hidx, arrayGet_offset, ← hlabels]
    by_cases hj : j ≤ k
    · simp only [hj, if_true, true_and]
      cases hget : (chartDataOf md).labels.get? (k - j) with
      | none => simp
      | some K2 =>
        obtain ⟨b2, hb2, _⟩ := label_bucket env st data md h (k - j) K2 hget
        obtain ⟨g2, _, _, hu2, _⟩ := bucket_fields env st data md h K2 b2 hb2
        have hK2 : K2 ∈ g.map Prod.fst := by
          rw [← hkeys, ← mapGet_isSome_iff, hb2]; rfl
        simp only [grouped_get env data g hG K2 hK2, groupedBucket]
        constructor
        · intro he
          exact ⟨K2, b2, rfl, hb2, hu2 ▸ he⟩
        · rintro ⟨K3, b3, h3, hb3, he⟩
          injection h3 with h3
          subst h3
          rw [hb2] at hb3
          injection hb3 with hb3
          subst hb3
          exact hu2 ▸ he
    · simp [hj]
  have hmem : 0 < st.returningWindow → ∀ e, e ∈ b.lastMonthReturningUsers ↔
      e ∈ b.users ∧ ∃ j, 1 ≤ j ∧ j ≤ st.returningWindow ∧ j ≤ k ∧
        ∃ K2 b2, (chartDataOf md).labels.get? (k - j) = some K2 ∧
          mapGet md K2 = some b2 ∧ e ∈ b2.users := by
    intro hN e
    have hc : K ≠ "" ∧ st.returningWindow > 0 := ⟨hKne, hN⟩
    rw [hl, if_pos hc, mem_setOfList, List.mem_filter, decide_eq_true_eq,
      mem_previousMonthsUsers, hu]
    constructor
    · rintro ⟨he, j, h1, h2, h3⟩
      obtain ⟨h4, h5⟩ := (hoff j e).mp h3
      exact ⟨he, j, h1, h2, h4, h5⟩
    · rintro ⟨he, j, h1, h2, h4, h5⟩
      exact ⟨he, j, h1, h2, (hoff j e).mpr ⟨h4, h5⟩⟩
  refine ⟨fun hN => ⟨?_, hmem hN⟩, fun h0 => ?_, fun h2 e K2 b2 hk2 hg2 hb2 he he2 => ?_,
    (chart_at md k K b hk hb).2.2.1⟩
  · have hc : K ≠ "" ∧ st.returningWindow > 0 := ⟨hKne, hN⟩
    rw [hl, if_pos hc]
    exact nodup_setOfList _
  · have hc : ¬ (K ≠ "" ∧ st.returningWindow > 0) := by omega
    rw [hl, if_neg hc]
  · exact (hmem (by omega) e).mpr ⟨he, 2, by omega, by omega, hk2, K2, b2, hg2, hb2, he2⟩

/-- C4: in every bucket that `updateCharts` builds, for month `M`, the set `firstTimeUsers`
holds (once each) exactly the users `e` of the bucket for which the selected business is not
"all", the business first-visit map has an entry under the key of `e` and the business, the
month of that entry is `M`, and the entry minus the global first visit of `e`, in days, is
at least the threshold; it is empty when the business is "all".  The users of the bucket are
the emails with a record in month `M`, and the emitted count is the size of the set. -/
theorem firstTimeUsers_by_threshold (env : Env) (st : State) (data : List Transaction)
    (md : List (String × MonthBucket)) (h : monthlyBuckets env st data = Except.ok md)
    (M : String) (b : MonthBucket) (hb : mapGet md M = some b) :
    b.firstTimeUsers.Nodup ∧
    (∀ e, e ∈ b.firstTimeUsers ↔
      e ∈ b.users ∧ st.selectedBusiness ≠ "all" ∧
      ∃ businessFirstVisit globalFirstVisit,
        mapGet st.globalUserBusinessFirstVisit (userBusinessKey e st.selectedBusiness) =
          some businessFirstVisit ∧
        formatYearMonth env businessFirstVisit = M ∧
        mapGet st.globalUserFirstVisit e = some globalFirstVisit ∧
        ((businessFirstVisit - globalFirstVisit : Int) : ℚ) / 86400000 ≥
          (st.firstTimeUsersThreshold : ℚ)) ∧
    (st.selectedBusiness = "all" → b.firstTimeUsers = []) ∧
    (∀ e, e ∈ b.users ↔ ∃ t ∈ data, formatYearMonth env t.date = M ∧ t.email = e) ∧
    (∀ i, (chartDataOf md).labels.get? i = some M →
      (chartDataOf md).firstTimeUsers.get? i = some b.firstTimeUsers.length) := by
  obtain ⟨g, _, _, hu, _, _, hft, _⟩ := bucket_fields env st data md h M b hb
  obtain ⟨h1, _, h3⟩ := firstTimeUsersOf_spec env st M _ [] _ hft
  have hmem : ∀ e, e ∈ b.firstTimeUsers ↔
      e ∈ b.users ∧ st.selectedBusiness ≠ "all" ∧
      ∃ businessFirstVisit globalFirstVisit,
        mapGet st.globalUserBusinessFirstVisit (userBusinessKey e st.selectedBusiness) =
          some businessFirstVisit ∧
        formatYearMonth env businessFirstVisit = M ∧
        mapGet st.globalUserFirstVisit e = some globalFirstVisit ∧
        ((businessFirstVisit - globalFirstVisit : Int) : ℚ) / 86400000 ≥
          (st.firstTimeUsersThreshold : ℚ) := by
    intro e
    rw [h1 e, isFirstTimeUser_true_iff, hu]
    simp
  refine ⟨h3 List.nodup_nil, hmem, fun hall => ?_, fun e => ?_, fun i hi => ?_⟩
  · apply List.eq_nil_iff_forall_not_mem.mpr
    intro e he
    exact ((hmem e).mp he).2.1 hall
  · rw [hu]; exact mem_monthUsers env data M e
  · exact (chart_at md i M b hi hb).2.2.2.1

theorem windowReturningUsers_by_position_witness :
    monthlyBuckets utcEnv sampleState sampleCafe = Except.ok sampleBuckets ∧
    (chartDataOf sampleBuckets).labels.get? 2 = some "2024-03" ∧
    (∀ e, e ∈ ["ann@x.com"] ↔
        e ∈ ["ann@x.com"] ∧ ∃ j, 1 ≤ j ∧ j ≤ 2 ∧ j ≤ 2 ∧
          ∃ K2 b2, (chartDataOf sampleBuckets).labels.get? (2 - j) = some K2 ∧
            mapGet sampleBuckets K2 = some b2 ∧ e ∈ b2.users) :=
  ⟨by with_unfolding_all decide, by decide,
   ((windowReturningUsers_by_position utcEnv sampleState sampleCafe sampleBuckets
    (by with_unfolding_all decide) 2 "2024-03"
    { users := ["ann@x.com"]
      returningUsers := []
      lastMonthReturningUsers := ["ann@x.com"]
      firstTimeUsers := []
      amount := 3
      visits := [("ann@x.com", [⟨0, 2, 10, 2024⟩])]
      avgVisits := some (JSNum.finite 1) }
    (by decide) (by with_unfolding_all decide)).1 (by decide)).2⟩

theorem firstTimeUsers_by_threshold_witness :
    monthlyBuckets utcEnv sampleState sampleCafe = Except.ok sampleBuckets ∧
    (∀ e, e ∈ ["bob@x.com"] ↔
      e ∈ ["ann@x.com", "bob@x.com"] ∧ sampleState.selectedBusiness ≠ "all" ∧
      ∃ businessFirstVisit globalFirstVisit,
        mapGet sampleState.globalUserBusinessFirstVisit
          (userBusinessKey e sampleState.selectedBusiness) = some businessFirstVisit ∧
        formatYearMonth utcEnv businessFirstVisit = "2024-01" ∧
        mapGet sampleState.globalUserFirstVisit e = some globalFirstVisit ∧
        ((businessFirstVisit - globalFirstVisit : Int) : ℚ) / 86400000 ≥
          (sampleState.firstTimeUsersThreshold : ℚ)) :=
  ⟨by with_unfolding_all decide,
   (firstTimeUsers_by_threshold utcEnv sampleState sampleCafe sampleBuckets
    (by with_unfolding_all decide) "2024-01"
    { users := ["ann@x.com", "bob@x.com"]
      returningUsers := ["ann@x.com"]
      lastMonthReturningUsers := []
      firstTimeUsers := ["bob@x.com"]
      amount := 39
      visits := [("ann@x.com", [⟨5, 0, 5, 2024⟩, ⟨6, 0, 20, 2024⟩]),
                 ("bob@x.com", [⟨3, 0, 10, 2024⟩])]
      avgVisits := some (JSNum.finite (3 / 2)) }
    (by with_unfolding_all decide)).2.1⟩

/-! ## When `updateCharts` emits -/

theorem isFirstTimeUser_ok (env : Env) (st : State) (month email : String)
    (h : mapGet st.globalUserFirstVisit email ≠ none) :
    ∃ b, isFirstTimeUser env st month email = Except.ok b := by
  unfold isFirstTimeUser
  by_cases hall : st.selectedBusiness = "all"
  · exact ⟨false, by simp [hall]⟩
  · simp only [hall, if_false]
    cases hb : mapGet st.globalUserBusinessFirstVisit (userBusinessKey email st.selectedBusiness) with
    | none => exact ⟨false, rfl⟩
    | some bfv =>
      by_cases hm : formatYearMonth env bfv = month
      · cases hg : mapGet st.globalUserFirstVisit email with
        | none => exact absurd hg h
        | some gfv => simp [hm]
      · exact ⟨false, by simp [hm]⟩

/-- `updateCharts` raises whenever an email of the filtered set names a member of
`Object.prototype`, and emits its series whenever none does and every email of the set has an
entry in the global first-visit map (as it has when the maps were built from a superset). -/
theorem updateCharts_emits (env : Env) (st : State) (data : List Transaction) :
    ((∃ chart, updateCharts env st data = Except.ok chart) →
      ∀ t ∈ data, t.email ∉ objectPrototypeKeys) ∧
    ((∀ t ∈ data, t.email ∉ objectPrototypeKeys) →
      (∀ t ∈ data, mapGet st.globalUserFirstVisit t.email ≠ none) →
      ∃ chart, updateCharts env st data = Except.ok chart) := by
  constructor
  · rintro ⟨chart, h⟩
    obtain ⟨md, hmd, _⟩ := (updateCharts_ok_iff env st data chart).mp h
    obtain ⟨g, _, hG, _⟩ := monthlyBuckets_spec env st data md hmd
    exact hG.2.2.2
  · intro hp hgl
    obtain ⟨g, hg⟩ := groupByMonth_ok env data hp
    have hG := groupByMonth_spec env data g hg
    have hfin := (finishMonths_inv env st (sortStrings (g.map Prod.fst)) g
      (sortStrings (g.map Prod.fst)) g (nodup_sortStrings _ hG.1)
      (fun K hK => (mem_sortStrings _ K).mp hK) rfl (fun _ => rfl) (fun _ _ => rfl)).2
    have hall : ∀ K ∈ sortStrings (g.map Prod.fst), ∃ b,
        finishBucket env st g (sortStrings (g.map Prod.fst)) K
          ((mapGet g K).getD emptyBucket) = Except.ok b := by
      intro K hK
      have hK2 : K ∈ g.map Prod.fst := (mem_sortStrings _ K).mp hK
      rw [grouped_get env data g hG K hK2]
      simp only [Option.getD_some]
      have hft : ∃ r, firstTimeUsersOf env st K [] (groupedBucket env data K).users =
          Except.ok r := by
        apply firstTimeUsersOf_ok
        intro e he
        obtain ⟨t, ht, _, hte⟩ := (mem_monthUsers env data K e).mp he
        exact isFirstTimeUser_ok env st K e (hte ▸ hgl t ht)
      obtain ⟨r, hr⟩ := hft
      unfold finishBucket
      simp only [hr]
      exact ⟨_, rfl⟩
    obtain ⟨md, hmd⟩ := hfin hall
    refine ⟨chartDataOf md, ?_⟩
    unfold updateCharts monthlyBuckets
    simp only [hg, hmd]

/-! ## Month keys: lexical and calendar order -/

theorem toDigitsCore_step (fuel n : Nat) (ds : List Char) :
    Nat.toDigitsCore 10 (fuel + 1) n ds =
      if n / 10 = 0 then Nat.digitChar (n % 10) :: ds
      else Nat.toDigitsCore 10 fuel (n / 10) (Nat.digitChar (n % 10) :: ds) := by
  rfl

theorem toDigits_four (m : Nat) (h1 : 1000 ≤ m) (h2 : m ≤ 9999) :
    Nat.toDigits 10 m = [Nat.digitChar (m / 1000), Nat.digitChar (m / 100 % 10),
      Nat.digitChar (m / 10 % 10), Nat.digitChar (m % 10)] := by
  obtain ⟨k, rfl⟩ : ∃ k, m = k + 1000 := ⟨m - 1000, by omega⟩
  have e1 : (k + 1000) / 10 ≠ 0 := by omega
  have e2 : (k + 1000) / 10 / 10 ≠ 0 := by omega
  have e3 : (k + 1000) / 10 / 10 / 10 ≠ 0 := by omega
  have e4 : (k + 1000) / 10 / 10 / 10 / 10 = 0 := by omega
  have f2 : (k + 1000) / 10 / 10 = (k + 1000) / 100 := by omega
  have f3 : (k + 1000) / 10 / 10 / 10 = (k + 1000) / 1000 := by omega
  have f4 : (k + 1000) / 1000 % 10 = (k + 1000) / 1000 := by omega
  show Nat.toDigitsCore 10 (k + 1000 + 1) (k + 1000) [] = _
  rw [show k + 1000 + 1 = (k + 997) + 1 + 1 + 1 + 1 by omega]
  rw [toDigitsCore_step, if_neg e1, toDigitsCore_step, if_neg e2, toDigitsCore_step, if_neg e3,
    toDigitsCore_step, if_pos e4, f3, f2, f4]

theorem intToString_nat (m : Nat) : (intToString (m : Int)).data = Nat.toDigits 10 m := by
  rfl

theorem digitChar_lt_iff : ∀ a < 10, ∀ b < 10,
    (Nat.digitChar a < Nat.digitChar b ↔ a < b) ∧
      (Nat.digitChar a = Nat.digitChar b ↔ a = b) := by
  decide

theorem month_digits : ∀ m : Nat, m < 12 →
    (padStart2 (intToString ((m : Int) + 1))).data =
      [Nat.digitChar ((m + 1) / 10), Nat.digitChar ((m + 1) % 10)] := by
  decide

theorem ite_in_range (c : Prop) [Decidable c] (a b : Int) (ha : 0 ≤ a ∧ a ≤ 11)
    (hb : 0 ≤ b ∧ b ≤ 11) : 0 ≤ (if c then a else b) ∧ (if c then a else b) ≤ 11 := by
  split_ifs
  · exact ha
  · exact hb

theorem monthFromDay_range (d : Int) : 0 ≤ monthFromDay d ∧ monthFromDay d ≤ 11 := by
  unfold monthFromDay
  iterate 11 (refine ite_in_range _ _ _ ⟨by omega, by omega⟩ ?_)
  exact ⟨by omega, by omega⟩

theorem chars_cons_lt_iff (a b : Char) (as bs : List Char) :
    a :: as < b :: bs ↔ a < b ∨ (a = b ∧ as < bs) := by
  constructor
  · intro h
    cases h with
    | cons h1 => exact Or.inr ⟨rfl, h1⟩
    | rel h1 => exact Or.inl h1
  · rintro (h | ⟨rfl, h⟩)
    · exact List.Lex.rel h
    · exact List.Lex.cons h

theorem formatYearMonth_data (env : Env) (d : Int) (h : fourDigitYear env d) :
    ∃ y m : Nat, (y : Int) = getFullYear env d ∧ (m : Int) = getMonth env d ∧
      1000 ≤ y ∧ y ≤ 9999 ∧ m < 12 ∧
      (formatYearMonth env d).data =
        [Nat.digitChar (y / 1000), Nat.digitChar (y / 100 % 10), Nat.digitChar (y / 10 % 10),
         Nat.digitChar (y % 10), '-', Nat.digitChar ((m + 1) / 10),
         Nat.digitChar ((m + 1) % 10)] := by
  obtain ⟨h1, h2⟩ := h
  obtain ⟨hm1, hm2⟩ := monthFromDay_range (localDay env d)
  obtain ⟨y, hy⟩ : ∃ y : Nat, getFullYear env d = (y : Int) :=
    ⟨(getFullYear env d).toNat, (Int.toNat_of_nonneg (by omega)).symm⟩
  obtain ⟨m, hm⟩ : ∃ m : Nat, getMonth env d = (m : Int) :=
    ⟨(getMonth env d).toNat, (Int.toNat_of_nonneg (by unfold getMonth; omega)).symm⟩
  have hm3 : m < 12 := by
    unfold getMonth at hm; omega
  refine ⟨y, m, hy.symm, hm.symm, by omega, by omega, hm3, ?_⟩
  unfold formatYearMonth
  simp only [String.data_append]
  rw [hm, month_digits m hm3, hy, intToString_nat, toDigits_four y (by omega) (by omega)]
  rfl

/-- For two dates whose years have four digits, the month keys compare lexically as the
calendar months compare. -/
theorem formatYearMonth_lt_iff (env : Env) (d1 d2 : Int) (h1 : fourDigitYear env d1)
    (h2 : fourDigitYear env d2) :
    jsStrLt (formatYearMonth env d1) (formatYearMonth env d2) ↔ calendarMonthBefore env d1 d2 := by
  obtain ⟨y1, m1, ey1, em1, a1, a2, a3, hd1⟩ := formatYearMonth_data env d1 h1
  obtain ⟨y2, m2, ey2, em2, b1, b2, b3, hd2⟩ := formatYearMonth_data env d2 h2
  unfold jsStrLt calendarMonthBefore
  rw [hd1, hd2, ← ey1, ← ey2, ← em1, ← em2]
  simp only [chars_cons_lt_iff]
  have q := digitChar_lt_iff
  have c3 := q (y1 / 1000) (by omega) (y2 / 1000) (by omega)
  have c2 := q (y1 / 100 % 10) (by omega) (y2 / 100 % 10) (by omega)
  have c1 := q (y1 / 10 % 10) (by omega) (y2 / 10 % 10) (by omega)
  have c0 := q (y1 % 10) (by omega) (y2 % 10) (by omega)
  have p1 := q ((m1 + 1) / 10) (by omega) ((m2 + 1) / 10) (by omega)
  have p0 := q ((m1 + 1) % 10) (by omega) ((m2 + 1) % 10) (by omega)
  rw [c3.1, c3.2, c2.1, c2.2, c1.1, c1.2, c0.1, c0.2, p1.1, p1.2, p0.1, p0.2]
  have hnil : ¬ (([] : List Char) < []) := by
    intro h; cases h
  simp only [hnil, and_false, or_false, lt_irrefl, false_or, true_and]
  omega

/-! ## The claims on the first-visit tracker -/

/-- C3: after `calculateFirstVisitDates`, for every email that occurs in the dataset the
entry `globalFirstVisit[email]` exists, is at most the date of every record with that email
and is the date of one of them; and after the `forEach` has processed any prefix of the
dataset, an entry of either map holds `v` under a key exactly when `v` is the earliest date
among the records of the prefix with that key. -/
theorem globalFirstVisit_minimum (data : List Transaction) :
    (∀ email, (∃ t ∈ data, t.email = email) →
      ∃ v, mapGet (calculateFirstVisitDates data).1 email = some v ∧
        (∀ t ∈ data, t.email = email → v ≤ t.date) ∧
        (∃ t ∈ data, t.email = email ∧ t.date = v)) ∧
    (∀ pre rest, data = pre ++ rest →
      (∀ k v, mapGet (pre.foldl firstVisitItem ([], [])).1 k = some v ↔
        IsEarliest globalKey pre k v) ∧
      (∀ k v, mapGet (pre.foldl firstVisitItem ([], [])).2 k = some v ↔
        IsEarliest businessKey pre k v)) := by
  constructor
  · rintro email ⟨t, ht, hte⟩
    have hex := firstVisit_exists globalKey data t ht
    obtain ⟨v, hv⟩ := hex
    have hv2 : mapGet (calculateFirstVisitDates data).1 email = some v := by
      unfold calculateFirstVisitDates
      rw [firstVisits_fst, ← hte]
      exact hv
    obtain ⟨⟨u, hu, huk, hud⟩, hmin⟩ := (globalFirstVisit_iff data email v).mp hv2
    exact ⟨v, hv2, fun w hw hwe => hmin w hw hwe, u, hu, huk, hud⟩
  · intro pre rest _
    exact ⟨fun k v => globalFirstVisit_iff pre k v, fun k v => businessFirstVisit_iff pre k v⟩

theorem globalFirstVisit_minimum_witness :
    (∃ t ∈ sampleData, t.email = "ann@x.com") ∧
    ∃ v, mapGet (calculateFirstVisitDates sampleData).1 "ann@x.com" = some v ∧
      (∀ t ∈ sampleData, t.email = "ann@x.com" → v ≤ t.date) ∧
      (∃ t ∈ sampleData, t.email = "ann@x.com" ∧ t.date = v) :=
  ⟨⟨⟨"ann@x.com", "Cafe-NY", 1704412800000, 10⟩, by simp [sampleData], rfl⟩,
   (globalFirstVisit_minimum sampleData).1 "ann@x.com"
    ⟨⟨"ann@x.com", "Cafe-NY", 1704412800000, 10⟩, by simp [sampleData], rfl⟩⟩

/-- C2 at its failing input: "sam" visits "7-Eleven" once, on 20 January 2024, yet the
business first-visit map, read the way the aggregator reads it for ("sam", "7-Eleven"),
holds 5 January 2024, the date of the only visit of "sam-7" to "Eleven", because both pairs
are stored under the key "sam-7-Eleven". -/
theorem businessFirstVisit_key_collision :
    (collisionData.filter (fun t => decide (t.email = "sam" ∧
        extractBusinessName t.merchant = "7-Eleven"))).map (fun t => t.date) =
      [1705708800000] ∧
    (collisionData.filter (fun t => decide (t.email = "sam-7" ∧
        extractBusinessName t.merchant = "Eleven"))).map (fun t => t.date) =
      [1704412800000] ∧
    userBusinessKey "sam" "7-Eleven" = userBusinessKey "sam-7" "Eleven" ∧
    mapGet (calculateFirstVisitDates collisionData).2 (userBusinessKey "sam" "7-Eleven") =
      some 1704412800000 := by
  decide

/-! ## The claim on the scalar average -/

/-- C9 at its failing input: for one user with two records on the same day,
`calculateAverageVisits` returns 2 (records per user), while the user has one distinct day of
visits, which is also what the monthly series reports (`avgVisits` 1). -/
theorem calculateAverageVisits_counts_records :
    calculateAverageVisits sameDayData = JSNum.finite 2 ∧
    ((sameDayData.map (fun t => localDay utcEnv t.date)).toFinset).card = 1 ∧
    ((sameDayData.map (fun t => t.email)).toFinset).card = 1 ∧
    (updateCharts utcEnv initialState sameDayData).toOption.map (fun c => c.avgVisits) =
      some [some (JSNum.finite 1)] := by
  refine ⟨?_, by decide, by decide, ?_⟩
  · with_unfolding_all decide
  · with_unfolding_all decide

/-! ## The claim on the order of the labels -/

theorem sortStrings_sorted (l : List String) : (sortStrings l).Pairwise jsStrLe :=
  List.sorted_insertionSort jsStrLe l

theorem sortStrings_strict (l : List String) (h : l.Nodup) : (sortStrings l).Pairwise jsStrLt := by
  have h1 := sortStrings_sorted l
  have h2 : (sortStrings l).Pairwise (fun a b => a ≠ b) := nodup_sortStrings l h
  refine (h1.and h2).imp ?_
  rintro a b ⟨hle, hne⟩
  have hd : a.data ≠ b.data := fun e => hne (String.ext e)
  exact lt_of_le_of_ne hle hd

/-- C10: `formatYearMonth` is to format a date as YYYY-MM (script.js 57), and it pads the
month to two digits but not the year to four.  In the UTC zone the month key of 15 December
999 is "999-12", not "0999-12", and it is lexically greater than "1000-01", the key of
15 January 1000, a later calendar month; loaded from a file, the two records are emitted
under the labels "1000-01", "999-12", the later month first. -/
theorem formatYearMonth_unpadded_year :
    formatYearMonth utcEnv (-30611692800000) = "999-12" ∧
    formatYearMonth utcEnv (-30609014400000) = "1000-01" ∧
    calendarMonthBefore utcEnv (-30611692800000) (-30609014400000) ∧
    ¬ jsStrLt (formatYearMonth utcEnv (-30611692800000))
        (formatYearMonth utcEnv (-30609014400000)) ∧
    (processData utcEnv earlyYearsCsv initialState).toOption.map (fun s => s.transactionData) =
      some earlyYearsData ∧
    (updateCharts utcEnv initialState earlyYearsData).toOption.map (fun c => c.labels) =
      some ["1000-01", "999-12"] := by
  refine ⟨by decide, by decide, by decide, by decide, ?_, ?_⟩
  · rw [processData_standard_header utcEnv earlyYearsCsv initialState
      ["a@x.com,Store-NY,0999-12-15,10.00", "a@x.com,Store-NY,1000-01-15,20.00"] (by decide)]
    with_unfolding_all rfl
  · with_unfolding_all decide

/-- Whenever `updateCharts` emits its series, the labels are pairwise distinct and strictly
ascending in lexical order; for any two dates whose local years lie in
1000..9999 the month key of the first is lexically smaller than that of the second if and
only if its calendar month is earlier; hence when every record of the set has such a year the
labels are in ascending chronological order of their calendar months. -/
theorem labels_ascending (env : Env) (st : State) (data : List Transaction) (chart : ChartData)
    (h : updateCharts env st data = Except.ok chart) :
    chart.labels.Nodup ∧
    chart.labels.Pairwise jsStrLt ∧
    (∀ d1 d2, fourDigitYear env d1 → fourDigitYear env d2 →
      (jsStrLt (formatYearMonth env d1) (formatYearMonth env d2) ↔
        calendarMonthBefore env d1 d2)) ∧
    ((∀ t ∈ data, fourDigitYear env t.date) →
      chart.labels.Pairwise (fun a b => ∀ t1 ∈ data, ∀ t2 ∈ data,
        formatYearMonth env t1.date = a → formatYearMonth env t2.date = b →
        calendarMonthBefore env t1.date t2.date)) := by
  obtain ⟨md, hmd, rfl⟩ := (updateCharts_ok_iff env st data chart).mp h
  obtain ⟨g, _, hG, hkeys, _⟩ := monthlyBuckets_spec env st data md hmd
  have hnd : (md.map Prod.fst).Nodup := by rw [hkeys]; exact hG.1
  have hstrict : (chartDataOf md).labels.Pairwise jsStrLt := sortStrings_strict _ hnd
  refine ⟨nodup_sortStrings _ hnd, hstrict, fun d1 d2 h1 h2 => formatYearMonth_lt_iff env d1 d2 h1 h2,
    fun hall => ?_⟩
  refine hstrict.imp ?_
  intro a b hab t1 ht1 t2 ht2 e1 e2
  rw [← e1, ← e2] at hab
  exact (formatYearMonth_lt_iff env t1.date t2.date (hall t1 ht1) (hall t2 ht2)).mp hab

theorem labels_ascending_witness :
    updateCharts utcEnv sampleState sampleCafe = Except.ok sampleChart ∧
    sampleChart.labels.Nodup ∧
    sampleChart.labels.Pairwise jsStrLt ∧
    (∀ d1 d2, fourDigitYear utcEnv d1 → fourDigitYear utcEnv d2 →
      (jsStrLt (formatYearMonth utcEnv d1) (formatYearMonth utcEnv d2) ↔
        calendarMonthBefore utcEnv d1 d2)) ∧
    ((∀ t ∈ sampleCafe, fourDigitYear utcEnv t.date) →
      sampleChart.labels.Pairwise (fun a b => ∀ t1 ∈ sampleCafe, ∀ t2 ∈ sampleCafe,
        formatYearMonth utcEnv t1.date = a → formatYearMonth utcEnv t2.date = b →
        calendarMonthBefore utcEnv t1.date t2.date)) :=
  ⟨by with_unfolding_all decide,
   labels_ascending utcEnv sampleState sampleCafe sampleChart (by with_unfolding_all decide)⟩

/-! ## The end-to-end scenario -/

theorem scenario_load (env : Env) :
    processData env scenarioCsv initialState = Except.ok scenarioLoaded := by
  rw [processData_standard_header env scenarioCsv initialState
    ["a@x.com,Store-NY,2024-01-05,10.00", "a@x.com,Store-NY,2024-01-20,20.00",
     "b@x.com,Store-LA,2024-01-10,5.00"] (by decide)]
  have hr : rowsOfLines env 0 1 2 3 ["a@x.com,Store-NY,2024-01-05,10.00",
     "a@x.com,Store-NY,2024-01-20,20.00", "b@x.com,Store-LA,2024-01-10,5.00"] =
      scenarioRecords := by
    with_unfolding_all rfl
  rw [hr]
  rfl

theorem scenario_days (env : Env) (h1 : -43200000 ≤ env.tzOffsetMs)
    (h2 : env.tzOffsetMs ≤ 50400000) :
    (localDay env 1704412800000 = 19727 ∧ localDay env 1705708800000 = 19742 ∧
      localDay env 1704844800000 = 19732) ∨
    (localDay env 1704412800000 = 19726 ∧ localDay env 1705708800000 = 19741 ∧
      localDay env 1704844800000 = 19731) := by
  unfold localDay localTime day msPerDay
  omega

theorem fmt_of_day (env : Env) (t d : Int) (h : localDay env t = d) :
    formatYearMonth env t =
      intToString (yearFromDay d) ++ "-" ++ padStart2 (intToString (monthFromDay d + 1)) := by
  simp only [formatYearMonth, getFullYear, getMonth, h]

theorem dateString_of_day (env : Env) (t d : Int) (h : localDay env t = d) :
    toDateString env t = ⟨weekDay d, monthFromDay d, dateFromDay d, yearFromDay d⟩ := by
  simp only [toDateString, getFullYear, getMonth, getDate, h]

theorem scenario_months (env : Env) (h1 : -43200000 ≤ env.tzOffsetMs)
    (h2 : env.tzOffsetMs ≤ 50400000) :
    formatYearMonth env 1704412800000 = "2024-01" ∧
    formatYearMonth env 1705708800000 = "2024-01" ∧
    formatYearMonth env 1704844800000 = "2024-01" := by
  rcases scenario_days env h1 h2 with ⟨ha, hb, hc⟩ | ⟨ha, hb, hc⟩ <;>
    (rw [fmt_of_day env _ _ ha, fmt_of_day env _ _ hb, fmt_of_day env _ _ hc]; decide)

theorem scenario_filter (env : Env) :
    filterByBusiness (scenarioView env scenarioLoaded) = scenarioRecords := by
  with_unfolding_all rfl

theorem scenario_periods (env : Env) :
    setDefaultPeriods (scenarioView env scenarioLoaded) scenarioRecords =
      scenarioView env scenarioLoaded := by
  rfl

theorem scenario_current (env : Env) (h1 : -43200000 ≤ env.tzOffsetMs)
    (h2 : env.tzOffsetMs ≤ 50400000) :
    currentPeriodData env (scenarioView env scenarioLoaded) scenarioRecords = scenarioRecords := by
  have hs : startOfDay env (some (19723 * msPerDay - env.tzOffsetMs)) =
      some (19723 * 86400000 - env.tzOffsetMs) := by
    have e : localDay env (19723 * 86400000 - env.tzOffsetMs) = 19723 := by
      unfold localDay localTime day msPerDay; omega
    simp only [startOfDay, Option.bind, timeClip, msPerDay]
    rw [e, if_pos (by omega)]
  have he : endOfDay env (some (19753 * msPerDay - env.tzOffsetMs)) =
      some (19753 * 86400000 + 86399999 - env.tzOffsetMs) := by
    have e : localDay env (19753 * 86400000 - env.tzOffsetMs) = 19753 := by
      unfold localDay localTime day msPerDay; omega
    simp only [endOfDay, Option.bind, timeClip, msPerDay]
    rw [e, if_pos (by omega)]
  have hin : ∀ d : Int, 1704412800000 ≤ d → d ≤ 1705708800000 →
      dateInRange (some (19723 * 86400000 - env.tzOffsetMs))
        (some (19753 * 86400000 + 86399999 - env.tzOffsetMs)) d = true := by
    intro d hd1 hd2
    simp only [dateInRange, decide_eq_true_eq]
    omega
  simp only [currentPeriodData, scenarioView, filterByRange, hs, he, scenarioRecords,
    List.filter_cons, hin _ (le_refl _) (by decide), hin _ (by decide) (le_refl _),
    hin 1704844800000 (by decide) (by decide), if_true, List.filter_nil]

theorem trackVisit_ok (visits : List (String × List DateString)) (email : String)
    (d : DateString) (h : email ∉ objectPrototypeKeys) :
    ∃ next, trackVisit visits email d = Except.ok next := by
  unfold trackVisit objGet
  cases mapGet visits email with
  | none => simp [h]
  | some v => exact ⟨_, rfl⟩

theorem userVisitDays_ok (env : Env) (data : List Transaction)
    (uv : List (String × List DateString))
    (h : ∀ t ∈ data, t.email ∉ objectPrototypeKeys) :
    ∃ r, userVisitDays env uv data = Except.ok r := by
  induction data generalizing uv with
  | nil => exact ⟨uv, rfl⟩
  | cons t rest ih =>
    obtain ⟨next, hn⟩ := trackVisit_ok uv t.email (toDateString env t.date) (h t (by simp))
    obtain ⟨r, hr⟩ := ih next (fun u hu => h u (List.mem_cons_of_mem _ hu))
    exact ⟨r, by simp only [userVisitDays, hn, hr]⟩

theorem scenario_firstTime (env : Env) (h1 : -43200000 ≤ env.tzOffsetMs)
    (h2 : env.tzOffsetMs ≤ 50400000) :
    firstTimeUsersOf env (scenarioView env scenarioLoaded) "2024-01" [] ["a@x.com", "b@x.com"] =
      Except.ok [] := by
  obtain ⟨m1, _, m3⟩ := scenario_months env h1 h2
  have ha : isFirstTimeUser env (scenarioView env scenarioLoaded) "2024-01" "a@x.com" =
      Except.ok false := by
    have hb : mapGet (scenarioView env scenarioLoaded).globalUserBusinessFirstVisit
        (userBusinessKey "a@x.com" (scenarioView env scenarioLoaded).selectedBusiness) =
          some 1704412800000 := by
      show mapGet scenarioLoaded.globalUserBusinessFirstVisit
        (userBusinessKey "a@x.com" "Store") = some 1704412800000
      decide
    have hg : mapGet (scenarioView env scenarioLoaded).globalUserFirstVisit "a@x.com" =
        some 1704412800000 := by
      show mapGet scenarioLoaded.globalUserFirstVisit "a@x.com" = some 1704412800000
      decide
    have hs : (scenarioView env scenarioLoaded).selectedBusiness ≠ "all" := by
      show "Store" ≠ "all"
      decide
    have ht : (scenarioView env scenarioLoaded).firstTimeUsersThreshold = 1 := rfl
    unfold isFirstTimeUser
    rw [if_neg hs, hb]
    simp only [m1, ne_eq, not_true_eq_false, if_false, hg, ht]
    norm_num
  have hb : isFirstTimeUser env (scenarioView env scenarioLoaded) "2024-01" "b@x.com" =
      Except.ok false := by
    have hb : mapGet (scenarioView env scenarioLoaded).globalUserBusinessFirstVisit
        (userBusinessKey "b@x.com" (scenarioView env scenarioLoaded).selectedBusiness) =
          some 1704844800000 := by
      show mapGet scenarioLoaded.globalUserBusinessFirstVisit
        (userBusinessKey "b@x.com" "Store") = some 1704844800000
      decide
    have hg : mapGet (scenarioView env scenarioLoaded).globalUserFirstVisit "b@x.com" =
        some 1704844800000 := by
      show mapGet scenarioLoaded.globalUserFirstVisit "b@x.com" = some 1704844800000
      decide
    have hs : (scenarioView env scenarioLoaded).selectedBusiness ≠ "all" := by
      show "Store" ≠ "all"
      decide
    have ht : (scenarioView env scenarioLoaded).firstTimeUsersThreshold = 1 := rfl
    unfold isFirstTimeUser
    rw [if_neg hs, hb]
    simp only [m3, ne_eq, not_true_eq_false, if_false, hg, ht]
    norm_num
  simp only [firstTimeUsersOf, ha, hb]

theorem scenario_grouped (env : Env) (h1 : -43200000 ≤ env.tzOffsetMs)
    (h2 : env.tzOffsetMs ≤ 50400000) :
    groupByMonth env [] scenarioRecords = Except.ok [("2024-01",
      { users := ["a@x.com", "b@x.com"]
        returningUsers := []
        lastMonthReturningUsers := []
        firstTimeUsers := []
        amount := 35
        visits := [("a@x.com", [toDateString env 1704412800000, toDateString env 1705708800000]),
                   ("b@x.com", [toDateString env 1704844800000])]
        avgVisits := none })] := by
  obtain ⟨m1, m2, m3⟩ := scenario_months env h1 h2
  rcases scenario_days env h1 h2 with ⟨ha, hb, hc⟩ | ⟨ha, hb, hc⟩ <;>
  · simp only [groupByMonth, groupItem, scenarioRecords, m1, m2, m3,
      dateString_of_day env _ _ ha, dateString_of_day env _ _ hb, dateString_of_day env _ _ hc]
    with_unfolding_all rfl

/-- The object `monthlyData` that `updateCharts` builds in the scenario. -/
theorem scenario_monthlyBuckets (env : Env) (h1 : -43200000 ≤ env.tzOffsetMs)
    (h2 : env.tzOffsetMs ≤ 50400000) :
    monthlyBuckets env (scenarioView env scenarioLoaded) scenarioRecords =
      Except.ok [("2024-01", scenarioBucket env)] := by
  have hft := scenario_firstTime env h1 h2
  have hw : (scenarioView env scenarioLoaded).returningWindow = 1 := rfl
  have hs : sortStrings ["2024-01"] = ["2024-01"] := by decide
  unfold monthlyBuckets
  rw [scenario_grouped env h1 h2]
  simp only [List.map_cons, List.map_nil, hs, finishMonths, finishBucket, mapGet, if_true,
    Option.getD_some, hft, hw]
  with_unfolding_all rfl

theorem scenario_dashboard (env : Env) (h1 : -43200000 ≤ env.tzOffsetMs)
    (h2 : env.tzOffsetMs ≤ 50400000) :
    ∃ dash, (filterAndUpdateDashboard env (scenarioView env scenarioLoaded)).2 = Except.ok dash ∧
      dash.charts = some (chartDataOf [("2024-01", scenarioBucket env)]) := by
  obtain ⟨uv, huv⟩ := userVisitDays_ok env scenarioRecords [] (by decide)
  have hp : previousPeriodData env (scenarioView env scenarioLoaded) scenarioRecords = [] := rfl
  have hc : updateCharts env (scenarioView env scenarioLoaded) scenarioRecords =
      Except.ok (chartDataOf [("2024-01", scenarioBucket env)]) := by
    unfold updateCharts
    rw [scenario_monthlyBuckets env h1 h2]
  have hl : scenarioRecords.length > 0 := by decide
  unfold filterAndUpdateDashboard
  simp only [scenario_filter, scenario_periods]
  unfold updateDashboard
  simp only [scenario_current env h1 h2, huv, hp, userVisitDays, hc, hl, if_true]
  exact ⟨_, rfl, rfl⟩

/-- C1: the end-to-end scenario.  In any zone between UTC-12:00 and UTC+14:00, loading the
file of the scenario succeeds; then, with business "Store", location "all" and the current
range 1 to 31 January 2024, `filterAndUpdateDashboard` produces charts with exactly one
label, "2024-01", with `uniqueUsers` 2, `totalAmount` 35, one multi-visit user and
`avgVisits` 3/2; the bucket of that month has the users a@x.com and b@x.com, its multi-visit
set is exactly a@x.com, who has 2 distinct days, and b@x.com has 1. -/
theorem scenario_end_to_end (env : Env) (h1 : -43200000 ≤ env.tzOffsetMs)
    (h2 : env.tzOffsetMs ≤ 50400000) :
    ∃ st dash chart md b daysA daysB,
      processData env scenarioCsv initialState = Except.ok st ∧
      (filterAndUpdateDashboard env (scenarioView env st)).2 = Except.ok dash ∧
      dash.charts = some chart ∧
      chart.labels = ["2024-01"] ∧
      chart.uniqueUsers = [2] ∧
      chart.totalAmount = [35] ∧
      chart.returningUsers = [1] ∧
      chart.avgVisits = [some (JSNum.finite (3 / 2))] ∧
      monthlyBuckets env (scenarioView env st)
        (currentPeriodData env (scenarioView env st) (filterByBusiness (scenarioView env st))) =
          Except.ok md ∧
      chart = chartDataOf md ∧
      md.map Prod.fst = ["2024-01"] ∧
      mapGet md "2024-01" = some b ∧
      b.users = ["a@x.com", "b@x.com"] ∧
      b.returningUsers = ["a@x.com"] ∧
      mapGet b.visits "a@x.com" = some daysA ∧ daysA.Nodup ∧ daysA.length = 2 ∧
      mapGet b.visits "b@x.com" = some daysB ∧ daysB.length = 1 := by
  have hne : toDateString env 1704412800000 ≠ toDateString env 1705708800000 := by
    rw [Ne, toDateString_eq_iff]
    unfold localDay localTime day msPerDay
    omega
  obtain ⟨dash, hd1, hd2⟩ := scenario_dashboard env h1 h2
  refine ⟨scenarioLoaded, dash, chartDataOf [("2024-01", scenarioBucket env)],
    [("2024-01", scenarioBucket env)], scenarioBucket env,
    [toDateString env 1704412800000, toDateString env 1705708800000],
    [toDateString env 1704844800000], scenario_load env, hd1, hd2, ?_⟩
  rw [scenario_filter, scenario_current env h1 h2]
  refine ⟨?_, ?_, ?_, ?_, ?_, scenario_monthlyBuckets env h1 h2, rfl, rfl, ?_, rfl, rfl, ?_, ?_,
    rfl, ?_, rfl⟩
  · with_unfolding_all rfl
  · with_unfolding_all rfl
  · with_unfolding_all rfl
  · with_unfolding_all rfl
  · with_unfolding_all rfl
  · with_unfolding_all rfl
  · with_unfolding_all rfl
  · simp [hne]
  · with_unfolding_all rfl

theorem scenario_end_to_end_witness :
    (-43200000 ≤ utcEnv.tzOffsetMs ∧ utcEnv.tzOffsetMs ≤ 50400000) ∧
    ∃ st dash chart md b daysA daysB,
      processData utcEnv scenarioCsv initialState = Except.ok st ∧
      (filterAndUpdateDashboard utcEnv (scenarioView utcEnv st)).2 = Except.ok dash ∧
      dash.charts = some chart ∧
      chart.labels = ["2024-01"] ∧
      chart.uniqueUsers = [2] ∧
      chart.totalAmount = [35] ∧
      chart.returningUsers = [1] ∧
      chart.avgVisits = [some (JSNum.finite (3 / 2))] ∧
      monthlyBuckets utcEnv (scenarioView utcEnv st)
        (currentPeriodData utcEnv (scenarioView utcEnv st)
          (filterByBusiness (scenarioView utcEnv st))) = Except.ok md ∧
      chart = chartDataOf md ∧
      md.map Prod.fst = ["2024-01"] ∧
      mapGet md "2024-01" = some b ∧
      b.users = ["a@x.com", "b@x.com"] ∧
      b.returningUsers = ["a@x.com"] ∧
      mapGet b.visits "a@x.com" = some daysA ∧ daysA.Nodup ∧ daysA.length = 2 ∧
      mapGet b.visits "b@x.com" = some daysB ∧ daysB.length = 1 :=
  ⟨⟨by decide, by decide⟩, scenario_end_to_end utcEnv (by decide) (by decide)⟩

/-! ## The tokenizer -/

theorem parseCSVLoop_length (cs : List Char) :
    ∀ (current : List Char) (inQuotes skip : Bool) (result : List String),
      (parseCSVLoop cs current inQuotes skip result).length =
        result.length + 1 + splitCommas cs inQuotes skip := by
  induction cs with
  | nil => intro current inQuotes skip result; simp [parseCSVLoop, splitCommas]
  | cons c rest ih =>
    intro current inQuotes skip result
    unfold parseCSVLoop splitCommas
    split_ifs <;> simp only [ih, List.length_append, List.length_singleton]
    all_goals omega

theorem splitCommas_eq_parity (cs : List Char) :
    ∀ (inQuotes skip : Bool), (skip = true → cs.head? = some '"') →
      splitCommas cs inQuotes skip = commasOutsideQuotes cs (xor inQuotes skip) := by
  induction cs with
  | nil => intro inQuotes skip _; simp [splitCommas, commasOutsideQuotes]
  | cons c rest ih =>
    intro inQuotes skip hskip
    unfold splitCommas commasOutsideQuotes
    by_cases hs : skip = true
    · have hc : c = '"' := by simpa using hskip hs
      subst hs
      rw [if_pos rfl, if_pos hc, ih inQuotes false (by simp)]
      simp
    · have hs2 : skip = false := by simpa using hs
      subst hs2
      simp only [Bool.false_eq_true, if_false, Bool.xor_false]
      by_cases hc : c = '"'
      · simp only [hc, if_true]
        by_cases hq : inQuotes = true ∧ rest.head? = some '"'
        · rw [if_pos hq, ih inQuotes true (fun _ => hq.2)]
          simp
        · rw [if_neg hq, ih (!inQuotes) false (by simp)]
          simp
      · simp only [hc, if_false]
        split_ifs <;> rw [ih inQuotes false (by simp)] <;> simp

/-- Inside quotes, characters other than the double quote are appended to the current field,
commas included, up to the closing quote. -/
theorem parseCSVLoop_quoted (cs : List Char) (hcs : '"' ∉ cs) :
    ∀ (current : List Char) (result : List String),
      parseCSVLoop (cs ++ ['"']) current true false result =
        result ++ [jsTrim ⟨current ++ cs⟩] := by
  induction cs with
  | nil => intro current result; simp [parseCSVLoop]
  | cons c rest ih =>
    intro current result
    have hc : c ≠ '"' := fun h => hcs (by simp [h])
    have hrest : '"' ∉ rest := fun h => hcs (by simp [h])
    rw [List.cons_append]
    unfold parseCSVLoop
    simp only [Bool.false_eq_true, if_false, hc, Bool.true_eq_false, and_false]
    rw [ih hrest]
    simp

/-- Outside quotes, a run of characters that are neither commas nor quotes is appended to
the current field. -/
theorem parseCSVLoop_plain (f : List Char) (hf : needsQuotes f = false) :
    ∀ (tail current : List Char) (result : List String),
      parseCSVLoop (f ++ tail) current false false result =
        parseCSVLoop tail (current ++ f) false false result := by
  induction f with
  | nil => intro tail current result; simp
  | cons c rest ih =>
    intro tail current result
    have h1 : c ≠ ',' ∧ c ≠ '"' ∧ needsQuotes rest = false := by
      simpa [needsQuotes, not_or, and_assoc] using hf
    rw [List.cons_append]
    conv_lhs => unfold parseCSVLoop
    simp only [Bool.false_eq_true, if_false, h1.2.1, h1.1, false_and]
    rw [ih h1.2.2]
    simp

/-- Inside quotes, the doubled form of a field followed by the closing quote appends the
field to the current one and leaves the quotes, when no quote follows the closing one. -/
theorem parseCSVLoop_doubled (f : List Char) :
    ∀ (tail current : List Char) (result : List String), tail.head? ≠ some '"' →
      parseCSVLoop (doubleQuotes f ++ '"' :: tail) current true false result =
        parseCSVLoop tail (current ++ f) false false result := by
  induction f with
  | nil =>
    intro tail current result htail
    simp only [doubleQuotes, List.nil_append, List.append_nil]
    conv_lhs => unfold parseCSVLoop
    simp [htail]
  | cons c rest ih =>
    intro tail current result htail
    by_cases hc : c = '"'
    · subst hc
      simp only [doubleQuotes, if_true, List.cons_append]
      conv_lhs => unfold parseCSVLoop
      simp only [Bool.false_eq_true, if_false, if_true, List.head?_cons, and_self]
      conv_lhs => unfold parseCSVLoop
      simp only [if_true]
      rw [ih tail _ result htail]
      simp
    · simp only [doubleQuotes, hc, if_false, List.cons_append]
      conv_lhs => unfold parseCSVLoop
      simp only [Bool.false_eq_true, if_false, hc, Bool.true_eq_false, and_false]
      rw [ih tail _ result htail]
      simp

/-- The written form of a field, read from the start of a field, appends the field to the
current one, when no quote follows it. -/
theorem parseCSVLoop_field (f : String) (tail current : List Char) (result : List String)
    (htail : tail.head? ≠ some '"') :
    parseCSVLoop ((serializeField f).data ++ tail) current false false result =
      parseCSVLoop tail (current ++ f.data) false false result := by
  unfold serializeField
  by_cases hq : needsQuotes f.data = true
  · rw [if_pos hq]
    simp only [List.cons_append, List.append_assoc, List.singleton_append]
    conv_lhs => unfold parseCSVLoop
    simp only [Bool.false_eq_true, if_false, if_true, false_and, Bool.not_false]
    exact parseCSVLoop_doubled f.data tail current result htail
  · rw [if_neg hq]
    exact parseCSVLoop_plain f.data (by simpa using hq) tail current result

theorem serialize_cons_cons (f g : String) (rest : List String) :
    (serialize (f :: g :: rest)).data =
      (serializeField f).data ++ ',' :: (serialize (g :: rest)).data := by
  simp [serialize, jsJoin, String.data_append]

theorem parseCSVLoop_serialize (fields : List String) (hne : fields ≠ []) :
    ∀ (result : List String),
      parseCSVLoop (serialize fields).data [] false false result =
        result ++ fields.map jsTrim := by
  induction fields with
  | nil => exact absurd rfl hne
  | cons f rest ih =>
    intro result
    cases rest with
    | nil =>
      have h := parseCSVLoop_field f [] [] result (by simp)
      simp only [List.append_nil, List.nil_append] at h
      simp only [serialize, List.map_cons, List.map_nil, jsJoin, h]
      simp [parseCSVLoop, jsTrim]
    | cons g rest2 =>
      rw [serialize_cons_cons,
        parseCSVLoop_field f _ [] result (by simp)]
      conv_lhs => unfold parseCSVLoop
      have hcomma : (',' : Char) ≠ '"' := by decide
      simp only [Bool.false_eq_true, if_false, List.nil_append, hcomma, and_self, if_true]
      rw [ih (by simp)]
      simp [jsTrim]

theorem map_eq_self_iff {α : Type} (f : α → α) (l : List α) :
    l.map f = l ↔ ∀ x ∈ l, f x = x := by
  induction l with
  | nil => simp
  | cons a rest ih => simp [ih]

/-- C20: for every line, `parseCSVLine` returns one field more than the number of commas
its scan reads while the flag `inQuotes` is off, and these are the commas preceded by an even
number of double-quote characters; a string without a double quote, wrapped in double quotes,
comes back as one trimmed field whatever commas it contains; every input yields a result,
also with an unbalanced quote. -/
theorem parseCSVLine_splits_outside_quotes :
    (∀ line : String,
      (parseCSVLine line).length = splitCommas line.data false false + 1 ∧
      splitCommas line.data false false = commasOutsideQuotes line.data false ∧
      parseCSVLine line ≠ []) ∧
    (∀ f : String, '"' ∉ f.data → parseCSVLine ("\"" ++ f ++ "\"") = [jsTrim f]) ∧
    parseCSVLine "a,\"b,c" = ["a", "b,c"] := by
  refine ⟨fun line => ?_, fun f hf => ?_, by decide⟩
  · have hlen : (parseCSVLine line).length = splitCommas line.data false false + 1 := by
      unfold parseCSVLine
      rw [parseCSVLoop_length]
      simp
      omega
    refine ⟨hlen, ?_, ?_⟩
    · rw [splitCommas_eq_parity line.data false false (by simp)]
      simp
    · intro h
      rw [h] at hlen
      simp at hlen
  · unfold parseCSVLine
    have hdata : ("\"" ++ f ++ "\"").data = '"' :: (f.data ++ ['"']) := by
      simp [String.data_append]
    rw [hdata]
    conv_lhs => unfold parseCSVLoop
    simp only [Bool.false_eq_true, if_false, if_true, false_and, Bool.not_false]
    rw [parseCSVLoop_quoted f.data hf]
    simp

theorem parseCSVLine_splits_outside_quotes_witness :
    '"' ∉ "a, b,c ".data ∧ parseCSVLine ("\"" ++ "a, b,c " ++ "\"") = [jsTrim "a, b,c "] :=
  ⟨by decide, parseCSVLine_splits_outside_quotes.2.1 "a, b,c " (by decide)⟩

/-- C19 at its failing inputs: a field with a leading blank comes back trimmed, and the empty
sequence of fields comes back as one empty field. -/
theorem serialize_roundtrip_counterexample :
    parseCSVLine (serialize [" a"]) = ["a"] ∧
    parseCSVLine (serialize [" a"]) ≠ [" a"] ∧
    parseCSVLine (serialize ["x, y", " \"q\" "]) = ["x, y", "\"q\""] ∧
    parseCSVLine (serialize []) = [""] ∧
    parseCSVLine (serialize []) ≠ [] := by
  decide

/-- C19, amended: for every non-empty sequence of fields (with commas, quotes and embedded
quotes), `parseCSVLine (serialize fields)` is the sequence of the trimmed fields; it equals
`fields` exactly when the sequence is not empty and no field has leading or trailing white
space. -/
theorem parseCSVLine_serialize (fields : List String) :
    (fields ≠ [] → parseCSVLine (serialize fields) = fields.map jsTrim) ∧
    (parseCSVLine (serialize fields) = fields ↔ fields ≠ [] ∧ ∀ f ∈ fields, jsTrim f = f) := by
  have h1 : fields ≠ [] → parseCSVLine (serialize fields) = fields.map jsTrim := by
    intro hne
    unfold parseCSVLine
    rw [parseCSVLoop_serialize fields hne]
    simp
  refine ⟨h1, ?_⟩
  by_cases hne : fields = []
  · subst hne
    simp only [ne_eq, not_true_eq_false, false_and, iff_false]
    decide
  · rw [h1 hne, map_eq_self_iff]
    simp [hne]

theorem parseCSVLine_serialize_witness :
    ["a,b", "say \"hi\"", "plain"] ≠ [] ∧
    parseCSVLine (serialize ["a,b", "say \"hi\"", "plain"]) =
      ["a,b", "say \"hi\"", "plain"].map jsTrim :=
  ⟨by decide, (parseCSVLine_serialize ["a,b", "say \"hi\"", "plain"]).1 (by decide)⟩

/-! ## The date fallback -/

/-- C18 at its failing inputs: on a host whose native parser rejects them, `13/25/2024` and
`31-02-2024` split into three parts of which neither reading (day/month/year,
month/day/year) is a calendar date, yet `parseDate` does not raise: the `Date` constructor
carries the overflow, and the results are 13 January 2026 and 2 March 2024. -/
theorem parseDate_rolls_over :
    nativeDateParse utcEnv "13/25/2024" = none ∧
    jsSplit (fun c => c == '/' || c == '-') "13/25/2024" = ["13", "25", "2024"] ∧
    validCalendarDate 2024 25 13 = false ∧ validCalendarDate 2024 13 25 = false ∧
    parseDate utcEnv (some "13/25/2024") = Except.ok 1768262400000 ∧
    toDateString utcEnv 1768262400000 = { weekday := 2, month := 0, date := 13, year := 2026 } ∧
    nativeDateParse utcEnv "31-02-2024" = none ∧
    jsSplit (fun c => c == '/' || c == '-') "31-02-2024" = ["31", "02", "2024"] ∧
    validCalendarDate 2024 2 31 = false ∧ validCalendarDate 2024 31 2 = false ∧
    parseDate utcEnv (some "31-02-2024") = Except.ok 1709337600000 ∧
    toDateString utcEnv 1709337600000 = { weekday := 6, month := 2, date := 2, year := 2024 } := by
  refine ⟨by decide, by decide, by decide, by decide, ?_, by decide, by decide, by decide,
    by decide, by decide, ?_, by decide⟩
  · with_unfolding_all decide
  · with_unfolding_all decide

/-! ## The period filter -/

theorem startOfDay_some (env : Env) (s lo : Int) (h : startOfDay env (some s) = some lo) :
    lo = localDay env s * 86400000 - env.tzOffsetMs := by
  unfold startOfDay timeClip at h
  simp only [Option.some_bind, msPerDay] at h
  split_ifs at h
  exact (Option.some.inj h).symm

theorem endOfDay_some (env : Env) (e hi : Int) (h : endOfDay env (some e) = some hi) :
    hi = localDay env e * 86400000 + 86399999 - env.tzOffsetMs := by
  unfold endOfDay timeClip at h
  simp only [Option.some_bind, msPerDay] at h
  split_ifs at h
  exact (Option.some.inj h).symm

theorem localDay_eq (env : Env) (t : Int) : localDay env t = (t + env.tzOffsetMs) / 86400000 := rfl

theorem localTime_eq (env : Env) (t : Int) : localTime env t = t + env.tzOffsetMs := rfl

/-- C11: for every range whose two bounds, normalised by `setHours`, are dates, the date
filter of `updateDashboard` keeps, in their order, exactly the records dated from
00:00:00.000 of the local day of `start` to 23:59:59.999 of the local day of `end`, that is
the records whose local calendar day lies between those of `start` and `end`; a record dated
at `start` 00:00:00 or at `end` 23:59:59 is kept when `start` is not after `end`, one dated
00:00:01 of the day after `end` is dropped; the current and the previous range go through the
same filter. -/
theorem dateFilter_inclusive (env : Env) (start finish lo hi : Int) (data : List Transaction)
    (hlo : startOfDay env (some start) = some lo) (hhi : endOfDay env (some finish) = some hi) :
    (localDay env lo = localDay env start ∧ localTime env lo % msPerDay = 0) ∧
    (localDay env hi = localDay env finish ∧ localTime env hi % msPerDay = 86399999) ∧
    filterByRange env (some start, some finish) data =
      data.filter (fun item => decide (lo ≤ item.date ∧ item.date ≤ hi)) ∧
    (∀ item, item ∈ filterByRange env (some start, some finish) data ↔
      item ∈ data ∧ lo ≤ item.date ∧ item.date ≤ hi) ∧
    (∀ item, item ∈ filterByRange env (some start, some finish) data ↔
      item ∈ data ∧ localDay env start ≤ localDay env item.date ∧
        localDay env item.date ≤ localDay env finish) ∧
    (∀ item ∈ data, localDay env start ≤ localDay env finish →
      (item.date = lo ∨ item.date = hi - 999) →
      item ∈ filterByRange env (some start, some finish) data) ∧
    (∀ item ∈ data, item.date = hi + 1001 →
      item ∉ filterByRange env (some start, some finish) data) ∧
    (∀ st : State,
      (st.currentDateRange = some (some start, some finish) →
        currentPeriodData env st data = filterByRange env (some start, some finish) data) ∧
      (st.previousDateRange = some (some start, some finish) →
        previousPeriodData env st data = filterByRange env (some start, some finish) data)) := by
  have elo := startOfDay_some env start lo hlo
  have ehi := endOfDay_some env finish hi hhi
  have hfilter : filterByRange env (some start, some finish) data =
      data.filter (fun item => decide (lo ≤ item.date ∧ item.date ≤ hi)) := by
    unfold filterByRange
    simp only [hlo, hhi, dateInRange]
  have hmem : ∀ item, item ∈ filterByRange env (some start, some finish) data ↔
      item ∈ data ∧ lo ≤ item.date ∧ item.date ≤ hi := by
    intro item
    rw [hfilter]
    simp [List.mem_filter]
  have hday : ∀ d : Int, (lo ≤ d ∧ d ≤ hi) ↔
      (localDay env start ≤ localDay env d ∧ localDay env d ≤ localDay env finish) := by
    intro d
    rw [elo, ehi]
    simp only [localDay_eq]
    generalize (start + env.tzOffsetMs) / 86400000 = a
    generalize (finish + env.tzOffsetMs) / 86400000 = b
    omega
  refine ⟨?_, ?_, hfilter, hmem, ?_, ?_, ?_, ?_⟩
  · rw [elo]
    simp only [localDay_eq, localTime_eq, msPerDay]
    generalize (start + env.tzOffsetMs) / 86400000 = a
    omega
  · rw [ehi]
    simp only [localDay_eq, localTime_eq, msPerDay]
    generalize (finish + env.tzOffsetMs) / 86400000 = b
    omega
  · intro item
    rw [hmem, hday]
  · intro item hitem hle hdate
    rw [hmem]
    refine ⟨hitem, ?_⟩
    rw [elo, ehi] at *
    rcases hdate with h | h <;> rw [h] <;> omega
  · intro item _ hdate hin
    have := ((hmem item).mp hin).2.2
    omega
  · intro st
    refine ⟨fun h => ?_, fun h => ?_⟩
    · simp [currentPeriodData, h]
    · simp [previousPeriodData, h]

theorem dateFilter_inclusive_witness :
    startOfDay utcEnv (some 1704416400000) = some 1704412800000 ∧
    endOfDay utcEnv (some 1705737600000) = some 1705795199999 ∧
    (filterByRange utcEnv (some 1704416400000, some 1705737600000) edgeData).map
      (fun item => item.date) = [1704412800000, 1705795199000] ∧
    filterByRange utcEnv (some 1704416400000, some 1705737600000) edgeData =
      edgeData.filter (fun item => decide (1704412800000 ≤ item.date ∧
        item.date ≤ 1705795199999)) :=
  ⟨by decide, by decide, by decide,
   (dateFilter_inclusive utcEnv 1704416400000 1705737600000 1704412800000 1705795199999
      edgeData (by decide) (by decide)).2.2.1⟩

/-- C12: the business and location filter of `filterAndUpdateDashboard` keeps, in their
order, exactly the records that pass both tests (the business selector is "all" or equals
`extractBusinessName` of the merchant; the location selector is "all" or equals
`extractLocation` of the merchant); with both selectors "all" the records are returned
unchanged; the filtered records are what `updateDashboard` is given. -/
theorem businessLocationFilter (env : Env) (st : State) :
    filterByBusiness st = st.transactionData.filter (fun item => decide (
      (st.selectedBusiness = "all" ∨ extractBusinessName item.merchant = st.selectedBusiness) ∧
      (st.selectedLocation = "all" ∨ extractLocation item.merchant = st.selectedLocation))) ∧
    (∀ item, item ∈ filterByBusiness st ↔ item ∈ st.transactionData ∧
      (st.selectedBusiness = "all" ∨ extractBusinessName item.merchant = st.selectedBusiness) ∧
      (st.selectedLocation = "all" ∨ extractLocation item.merchant = st.selectedLocation)) ∧
    (filterByBusiness st).Sublist st.transactionData ∧
    (st.selectedBusiness = "all" → st.selectedLocation = "all" →
      filterByBusiness st = st.transactionData) ∧
    (filterAndUpdateDashboard env st).2 =
      updateDashboard env (filterAndUpdateDashboard env st).1 (filterByBusiness st) := by
  have hfilter : filterByBusiness st = st.transactionData.filter (fun item => decide (
      (st.selectedBusiness = "all" ∨ extractBusinessName item.merchant = st.selectedBusiness) ∧
      (st.selectedLocation = "all" ∨ extractLocation item.merchant = st.selectedLocation))) := by
    unfold filterByBusiness
    by_cases h : st.selectedBusiness ≠ "all" ∨ st.selectedLocation ≠ "all"
    · rw [if_pos h]
    · rw [if_neg h]
      have h2 : st.selectedBusiness = "all" ∧ st.selectedLocation = "all" := by
        simpa [not_or] using h
      simp [h2.1, h2.2]
  refine ⟨hfilter, fun item => ?_, ?_, fun hb hl => ?_, rfl⟩
  · rw [hfilter]
    simp [List.mem_filter]
  · rw [hfilter]
    exact List.filter_sublist _
  · unfold filterByBusiness
    simp [hb, hl]

theorem businessLocationFilter_witness :
    initialState.selectedBusiness = "all" ∧ initialState.selectedLocation = "all" ∧
    filterByBusiness { initialState with transactionData := sampleData } = sampleData :=
  ⟨rfl, rfl, (businessLocationFilter utcEnv { initialState with transactionData := sampleData }).2.2.2.1
    rfl rfl⟩

/-! ## The default periods -/

/-- The last element of a list sorted by date has the latest date. -/
theorem getLast?_of_pairwise (l : List Transaction) (hs : l.Pairwise dateLe)
    (x : Transaction) (hx : l.getLast? = some x) : ∀ t ∈ l, t.date ≤ x.date := by
  induction l with
  | nil => simp at hx
  | cons a rest ih =>
    intro t ht
    cases rest with
    | nil =>
      simp only [List.getLast?_singleton, Option.some.injEq] at hx
      simp only [List.mem_singleton] at ht
      rw [ht, hx]
    | cons b rest2 =>
      rw [List.getLast?_cons_cons] at hx
      have hp := List.pairwise_cons.mp hs
      rcases List.mem_cons.mp ht with h | h
      · have hxm : x ∈ b :: rest2 := List.mem_of_getLast?_eq_some hx
        rw [h]
        exact hp.1 x hxm
      · exact ih hp.2 hx t h

/-- The record that ends the sorted copy of a non-empty list has the latest date of the
list. -/
theorem latest_of_sorted (data : List Transaction) (hne : data ≠ []) :
    ∃ x, (List.insertionSort dateLe data).getLast? = some x ∧ x ∈ data ∧
      ∀ t ∈ data, t.date ≤ x.date := by
  have hperm := List.perm_insertionSort dateLe data
  have hne2 : List.insertionSort dateLe data ≠ [] := by
    intro h
    rw [h] at hperm
    exact hne (List.Perm.eq_nil (List.Perm.symm hperm))
  refine ⟨(List.insertionSort dateLe data).getLast hne2, List.getLast?_eq_getLast _ hne2, ?_, ?_⟩
  · exact hperm.subset (List.getLast_mem hne2)
  · intro t ht
    exact getLast?_of_pairwise _ (List.sorted_insertionSort dateLe data) _
      (List.getLast?_eq_getLast _ hne2) t (hperm.symm.subset ht)

theorem addDays_some (t n r : Int) (hr : r = t + n * 86400000)
    (h1 : -8640000000000000 ≤ r) (h2 : r ≤ 8640000000000000) :
    addDays (some t) n = some r := by
  subst hr
  simp [addDays, timeClip, msPerDay, h1, h2]

/-- C13: when no current range is set and the business/location-filtered records are not
empty (all of them dates at least 59 days after the earliest date a `Date` can hold),
`filterAndUpdateDashboard` sets the current range to [L − 29 days, L] and the previous range
to [L − 59 days, L − 30 days], where L is the latest date among those records; the previous
range ends on the calendar day before the one the current range starts on, and each range
covers 30 calendar days. -/
theorem defaultPeriods (env : Env) (st : State) (hnone : st.currentDateRange = none)
    (hne : filterByBusiness st ≠ [])
    (hvalid : ∀ t ∈ filterByBusiness st,
      -8640000000000000 + 59 * 86400000 ≤ t.date ∧ t.date ≤ 8640000000000000) :
    ∃ L : Int, (∃ t ∈ filterByBusiness st, t.date = L) ∧
      (∀ t ∈ filterByBusiness st, t.date ≤ L) ∧
      (filterAndUpdateDashboard env st).1.currentDateRange =
        some (some (L - 29 * 86400000), some L) ∧
      (filterAndUpdateDashboard env st).1.previousDateRange =
        some (some (L - 59 * 86400000), some (L - 30 * 86400000)) ∧
      localDay env (L - 30 * 86400000) = localDay env (L - 29 * 86400000) - 1 ∧
      localDay env L - localDay env (L - 29 * 86400000) + 1 = 30 ∧
      localDay env (L - 30 * 86400000) - localDay env (L - 59 * 86400000) + 1 = 30 := by
  obtain ⟨x, hlast, hx, hmax⟩ := latest_of_sorted (filterByBusiness st) hne
  have hb := hvalid x hx
  have e1 : addDays (some x.date) (-29) = some (x.date - 29 * 86400000) :=
    addDays_some _ _ _ (by omega) (by omega) (by omega)
  have e2 : addDays (some (x.date - 29 * 86400000)) (-1) = some (x.date - 30 * 86400000) :=
    addDays_some _ _ _ (by omega) (by omega) (by omega)
  have e3 : addDays (some (x.date - 30 * 86400000)) (-29) = some (x.date - 59 * 86400000) :=
    addDays_some _ _ _ (by omega) (by omega) (by omega)
  have hst : (filterAndUpdateDashboard env st).1 =
      { st with
        currentDateRange := some (some (x.date - 29 * 86400000), some x.date)
        previousDateRange :=
          some (some (x.date - 59 * 86400000), some (x.date - 30 * 86400000)) } := by
    unfold filterAndUpdateDashboard setDefaultPeriods
    simp only [hnone, Option.isNone_none, true_and, ne_eq, hne, not_false_eq_true, if_true,
      hlast, Option.map_some', e1, e2, e3]
  refine ⟨x.date, ⟨x, hx, rfl⟩, hmax, by rw [hst], by rw [hst], ?_, ?_, ?_⟩ <;>
    (simp only [localDay_eq]; omega)

theorem defaultPeriods_witness :
    (filterByBusiness { initialState with transactionData := edgeData }).map
      (fun t => t.date) = [1704412800000, 1705795199000, 1705795201000] ∧
    ∃ L : Int, (∃ t ∈ filterByBusiness { initialState with transactionData := edgeData },
        t.date = L) ∧
      (∀ t ∈ filterByBusiness { initialState with transactionData := edgeData }, t.date ≤ L) ∧
      (filterAndUpdateDashboard utcEnv
        { initialState with transactionData := edgeData }).1.currentDateRange =
          some (some (L - 29 * 86400000), some L) ∧
      (filterAndUpdateDashboard utcEnv
        { initialState with transactionData := edgeData }).1.previousDateRange =
          some (some (L - 59 * 86400000), some (L - 30 * 86400000)) ∧
      localDay utcEnv (L - 30 * 86400000) = localDay utcEnv (L - 29 * 86400000) - 1 ∧
      localDay utcEnv L - localDay utcEnv (L - 29 * 86400000) + 1 = 30 ∧
      localDay utcEnv (L - 30 * 86400000) - localDay utcEnv (L - 59 * 86400000) + 1 = 30 :=
  ⟨by decide,
   defaultPeriods utcEnv { initialState with transactionData := edgeData } rfl (by decide)
    (by
      intro t ht
      have h : t ∈ edgeData := ht
      simp only [edgeData, List.mem_cons, List.mem_singleton, List.not_mem_nil, or_false] at h
      rcases h with h | h | h <;> rw [h] <;> constructor <;> decide)⟩

/-! ## Lower case and the tokenizer -/

theorem toLower_cases (c : Char) :
    c.toLower = c ∨ (65 ≤ c.toNat ∧ c.toNat ≤ 90 ∧ c.toLower.toNat = c.toNat + 32) := by
  by_cases h : 65 ≤ c.toNat ∧ c.toNat ≤ 90
  · right
    refine ⟨h.1, h.2, ?_⟩
    have hc : c = Char.ofNat c.toNat := (Char.ofNat_toNat c).symm
    obtain ⟨h1, h2⟩ := h
    generalize c.toNat = n at hc h1 h2
    subst hc
    interval_cases n <;> rfl
  · left
    unfold Char.toLower
    simp only [ge_iff_le]
    rw [if_neg h]

theorem isJsWhitespace_false_of_range (c : Char) (h1 : 65 ≤ c.toNat) (h2 : c.toNat ≤ 122) :
    isJsWhitespace c = false := by
  unfold isJsWhitespace
  simp only [List.mem_cons, List.mem_singleton, List.not_mem_nil, or_false, Bool.or_eq_false_iff,
    decide_eq_false_iff_not]
  omega

theorem toLower_eq_quote (c : Char) : c.toLower = '"' ↔ c = '"' := by
  rcases toLower_cases c with h | ⟨h1, h2, h3⟩
  · rw [h]
  · constructor
    · intro h
      rw [h] at h3
      have : ('"' : Char).toNat = 34 := rfl
      omega
    · intro h
      rw [h] at h1
      have : ('"' : Char).toNat = 34 := rfl
      omega

theorem toLower_eq_comma (c : Char) : c.toLower = ',' ↔ c = ',' := by
  rcases toLower_cases c with h | ⟨h1, h2, h3⟩
  · rw [h]
  · constructor
    · intro h
      rw [h] at h3
      have : (',' : Char).toNat = 44 := rfl
      omega
    · intro h
      rw [h] at h1
      have : (',' : Char).toNat = 44 := rfl
      omega

theorem isJsWhitespace_toLower (c : Char) : isJsWhitespace c.toLower = isJsWhitespace c := by
  rcases toLower_cases c with h | ⟨h1, h2, h3⟩
  · rw [h]
  · rw [isJsWhitespace_false_of_range c h1 (by omega),
      isJsWhitespace_false_of_range c.toLower (by omega) (by omega)]

theorem dropWhile_whitespace_map (cs : List Char) :
    (cs.map Char.toLower).dropWhile isJsWhitespace =
      (cs.dropWhile isJsWhitespace).map Char.toLower := by
  induction cs with
  | nil => rfl
  | cons c rest ih =>
    simp only [List.map_cons, List.dropWhile_cons, isJsWhitespace_toLower]
    split
    · exact ih
    · rfl

theorem trimChars_map (cs : List Char) :
    trimChars (cs.map Char.toLower) = (trimChars cs).map Char.toLower := by
  unfold trimChars
  rw [dropWhile_whitespace_map, ← List.map_reverse, dropWhile_whitespace_map, List.map_reverse]

theorem jsTrim_asciiLower (s : String) : jsTrim (asciiLower s) = asciiLower (jsTrim s) := by
  unfold jsTrim asciiLower
  simp only [trimChars_map]

/-- Folding the letters of a line to lower case commutes with the scan of `parseCSVLine`:
quotes, commas and white space are not letters. -/
theorem parseCSVLoop_lower (cs : List Char) :
    ∀ (current : List Char) (inQuotes skip : Bool) (result : List String),
      parseCSVLoop (cs.map Char.toLower) (current.map Char.toLower) inQuotes skip
          (result.map asciiLower) =
        (parseCSVLoop cs current inQuotes skip result).map asciiLower := by
  induction cs with
  | nil =>
    intro current inQuotes skip result
    simp only [List.map_nil, parseCSVLoop, List.map_append, List.map_cons]
    congr 2
    exact jsTrim_asciiLower ⟨current⟩
  | cons c rest ih =>
    intro current inQuotes skip result
    rw [List.map_cons]
    unfold parseCSVLoop
    have hhead : (rest.map Char.toLower).head? = some '"' ↔ rest.head? = some '"' := by
      cases rest with
      | nil => simp
      | cons d rest2 => simp [toLower_eq_quote]
    simp only [toLower_eq_quote, toLower_eq_comma, hhead]
    have e1 : current.map Char.toLower ++ ['"'] = (current ++ ['"']).map Char.toLower := by
      simp
    have e2 : current.map Char.toLower ++ [c.toLower] = (current ++ [c]).map Char.toLower := by
      simp
    have e3 : result.map asciiLower ++ [jsTrim ⟨current.map Char.toLower⟩] =
        (result ++ [jsTrim ⟨current⟩]).map asciiLower := by
      simp only [List.map_append, List.map_cons, List.map_nil]
      congr 2
      exact jsTrim_asciiLower ⟨current⟩
    have e4 : ([] : List Char) = ([] : List Char).map Char.toLower := rfl
    split_ifs
    · exact ih current inQuotes false result
    · rw [e1]; exact ih _ inQuotes true result
    · exact ih current (!inQuotes) false result
    · rw [e3]
      conv_lhs => rw [e4]
      exact ih [] inQuotes false _
    · rw [e2]; exact ih _ inQuotes false result

theorem parseCSVLine_asciiLower (line : String) :
    parseCSVLine (asciiLower line) = (parseCSVLine line).map asciiLower := by
  unfold parseCSVLine
  exact parseCSVLoop_lower line.data [] false false []

theorem toLowerCase_ascii (env : Env) (s : String) (h : ∀ c ∈ s.data, c.toNat < 128) :
    toLowerCase env s = asciiLower s := by
  unfold toLowerCase asciiLower
  rw [if_pos]
  simpa using h

/-! ## The header -/

theorem findIndex_isNone (p : String → Bool) (l : List String) :
    (findIndex p l).isNone = l.all (fun x => !p x) := by
  induction l with
  | nil => rfl
  | cons a rest ih =>
    unfold findIndex
    by_cases h : p a = true
    · simp [h]
    · have hp : p a = false := by simpa using h
      rw [if_neg h]
      simp only [List.all_cons, hp, Bool.not_false, Bool.true_and, ← ih]
      cases findIndex p rest <;> rfl

theorem findIndex_map (p : String → Bool) (f : String → String) (l : List String) :
    findIndex p (l.map f) = findIndex (fun x => p (f x)) l := by
  induction l with
  | nil => rfl
  | cons a rest ih => simp only [List.map_cons, findIndex, ih]

theorem findIndex_of_mem (p : String → Bool) (l : List String) (x : String) (hx : x ∈ l)
    (hp : p x = true) : ∃ i, findIndex p l = some i := by
  cases h : findIndex p l with
  | some i => exact ⟨i, rfl⟩
  | none =>
    have h2 := findIndex_isNone p l
    rw [h] at h2
    have h3 : l.all (fun x => !p x) = true := by rw [← h2]; rfl
    have h4 := List.all_eq_true.mp h3 x hx
    simp [hp] at h4

/-- What `findIndex` returns is the first position that passes the test. -/
theorem findIndex_some (p : String → Bool) (l : List String) (i : Nat)
    (h : findIndex p l = some i) :
    (∃ x, l.get? i = some x ∧ p x = true) ∧
      ∀ j y, j < i → l.get? j = some y → p y = false := by
  induction l generalizing i with
  | nil => simp [findIndex] at h
  | cons a rest ih =>
    unfold findIndex at h
    by_cases hp : p a = true
    · rw [if_pos hp] at h
      have hi : i = 0 := (Option.some.inj h).symm
      subst hi
      exact ⟨⟨a, rfl, hp⟩, fun j y hj => absurd hj (Nat.not_lt_zero j)⟩
    · rw [if_neg hp] at h
      cases hrest : findIndex p rest with
      | none => rw [hrest] at h; simp at h
      | some k =>
        rw [hrest] at h
        have hi : i = k + 1 := (Option.some.inj h).symm
        subst hi
        obtain ⟨hx, hfirst⟩ := ih k hrest
        refine ⟨hx, fun j y hj hy => ?_⟩
        cases j with
        | zero =>
          simp only [List.get?_cons_zero, Option.some.injEq] at hy
          rw [← hy]
          simpa using hp
        | succ m => exact hfirst m y (by omega) hy

theorem missingColumns_eq (headers : List String) :
    missingColumns (columnIndex ["user email"] headers) (columnIndex ["merchant"] headers)
        (columnIndex ["date"] headers) (columnIndex ["transaction amount"] headers) =
      unresolvedColumns headers := by
  unfold missingColumns unresolvedColumns columnMappings columnIndex
  simp only [List.filter_cons, List.filter_nil, findIndex_isNone]
  split_ifs <;> rfl

theorem unresolvedColumns_eq_nil (headers : List String) :
    unresolvedColumns headers = [] ↔
      ∃ ie im id ia, columnIndex ["user email"] headers = some ie ∧
        columnIndex ["merchant"] headers = some im ∧
        columnIndex ["date"] headers = some id ∧
        columnIndex ["transaction amount"] headers = some ia := by
  rw [← missingColumns_eq]
  unfold missingColumns
  cases columnIndex ["user email"] headers <;> cases columnIndex ["merchant"] headers <;>
    cases columnIndex ["date"] headers <;>
    cases columnIndex ["transaction amount"] headers <;> simp

/-- A call of `processData` on a file whose header resolves the four columns. -/
theorem processData_ok (env : Env) (csvText : String) (st : State) (ie im id ia : Nat)
    (h1 : columnIndex ["user email"] (headerRow env csvText) = some ie)
    (h2 : columnIndex ["merchant"] (headerRow env csvText) = some im)
    (h3 : columnIndex ["date"] (headerRow env csvText) = some id)
    (h4 : columnIndex ["transaction amount"] (headerRow env csvText) = some ia) :
    processData env csvText st = Except.ok { st with
      transactionData := rowsOfLines env ie im id ia (dataLines csvText)
      globalUserFirstVisit :=
        (calculateFirstVisitDates (rowsOfLines env ie im id ia (dataLines csvText))).1
      globalUserBusinessFirstVisit :=
        (calculateFirstVisitDates (rowsOfLines env ie im id ia (dataLines csvText))).2
      selectedBusiness := "all"
      selectedLocation := "all" } := by
  unfold columnIndex headerRow headerLine at h1 h2 h3 h4
  unfold processData dataLines
  simp only [h1, h2, h3, h4]

/-- A call of `processData` on a file whose header leaves a column unresolved. -/
theorem processData_error (env : Env) (csvText : String) (st : State)
    (h : unresolvedColumns (headerRow env csvText) ≠ []) :
    processData env csvText st = Except.error (JSError.error ("Missing required columns: "
      ++ jsJoin ", " (unresolvedColumns (headerRow env csvText))
      ++ ". Please ensure your CSV file has the necessary columns.")) := by
  rw [← missingColumns_eq] at h ⊢
  unfold columnIndex headerRow headerLine at h ⊢
  unfold processData
  dsimp only
  cases h1 : findIndex (fun header => ["user email"].contains header)
      (parseCSVLine (toLowerCase env ((jsSplit (fun c => c == '\n') csvText).headD ""))) <;>
    cases h2 : findIndex (fun header => ["merchant"].contains header)
      (parseCSVLine (toLowerCase env ((jsSplit (fun c => c == '\n') csvText).headD ""))) <;>
    cases h3 : findIndex (fun header => ["date"].contains header)
      (parseCSVLine (toLowerCase env ((jsSplit (fun c => c == '\n') csvText).headD ""))) <;>
    cases h4 : findIndex (fun header => ["transaction amount"].contains header)
      (parseCSVLine (toLowerCase env ((jsSplit (fun c => c == '\n') csvText).headD ""))) <;>
    first
    | rfl
    | (exfalso; rw [h1, h2, h3, h4] at h; exact h rfl)

/-! ## The rows -/

theorem parseDate_none (env : Env) :
    parseDate env none =
      Except.error (JSError.typeError "Cannot read properties of undefined (reading 'split')") :=
  rfl

/-- A data line yields the record it stands for, and no record when it stands for none. -/
theorem rowOfLine_eq_some_iff (env : Env) (ie im id ia : Nat) (line : String)
    (t : Transaction) :
    rowOfLine env ie im id ia line = some t ↔ IsRecordOf env ie im id ia line t := by
  unfold rowOfLine IsRecordOf
  simp only [List.get?_eq_getElem?]
  generalize parseCSVLine line = values
  obtain ⟨te, tm, td, ta⟩ := t
  cases hd : values[id]? with
  | none => simp [parseDate_none]
  | some s =>
    cases hp : parseDate env (some s) with
    | error e => simp [hp]
    | ok date =>
      cases ha : values[ia]? with
      | none => simp
      | some raw =>
        cases hf : parseFloat (stripNonNumeric raw) with
        | none => simp [hf]
        | some amount =>
          cases he : values[ie]? with
          | none => simp
          | some email =>
            cases hm : values[im]? with
            | none => simp
            | some merchant =>
              simp only [hp, hf, Option.some.injEq, exists_eq_left', Except.ok.injEq]
              by_cases hem : email = "" ∨ merchant = ""
              · rw [if_pos hem]
                constructor
                · intro h; cases h
                · rintro ⟨h1, h2, h3, h4, _⟩
                  rcases hem with h | h
                  · exact absurd (h1 ▸ h) h2
                  · exact absurd (h3 ▸ h) h4
              · rw [if_neg hem]
                simp only [Option.some.injEq, Transaction.mk.injEq]
                have hem2 := not_or.mp hem
                constructor
                · rintro ⟨h1, h2, h3, h4⟩
                  subst h1 h2 h3 h4
                  exact ⟨rfl, hem2.1, rfl, hem2.2, rfl, rfl⟩
                · rintro ⟨h1, _, h3, _, h5, h6⟩
                  exact ⟨h1, h3, h5, h6⟩

theorem rowOfLine_short (env : Env) (ie im id ia : Nat) (line : String)
    (h : (parseCSVLine line).length ≤ max (max ie im) (max id ia)) :
    rowOfLine env ie im id ia line = none := by
  cases hrow : rowOfLine env ie im id ia line with
  | none => rfl
  | some t =>
    exfalso
    obtain ⟨h1, _, h3, _, ⟨s, h5, _⟩, ⟨raw, h6, _⟩⟩ :=
      (rowOfLine_eq_some_iff env ie im id ia line t).mp hrow
    have l1 := (List.get?_eq_some.mp h1).1
    have l3 := (List.get?_eq_some.mp h3).1
    have l5 := (List.get?_eq_some.mp h5).1
    have l6 := (List.get?_eq_some.mp h6).1
    omega

/-- The loop over the data lines keeps, in the order of the file, the record of every line
that stands for one. -/
theorem rowsOfLines_eq (env : Env) (ie im id ia : Nat) (lines : List String) :
    rowsOfLines env ie im id ia lines =
      lines.filterMap (fun raw =>
        if jsTrim raw = "" then none else rowOfLine env ie im id ia (jsTrim raw)) := rfl

theorem mem_rowsOfLines (env : Env) (ie im id ia : Nat) (lines : List String)
    (t : Transaction) :
    t ∈ rowsOfLines env ie im id ia lines ↔
      ∃ raw ∈ lines, jsTrim raw ≠ "" ∧ IsRecordOf env ie im id ia (jsTrim raw) t := by
  rw [rowsOfLines_eq, List.mem_filterMap]
  constructor
  · rintro ⟨raw, hraw, h⟩
    by_cases hb : jsTrim raw = ""
    · simp [hb] at h
    · rw [if_neg hb] at h
      exact ⟨raw, hraw, hb, (rowOfLine_eq_some_iff env ie im id ia _ t).mp h⟩
  · rintro ⟨raw, hraw, hb, h⟩
    refine ⟨raw, hraw, ?_⟩
    rw [if_neg hb]
    exact (rowOfLine_eq_some_iff env ie im id ia _ t).mpr h

/-! ## The claims on loading -/

/-- The state that a successful call of `processData` leaves, from the column indices. -/
theorem processData_resolved (env : Env) (csvText : String)
    (h : unresolvedColumns (headerRow env csvText) = []) :
    ∃ ie im id ia, columnIndex ["user email"] (headerRow env csvText) = some ie ∧
      columnIndex ["merchant"] (headerRow env csvText) = some im ∧
      columnIndex ["date"] (headerRow env csvText) = some id ∧
      columnIndex ["transaction amount"] (headerRow env csvText) = some ia ∧
      ∀ st : State, processData env csvText st = Except.ok { st with
        transactionData := rowsOfLines env ie im id ia (dataLines csvText)
        globalUserFirstVisit :=
          (calculateFirstVisitDates (rowsOfLines env ie im id ia (dataLines csvText))).1
        globalUserBusinessFirstVisit :=
          (calculateFirstVisitDates (rowsOfLines env ie im id ia (dataLines csvText))).2
        selectedBusiness := "all"
        selectedLocation := "all" } := by
  obtain ⟨ie, im, id, ia, h1, h2, h3, h4⟩ := (unresolvedColumns_eq_nil _).mp h
  exact ⟨ie, im, id, ia, h1, h2, h3, h4,
    fun st => processData_ok env csvText st ie im id ia h1 h2 h3 h4⟩

theorem mem_unresolvedColumns (headers : List String) (column : String) :
    column ∈ unresolvedColumns headers ↔
      ∃ names, (column, names) ∈ columnMappings ∧ ∀ name ∈ names, name ∉ headers := by
  unfold unresolvedColumns
  simp only [List.mem_map, List.mem_filter, List.all_eq_true, Bool.not_eq_true',
    List.contains_eq_any_beq, List.any_eq_false, beq_iff_eq, Prod.exists, exists_and_right,
    exists_eq_right]
  constructor
  · rintro ⟨names, hmem, hall⟩
    exact ⟨names, hmem, fun name hname hin => hall name hin name hname rfl⟩
  · rintro ⟨names, hmem, hall⟩
    exact ⟨names, hmem, fun header hheader name hname e => hall name hname (e ▸ hheader)⟩

theorem unresolvedColumns_amount (headers : List String) (h1 : "user email" ∈ headers)
    (h2 : "merchant" ∈ headers) (h3 : "date" ∈ headers)
    (h4 : "transaction amount" ∉ headers) : unresolvedColumns headers = ["amount"] := by
  have a1 : (headers.all fun header => !(["user email"].contains header)) = false := by
    rw [List.all_eq_false]
    exact ⟨_, h1, by simp⟩
  have a2 : (headers.all fun header => !(["merchant"].contains header)) = false := by
    rw [List.all_eq_false]
    exact ⟨_, h2, by simp⟩
  have a3 : (headers.all fun header => !(["date"].contains header)) = false := by
    rw [List.all_eq_false]
    exact ⟨_, h3, by simp⟩
  have a4 : (headers.all fun header => !(["transaction amount"].contains header)) = true := by
    rw [List.all_eq_true]
    intro x hx
    have : x ≠ "transaction amount" := fun e => h4 (e ▸ hx)
    simp [this]
  unfold unresolvedColumns columnMappings
  simp only [List.filter_cons, List.filter_nil, a1, a2, a3, a4, Bool.false_eq_true, if_false,
    if_true, List.map_cons, List.map_nil]

/-- C14: when the header row leaves a required column unresolved, `processData` raises the
error whose message lists every unresolved column, and the globals (the loaded records and
the first-visit maps among them) stay as they were; `processData` raises exactly in that
case; for a header that lacks only `Transaction Amount` the list is `amount`. -/
theorem missingColumns_rejected (env : Env) (csvText : String) (st : State) :
    (unresolvedColumns (headerRow env csvText) ≠ [] →
      processData env csvText st = Except.error (JSError.error ("Missing required columns: "
        ++ jsJoin ", " (unresolvedColumns (headerRow env csvText))
        ++ ". Please ensure your CSV file has the necessary columns.")) ∧
      globalsAfterProcessData env csvText st = st) ∧
    ((∃ e, processData env csvText st = Except.error e) ↔
      unresolvedColumns (headerRow env csvText) ≠ []) ∧
    (∀ column, column ∈ unresolvedColumns (headerRow env csvText) ↔
      ∃ names, (column, names) ∈ columnMappings ∧
        ∀ name ∈ names, name ∉ headerRow env csvText) ∧
    ("user email" ∈ headerRow env csvText → "merchant" ∈ headerRow env csvText →
      "date" ∈ headerRow env csvText → "transaction amount" ∉ headerRow env csvText →
      unresolvedColumns (headerRow env csvText) = ["amount"]) ∧
    unresolvedColumns (headerRow env noAmountCsv) = ["amount"] ∧
    processData env noAmountCsv st = Except.error (JSError.error
      "Missing required columns: amount. Please ensure your CSV file has the necessary columns.") := by
  have hamount : unresolvedColumns (headerRow env noAmountCsv) = ["amount"] := by rfl
  refine ⟨fun h => ?_, ?_, mem_unresolvedColumns _, unresolvedColumns_amount _, hamount, ?_⟩
  · have herr := processData_error env csvText st h
    refine ⟨herr, ?_⟩
    unfold globalsAfterProcessData
    rw [herr]
  · constructor
    · rintro ⟨e, he⟩ hnil
      obtain ⟨ie, im, id, ia, _, _, _, _, hok⟩ := processData_resolved env csvText hnil
      rw [hok st] at he
      cases he
    · intro h
      exact ⟨_, processData_error env csvText st h⟩
  · rw [processData_error env noAmountCsv st (by rw [hamount]; simp), hamount]
    rfl

theorem missingColumns_rejected_witness :
    unresolvedColumns (headerRow utcEnv noAmountCsv) ≠ [] ∧
    processData utcEnv noAmountCsv scenarioLoaded = Except.error (JSError.error
      ("Missing required columns: "
        ++ jsJoin ", " (unresolvedColumns (headerRow utcEnv noAmountCsv))
        ++ ". Please ensure your CSV file has the necessary columns.")) ∧
    globalsAfterProcessData utcEnv noAmountCsv scenarioLoaded = scenarioLoaded :=
  ⟨by decide, (missingColumns_rejected utcEnv noAmountCsv scenarioLoaded).1 (by decide)⟩

theorem headerRow_lower (env : Env) (csvText : String)
    (hlower : toLowerCase env (headerLine csvText) = asciiLower (headerLine csvText)) :
    headerRow env csvText = (headerNames csvText).map asciiLower := by
  unfold headerRow headerNames
  rw [hlower, parseCSVLine_asciiLower]

theorem columnIndex_lower (name : String) (names : List String) :
    columnIndex [asciiLower name] (names.map asciiLower) = firstColumn name names := by
  unfold columnIndex firstColumn
  rw [findIndex_map]
  congr 1
  funext n
  simp only [List.contains, List.elem_cons, List.elem_nil, Bool.or_false]
  cases asciiLower n == asciiLower name <;> rfl

theorem firstColumn_of_mem (name : String) (names : List String)
    (h : ∃ n ∈ names, asciiLower n = asciiLower name) :
    ∃ i, firstColumn name names = some i ∧
      ∃ n, names.get? i = some n ∧ asciiLower n = asciiLower name := by
  obtain ⟨n, hn, hlow⟩ := h
  obtain ⟨i, hi⟩ := findIndex_of_mem (fun n => asciiLower n == asciiLower name) names n hn
    (by simp [hlow])
  obtain ⟨⟨x, hx, hpx⟩, _⟩ := findIndex_some _ names i hi
  exact ⟨i, hi, x, hx, by simpa using hpx⟩

/-- The rows of `shuffledCsv`, read at the positions its header gives. -/
theorem shuffled_rows : rowsOfLines utcEnv 5 4 1 2 (dataLines shuffledCsv) = shuffledRecords := by
  with_unfolding_all rfl

/-- The file `shuffledCsv` loads into one record whatever was loaded before. -/
theorem shuffled_load (st : State) :
    processData utcEnv shuffledCsv st = Except.ok { st with
      transactionData := shuffledRecords
      globalUserFirstVisit := (calculateFirstVisitDates shuffledRecords).1
      globalUserBusinessFirstVisit := (calculateFirstVisitDates shuffledRecords).2
      selectedBusiness := "all"
      selectedLocation := "all" } := by
  rw [processData_ok utcEnv shuffledCsv st 5 4 1 2 (by decide) (by decide) (by decide)
    (by decide), shuffled_rows]

/-- C16: for every file whose header resolves the four columns, `processData` returns, and
the records it stores are, in the order of the file, those of the data lines that are not
blank and stand for a record (email and merchant fields present and not empty, date field
parsed to a date, cleaned amount field a number); a line with fewer fields than a required
column index stores nothing; hence every stored record has a non-empty email, a non-empty
merchant, a date and a numeric amount. -/
theorem rows_validated (env : Env) (csvText : String) (st : State)
    (h : unresolvedColumns (headerRow env csvText) = []) :
    ∃ ie im id ia st1,
      columnIndex ["user email"] (headerRow env csvText) = some ie ∧
      columnIndex ["merchant"] (headerRow env csvText) = some im ∧
      columnIndex ["date"] (headerRow env csvText) = some id ∧
      columnIndex ["transaction amount"] (headerRow env csvText) = some ia ∧
      processData env csvText st = Except.ok st1 ∧
      (∃ record : String → Option Transaction,
        (∀ raw t, record raw = some t ↔
          jsTrim raw ≠ "" ∧ IsRecordOf env ie im id ia (jsTrim raw) t) ∧
        (∀ raw, (parseCSVLine (jsTrim raw)).length ≤ max (max ie im) (max id ia) →
          record raw = none) ∧
        st1.transactionData = (dataLines csvText).filterMap record) ∧
      (∀ t ∈ st1.transactionData, t.email ≠ "" ∧ t.merchant ≠ "" ∧
        ∃ s, parseDate env (some s) = Except.ok t.date) := by
  obtain ⟨ie, im, id, ia, h1, h2, h3, h4, hok⟩ := processData_resolved env csvText h
  refine ⟨ie, im, id, ia, _, h1, h2, h3, h4, hok st, ?_, ?_⟩
  · refine ⟨fun raw =>
      if jsTrim raw = "" then none else rowOfLine env ie im id ia (jsTrim raw), ?_, ?_, rfl⟩
    · intro raw t
      by_cases hb : jsTrim raw = ""
      · simp [hb]
      · simp only [hb, if_false, ne_eq, not_false_eq_true, true_and]
        exact rowOfLine_eq_some_iff env ie im id ia _ t
    · intro raw hshort
      by_cases hb : jsTrim raw = ""
      · simp [hb]
      · simp only [hb, if_false]
        exact rowOfLine_short env ie im id ia _ hshort
  · intro t ht
    obtain ⟨raw, _, _, _, h2, _, h4, ⟨s, _, h5⟩, _⟩ :=
      (mem_rowsOfLines env ie im id ia _ t).mp ht
    exact ⟨h2, h4, s, h5⟩

theorem rows_validated_witness :
    unresolvedColumns (headerRow utcEnv shuffledCsv) = [] ∧
    ∃ ie im id ia st1,
      columnIndex ["user email"] (headerRow utcEnv shuffledCsv) = some ie ∧
      columnIndex ["merchant"] (headerRow utcEnv shuffledCsv) = some im ∧
      columnIndex ["date"] (headerRow utcEnv shuffledCsv) = some id ∧
      columnIndex ["transaction amount"] (headerRow utcEnv shuffledCsv) = some ia ∧
      processData utcEnv shuffledCsv scenarioLoaded = Except.ok st1 ∧
      (∃ record : String → Option Transaction,
        (∀ raw t, record raw = some t ↔
          jsTrim raw ≠ "" ∧ IsRecordOf utcEnv ie im id ia (jsTrim raw) t) ∧
        (∀ raw, (parseCSVLine (jsTrim raw)).length ≤ max (max ie im) (max id ia) →
          record raw = none) ∧
        st1.transactionData = (dataLines shuffledCsv).filterMap record) ∧
      (∀ t ∈ st1.transactionData, t.email ≠ "" ∧ t.merchant ≠ "" ∧
        ∃ s, parseDate utcEnv (some s) = Except.ok t.date) :=
  ⟨by decide, rows_validated utcEnv shuffledCsv scenarioLoaded (by decide)⟩

/-- C17: a file that loads from one state loads from every state, and the records and the
two first-visit maps after the load are the same from any two states and from the initial
(empty) state; every stored record comes from a data line of this file, and every entry of
the two maps is the date of a stored record with that key. -/
theorem load_replaces_data (env : Env) (csvText : String) (s1 s2 : State)
    (h : ∃ r, processData env csvText s1 = Except.ok r) :
    ∃ r1 r2 r0,
      processData env csvText s1 = Except.ok r1 ∧
      processData env csvText s2 = Except.ok r2 ∧
      processData env csvText initialState = Except.ok r0 ∧
      r1.transactionData = r2.transactionData ∧ r1.transactionData = r0.transactionData ∧
      r1.globalUserFirstVisit = r2.globalUserFirstVisit ∧
      r1.globalUserFirstVisit = r0.globalUserFirstVisit ∧
      r1.globalUserBusinessFirstVisit = r2.globalUserBusinessFirstVisit ∧
      r1.globalUserBusinessFirstVisit = r0.globalUserBusinessFirstVisit ∧
      (∀ t ∈ r1.transactionData, ∃ raw ∈ dataLines csvText, ∃ ie im id ia,
        IsRecordOf env ie im id ia (jsTrim raw) t) ∧
      (∀ email v, mapGet r1.globalUserFirstVisit email = some v →
        ∃ t ∈ r1.transactionData, t.email = email ∧ t.date = v) ∧
      (∀ key v, mapGet r1.globalUserBusinessFirstVisit key = some v →
        ∃ t ∈ r1.transactionData,
          userBusinessKey t.email (extractBusinessName t.merchant) = key ∧ t.date = v) := by
  have hres : unresolvedColumns (headerRow env csvText) = [] := by
    by_contra hne
    obtain ⟨r, hr⟩ := h
    rw [processData_error env csvText s1 hne] at hr
    cases hr
  obtain ⟨ie, im, id, ia, _, _, _, _, hok⟩ := processData_resolved env csvText hres
  refine ⟨_, _, _, hok s1, hok s2, hok initialState, rfl, rfl, rfl, rfl, rfl, rfl, ?_, ?_, ?_⟩
  · intro t ht
    obtain ⟨raw, hraw, _, hrec⟩ := (mem_rowsOfLines env ie im id ia _ t).mp ht
    exact ⟨raw, hraw, ie, im, id, ia, hrec⟩
  · intro email v hv
    obtain ⟨⟨t, ht, hk, hd⟩, _⟩ := (globalFirstVisit_iff _ email v).mp hv
    exact ⟨t, ht, hk, hd⟩
  · intro key v hv
    obtain ⟨⟨t, ht, hk, hd⟩, _⟩ := (businessFirstVisit_iff _ key v).mp hv
    exact ⟨t, ht, hk, hd⟩

theorem load_replaces_data_witness :
    (∃ r, processData utcEnv shuffledCsv scenarioLoaded = Except.ok r) ∧
    (processData utcEnv shuffledCsv scenarioLoaded).toOption.map (fun s => s.transactionData) =
      some shuffledRecords ∧
    ∃ r1 r2 r0,
      processData utcEnv shuffledCsv scenarioLoaded = Except.ok r1 ∧
      processData utcEnv shuffledCsv sampleState = Except.ok r2 ∧
      processData utcEnv shuffledCsv initialState = Except.ok r0 ∧
      r1.transactionData = r2.transactionData ∧ r1.transactionData = r0.transactionData ∧
      r1.globalUserFirstVisit = r2.globalUserFirstVisit ∧
      r1.globalUserFirstVisit = r0.globalUserFirstVisit ∧
      r1.globalUserBusinessFirstVisit = r2.globalUserBusinessFirstVisit ∧
      r1.globalUserBusinessFirstVisit = r0.globalUserBusinessFirstVisit ∧
      (∀ t ∈ r1.transactionData, ∃ raw ∈ dataLines shuffledCsv, ∃ ie im id ia,
        IsRecordOf utcEnv ie im id ia (jsTrim raw) t) ∧
      (∀ email v, mapGet r1.globalUserFirstVisit email = some v →
        ∃ t ∈ r1.transactionData, t.email = email ∧ t.date = v) ∧
      (∀ key v, mapGet r1.globalUserBusinessFirstVisit key = some v →
        ∃ t ∈ r1.transactionData,
          userBusinessKey t.email (extractBusinessName t.merchant) = key ∧ t.date = v) :=
  ⟨⟨_, shuffled_load scenarioLoaded⟩, by rw [shuffled_load]; rfl,
   load_replaces_data utcEnv shuffledCsv scenarioLoaded sampleState
    ⟨_, shuffled_load scenarioLoaded⟩⟩

/-! ## The period comparator -/

theorem calculateGrowth_of_pos (current previous : ℚ) (hp : 0 < previous) :
    calculateGrowth current previous = (current - previous) * (100 / previous) := by
  unfold calculateGrowth
  rw [if_neg (ne_of_gt hp)]
  field_simp

/-- C23: `calculateGrowth(current, previous)` is 100 when `previous` is 0 and `current` is
positive, 0 when `previous` is 0 and `current` is not positive, and
`(current - previous) / previous * 100` when `previous` is not 0; so growth(0, 0) = 0,
growth(5, 0) = 100 and growth(0, 5) = -100. -/
theorem calculateGrowth_cases (current previous : ℚ) :
    (previous = 0 → current > 0 → calculateGrowth current previous = 100) ∧
    (previous = 0 → current ≤ 0 → calculateGrowth current previous = 0) ∧
    (previous ≠ 0 →
      calculateGrowth current previous = (current - previous) / previous * 100) ∧
    calculateGrowth 0 0 = 0 ∧ calculateGrowth 5 0 = 100 ∧ calculateGrowth 0 5 = -100 := by
  refine ⟨fun hp hc => ?_, fun hp hc => ?_, fun hp => ?_, ?_, ?_, ?_⟩
  · unfold calculateGrowth
    rw [if_pos hp, if_pos hc]
  · unfold calculateGrowth
    rw [if_pos hp, if_neg (not_lt.mpr hc)]
  · unfold calculateGrowth
    rw [if_neg hp]
  · simp [calculateGrowth]
  · norm_num [calculateGrowth]
  · norm_num [calculateGrowth]

theorem calculateGrowth_cases_witness :
    (5 : ℚ) ≠ 0 ∧ calculateGrowth 8 5 = (8 - 5) / 5 * 100 ∧ calculateGrowth 8 5 = 60 :=
  ⟨by simp, (calculateGrowth_cases 8 5).2.2.1 (by simp), by with_unfolding_all decide⟩

/-- C30: `calculateGrowth(x, x)` is 0 for every `x`; for a positive `previous` the growth is
positive, zero or negative exactly when `current` is greater than, equal to or less than
`previous` (so is the class the comparison display gets), and it is at least -100 when
`current` is not negative; `calculateGrowthPercentage` returns what `calculateGrowth`
returns. -/
theorem calculateGrowth_sign :
    (∀ x : ℚ, calculateGrowth x x = 0) ∧
    (∀ current previous : ℚ, 0 < previous →
      (0 < calculateGrowth current previous ↔ previous < current) ∧
      (calculateGrowth current previous = 0 ↔ current = previous) ∧
      (calculateGrowth current previous < 0 ↔ current < previous) ∧
      (0 ≤ current → -100 ≤ calculateGrowth current previous) ∧
      (comparisonClass (calculateGrowth current previous) = "positive" ↔ previous < current) ∧
      (comparisonClass (calculateGrowth current previous) = "negative" ↔ current < previous) ∧
      (comparisonClass (calculateGrowth current previous) = "neutral" ↔ current = previous)) ∧
    (∀ current previous : ℚ,
      calculateGrowthPercentage current previous = calculateGrowth current previous) := by
  refine ⟨fun x => ?_, fun current previous hp => ?_, fun _ _ => rfl⟩
  · unfold calculateGrowth
    by_cases hx : x = 0
    · simp [hx]
    · rw [if_neg hx, sub_self, zero_div, zero_mul]
  · have hg := calculateGrowth_of_pos current previous hp
    have hk : (0 : ℚ) < 100 / previous := div_pos (by norm_num) hp
    have h1 : 0 < calculateGrowth current previous ↔ previous < current := by
      rw [hg, mul_pos_iff_of_pos_right hk, sub_pos]
    have h2 : calculateGrowth current previous = 0 ↔ current = previous := by
      rw [hg, mul_eq_zero, sub_eq_zero]
      constructor
      · rintro (h | h)
        · exact h
        · exact absurd h (ne_of_gt hk)
      · exact fun h => Or.inl h
    have h3 : calculateGrowth current previous < 0 ↔ current < previous := by
      rw [hg, mul_neg_iff]
      constructor
      · rintro (⟨_, h⟩ | ⟨h, _⟩)
        · exact absurd h (not_lt.mpr (le_of_lt hk))
        · exact sub_neg.mp h
      · exact fun h => Or.inr ⟨sub_neg.mpr h, hk⟩
    refine ⟨h1, h2, h3, fun hc => ?_, ?_, ?_, ?_⟩
    · rw [hg]
      have e : (current - previous) * (100 / previous) = current * (100 / previous) - 100 := by
        field_simp
        ring
      rw [e]
      have : 0 ≤ current * (100 / previous) := mul_nonneg hc (le_of_lt hk)
      linarith
    · unfold comparisonClass
      by_cases hpos : calculateGrowth current previous > 0
      · rw [if_pos hpos]
        simp only [true_iff]
        exact h1.mp hpos
      · rw [if_neg hpos]
        have : ¬ previous < current := fun h => hpos (h1.mpr h)
        split_ifs <;> simp [this]
    · unfold comparisonClass
      by_cases hpos : calculateGrowth current previous > 0
      · rw [if_pos hpos]
        have : ¬ current < previous := fun h => (lt_asymm (h1.mp hpos)) h
        simp [this]
      · rw [if_neg hpos]
        by_cases hneg : calculateGrowth current previous < 0
        · rw [if_pos hneg]
          simp only [true_iff]
          exact h3.mp hneg
        · rw [if_neg hneg]
          have : ¬ current < previous := fun h => hneg (h3.mpr h)
          simp [this]
    · unfold comparisonClass
      by_cases hpos : calculateGrowth current previous > 0
      · rw [if_pos hpos]
        have : current ≠ previous := ne_of_gt (h1.mp hpos)
        simp [this]
      · rw [if_neg hpos]
        by_cases hneg : calculateGrowth current previous < 0
        · rw [if_pos hneg]
          have : current ≠ previous := ne_of_lt (h3.mp hneg)
          simp [this]
        · rw [if_neg hneg]
          simp only [true_iff]
          exact h2.mp (le_antisymm (not_lt.mp hpos) (not_lt.mp hneg))

theorem calculateGrowth_sign_witness :
    (0 : ℚ) < 4 ∧ (calculateGrowth 3 4 < 0 ↔ (3 : ℚ) < 4) ∧ calculateGrowth 3 4 = -25 :=
  ⟨by simp, (calculateGrowth_sign.2.1 3 4 (by simp)).2.2.1, by with_unfolding_all decide⟩

/-! ## Business name and location of a merchant -/

theorem splitChars_cons_sep (sep : Char → Bool) (c : Char) (rest : List Char)
    (h : sep c = true) : splitChars sep (c :: rest) = [] :: splitChars sep rest := by
  rw [splitChars, if_pos h]

theorem splitChars_cons_other (sep : Char → Bool) (c : Char) (rest p : List Char)
    (ps : List (List Char)) (h : ¬ sep c = true) (hs : splitChars sep rest = p :: ps) :
    splitChars sep (c :: rest) = (c :: p) :: ps := by
  rw [splitChars, if_neg h, hs]

theorem splitChars_ne_nil (sep : Char → Bool) (cs : List Char) : splitChars sep cs ≠ [] := by
  cases cs with
  | nil => simp [splitChars]
  | cons c rest =>
    by_cases hc : sep c = true
    · rw [splitChars_cons_sep sep c rest hc]
      simp
    · cases h : splitChars sep rest with
      | nil => rw [splitChars, if_neg hc, h]; simp
      | cons p ps => rw [splitChars_cons_other sep c rest p ps hc h]; simp

theorem splitChars_no_sep (sep : Char → Bool) (cs : List Char) (h : ∀ c ∈ cs, sep c = false) :
    splitChars sep cs = [cs] := by
  induction cs with
  | nil => rfl
  | cons c rest ih =>
    exact splitChars_cons_other sep c rest rest [] (by simp [h c (by simp)])
      (ih (fun d hd => h d (by simp [hd])))

theorem splitChars_append_sep (sep : Char → Bool) (a : List Char) (d : Char) (b : List Char)
    (hd : sep d = true) :
    splitChars sep (a ++ d :: b) = splitChars sep a ++ splitChars sep b := by
  induction a with
  | nil =>
    rw [List.nil_append, splitChars_cons_sep sep d b hd]
    rfl
  | cons c rest ih =>
    rw [List.cons_append]
    by_cases hc : sep c = true
    · rw [splitChars_cons_sep sep c _ hc, splitChars_cons_sep sep c _ hc, ih]
      rfl
    · cases h : splitChars sep rest with
      | nil => exact absurd h (splitChars_ne_nil sep rest)
      | cons p ps =>
        rw [splitChars_cons_other sep c rest p ps hc h,
          splitChars_cons_other sep c (rest ++ d :: b) p (ps ++ splitChars sep b) hc
            (by rw [ih, h]; rfl)]
        rfl

theorem intercalate_one (sep x : List Char) : List.intercalate sep [x] = x := by
  simp [List.intercalate, List.intersperse]

theorem intercalate_two (sep x y : List Char) (l : List (List Char)) :
    List.intercalate sep (x :: y :: l) = x ++ sep ++ List.intercalate sep (y :: l) := by
  simp [List.intercalate, List.intersperse]

theorem intercalate_splitChars (cs : List Char) :
    List.intercalate ['-'] (splitChars (fun c => c == '-') cs) = cs := by
  induction cs with
  | nil => rfl
  | cons c rest ih =>
    cases h : splitChars (fun c => c == '-') rest with
    | nil => exact absurd h (splitChars_ne_nil _ rest)
    | cons p ps =>
      rw [h] at ih
      by_cases hc : (c == '-') = true
      · have hc2 : c = '-' := by simpa using hc
        rw [splitChars_cons_sep _ c rest hc, h, intercalate_two, ih, hc2]
        rfl
      · rw [splitChars_cons_other _ c rest p ps hc h]
        cases ps with
        | nil =>
          rw [intercalate_one] at ih
          rw [intercalate_one, ih]
        | cons q qs =>
          rw [intercalate_two] at ih
          rw [intercalate_two, ← ih]
          rfl

theorem jsJoin_data (l : List (List Char)) :
    (jsJoin "-" (l.map String.mk)).data = List.intercalate ['-'] l := by
  induction l with
  | nil => rfl
  | cons a rest ih =>
    cases rest with
    | nil => rw [intercalate_one]; rfl
    | cons b rest2 =>
      rw [intercalate_two, ← ih]
      simp [jsJoin, String.data_append]

/-- A text with a dash splits at its last dash. -/
theorem last_dash (cs : List Char) (h : '-' ∈ cs) :
    ∃ a b, cs = a ++ '-' :: b ∧ '-' ∉ b := by
  induction cs with
  | nil => simp at h
  | cons c rest ih =>
    by_cases hr : '-' ∈ rest
    · obtain ⟨a, b, hab, hb⟩ := ih hr
      exact ⟨c :: a, b, by rw [hab]; rfl, hb⟩
    · have hc : c = '-' := by
        rcases List.mem_cons.mp h with h1 | h1
        · exact h1.symm
        · exact absurd h1 hr
      exact ⟨[], rest, by rw [hc]; rfl, hr⟩

theorem append_dash_inj (a b a2 b2 : List Char) (hb : '-' ∉ b) (hb2 : '-' ∉ b2)
    (h : a ++ '-' :: b = a2 ++ '-' :: b2) : a = a2 ∧ b = b2 := by
  induction a generalizing a2 with
  | nil =>
    cases a2 with
    | nil => simpa using h
    | cons c rest =>
      simp only [List.nil_append, List.cons_append, List.cons.injEq] at h
      exfalso
      apply hb
      rw [h.2]
      simp
  | cons c rest ih =>
    cases a2 with
    | nil =>
      simp only [List.nil_append, List.cons_append, List.cons.injEq] at h
      exfalso
      apply hb2
      rw [← h.2]
      simp
    | cons c2 rest2 =>
      simp only [List.cons_append, List.cons.injEq] at h
      obtain ⟨h1, h2⟩ := ih rest2 h.2
      exact ⟨by rw [h.1, h1], h2⟩

/-- What the two helpers return for a merchant with a dash: the trimmed text before its
last dash and the trimmed text after it. -/
theorem extract_of_dash (a b : List Char) (hb : '-' ∉ b) :
    extractBusinessName ⟨a ++ '-' :: b⟩ = jsTrim ⟨a⟩ ∧
    extractLocation ⟨a ++ '-' :: b⟩ = jsTrim ⟨b⟩ := by
  have hsplit : splitChars (fun c => c == '-') (a ++ '-' :: b) =
      splitChars (fun c => c == '-') a ++ [b] := by
    rw [splitChars_append_sep _ a '-' b (by simp),
      splitChars_no_sep _ b (fun c hc => by
        simp only [beq_eq_false_iff_ne, ne_eq]
        exact fun e => hb (e ▸ hc))]
  have hparts : jsSplit (fun c => c == '-') ⟨a ++ '-' :: b⟩ =
      (splitChars (fun c => c == '-') a).map String.mk ++ [String.mk b] := by
    unfold jsSplit
    rw [hsplit]
    simp
  have hlen : ((splitChars (fun c => c == '-') a).map String.mk ++ [String.mk b]).length > 1 := by
    have := List.length_pos.mpr (splitChars_ne_nil (fun c => c == '-') a)
    simp only [List.length_append, List.length_map, List.length_singleton]
    omega
  constructor
  · unfold extractBusinessName
    simp only [hparts]
    rw [if_pos hlen, List.dropLast_concat]
    congr 1
    apply String.ext
    rw [jsJoin_data, intercalate_splitChars]
  · unfold extractLocation
    simp only [hparts]
    rw [if_pos hlen, List.getLastD_concat]

/-- What the two helpers return for a merchant without a dash. -/
theorem extract_of_no_dash (m : String) (h : '-' ∉ m.data) :
    extractBusinessName m = jsTrim m ∧ extractLocation m = "Unknown" := by
  have hsplit : splitChars (fun c => c == '-') m.data = [m.data] :=
    splitChars_no_sep _ m.data (fun c hc => by
      simp only [beq_eq_false_iff_ne, ne_eq]
      exact fun e => h (e ▸ hc))
  constructor
  · unfold extractBusinessName jsSplit
    simp [hsplit]
  · unfold extractLocation jsSplit
    simp [hsplit]

/-! ## Trimmed texts -/

theorem head_not_of_dropWhile_eq (p : Char → Bool) (x : Char) (rest : List Char)
    (h : (x :: rest).dropWhile p = x :: rest) : p x = false := by
  by_contra hx
  have hx2 : p x = true := by simpa using hx
  rw [List.dropWhile_cons_of_pos hx2] at h
  have hlen := (List.dropWhile_suffix p (l := rest)).length_le
  rw [h] at hlen
  simp at hlen

theorem trimChars_idem (cs : List Char) : trimChars (trimChars cs) = trimChars cs := by
  unfold trimChars
  generalize hl : cs.dropWhile isJsWhitespace = l
  have hll : l.dropWhile isJsWhitespace = l := by
    rw [← hl]
    exact List.dropWhile_idempotent _ _
  have hpre : (l.reverse.dropWhile isJsWhitespace).reverse <+: l := by
    have hsuf := List.dropWhile_suffix isJsWhitespace (l := l.reverse)
    have := List.reverse_prefix.mpr hsuf
    rwa [List.reverse_reverse] at this
  have hdrop : ((l.reverse.dropWhile isJsWhitespace).reverse).dropWhile isJsWhitespace =
      (l.reverse.dropWhile isJsWhitespace).reverse := by
    obtain ⟨s, hs⟩ := hpre
    cases ht : (l.reverse.dropWhile isJsWhitespace).reverse with
    | nil => rfl
    | cons x t =>
      rw [ht] at hs
      rw [← hs] at hll
      have hx := head_not_of_dropWhile_eq isJsWhitespace x (t ++ s) hll
      rw [List.dropWhile_cons_of_neg (by simp [hx])]
  rw [hdrop, List.reverse_reverse, List.dropWhile_idempotent _ _]

theorem jsTrim_idem (s : String) : jsTrim (jsTrim s) = jsTrim s := by
  unfold jsTrim
  simp only [trimChars_idem]

/-- Every field that `parseCSVLine` returns is trimmed. -/
theorem parseCSVLoop_trimmed (cs : List Char) :
    ∀ (current : List Char) (inQuotes skip : Bool) (result : List String),
      (∀ x ∈ result, jsTrim x = x) →
      ∀ x ∈ parseCSVLoop cs current inQuotes skip result, jsTrim x = x := by
  induction cs with
  | nil =>
    intro current inQuotes skip result hres x hx
    simp only [parseCSVLoop, List.mem_append, List.mem_singleton] at hx
    rcases hx with h | h
    · exact hres x h
    · rw [h, jsTrim_idem]
  | cons c rest ih =>
    intro current inQuotes skip result hres x hx
    unfold parseCSVLoop at hx
    have hres2 : ∀ y ∈ result ++ [jsTrim ⟨current⟩], jsTrim y = y := by
      intro y hy
      rcases List.mem_append.mp hy with h | h
      · exact hres y h
      · rw [List.mem_singleton.mp h, jsTrim_idem]
    split_ifs at hx
    · exact ih _ _ _ _ hres x hx
    · exact ih _ _ _ _ hres x hx
    · exact ih _ _ _ _ hres x hx
    · exact ih _ _ _ _ hres2 x hx
    · exact ih _ _ _ _ hres x hx

theorem parseCSVLine_trimmed (line x : String) (hx : x ∈ parseCSVLine line) : jsTrim x = x :=
  parseCSVLoop_trimmed line.data [] false false [] (by simp) x hx

theorem not_mem_trimChars (c : Char) (cs : List Char) (h : c ∉ cs) : c ∉ trimChars cs := by
  intro hc
  unfold trimChars at hc
  have h1 := List.mem_reverse.mp hc
  have h2 := (List.dropWhile_sublist isJsWhitespace).subset h1
  have h3 := List.mem_reverse.mp h2
  exact h ((List.dropWhile_sublist isJsWhitespace).subset h3)

/-! ## The claims on the decomposition of a merchant -/

/-- C21 at its failing input: the merchant `Store - NY` has a dash, and its business name
and location, joined by a dash, give `Store-NY`: the blanks around the dash are lost. -/
theorem rejoin_counterexample :
    '-' ∈ "Store - NY".data ∧
    extractBusinessName "Store - NY" = "Store" ∧ extractLocation "Store - NY" = "NY" ∧
    extractBusinessName "Store - NY" ++ "-" ++ extractLocation "Store - NY" = "Store-NY" ∧
    extractBusinessName "Store - NY" ++ "-" ++ extractLocation "Store - NY" ≠ "Store - NY" := by
  decide

/-- C21, amended: a merchant `m` with a dash is `a ++ "-" ++ b` with no dash in `b`; its
business name is `a` trimmed and its location is `b` trimmed; so the business name, a dash
and the location give `m` exactly when neither `a` nor `b` has leading or trailing white
space. -/
theorem rejoin_trimmed (m : String) (h : '-' ∈ m.data) :
    ∃ a b : String, m = a ++ "-" ++ b ∧ '-' ∉ b.data ∧
      extractBusinessName m = jsTrim a ∧ extractLocation m = jsTrim b ∧
      (extractBusinessName m ++ "-" ++ extractLocation m = m ↔
        jsTrim a = a ∧ jsTrim b = b) := by
  obtain ⟨a, b, hab, hb⟩ := last_dash m.data h
  have hm : m = (⟨a⟩ : String) ++ "-" ++ ⟨b⟩ := by
    apply String.ext
    rw [hab]
    simp [String.data_append]
  have hext := extract_of_dash a b hb
  have hm2 : m = ⟨a ++ '-' :: b⟩ := String.ext hab
  rw [← hm2] at hext
  refine ⟨⟨a⟩, ⟨b⟩, hm, hb, hext.1, hext.2, ?_⟩
  rw [hext.1, hext.2]
  constructor
  · intro heq
    have hdata : trimChars a ++ '-' :: trimChars b = a ++ '-' :: b := by
      have := congrArg String.data heq
      rw [hab] at this
      simpa [String.data_append, jsTrim] using this
    obtain ⟨h1, h2⟩ := append_dash_inj _ _ _ _ (not_mem_trimChars '-' b hb) hb hdata
    exact ⟨by unfold jsTrim; rw [h1], by unfold jsTrim; rw [h2]⟩
  · rintro ⟨h1, h2⟩
    rw [h1, h2]
    exact hm.symm

theorem rejoin_trimmed_witness :
    '-' ∈ "7-Eleven-NY".data ∧
    ∃ a b : String, "7-Eleven-NY" = a ++ "-" ++ b ∧ '-' ∉ b.data ∧
      extractBusinessName "7-Eleven-NY" = jsTrim a ∧ extractLocation "7-Eleven-NY" = jsTrim b ∧
      (extractBusinessName "7-Eleven-NY" ++ "-" ++ extractLocation "7-Eleven-NY" =
          "7-Eleven-NY" ↔ jsTrim a = a ∧ jsTrim b = b) :=
  ⟨by decide, rejoin_trimmed "7-Eleven-NY" (by decide)⟩

/-- The merchant of every record that `processData` stores is a field that `parseCSVLine`
returned for a line of the file. -/
theorem stored_merchant_field (env : Env) (csvText : String) (st st1 : State)
    (h : processData env csvText st = Except.ok st1) (t : Transaction)
    (ht : t ∈ st1.transactionData) : ∃ line : String, t.merchant ∈ parseCSVLine line := by
  have hres : unresolvedColumns (headerRow env csvText) = [] := by
    by_contra hne
    rw [processData_error env csvText st hne] at h
    cases h
  obtain ⟨ie, im, id, ia, _, _, _, _, hok⟩ := processData_resolved env csvText hres
  rw [hok st] at h
  have hst := Except.ok.inj h
  subst hst
  obtain ⟨raw, _, _, _, _, hmer, _⟩ := (mem_rowsOfLines env ie im id ia _ t).mp ht
  exact ⟨jsTrim raw, List.get?_mem hmer⟩

/-- The two helpers trim: a string without a dash that has blanks at its ends, which no
record holds as its merchant, has the business name without them. -/
theorem extractBusinessName_trims :
    '-' ∉ " Store ".data ∧ extractLocation " Store " = "Unknown" ∧
    extractBusinessName " Store " = "Store" := by
  decide

/-- C22: for every merchant `m` without a dash that `parseCSVLine` returned as a field, the
location is "Unknown" and the business name is `m`; the merchant of every record that
`processData` stores is such a field, and these are the strings the program passes to the two
helpers.  For any string without a dash the location is "Unknown" and the business name is
the string without its leading and trailing white space. -/
theorem no_dash_decomposition (m : String) (h : '-' ∉ m.data) :
    (∀ line : String, m ∈ parseCSVLine line →
      extractLocation m = "Unknown" ∧ extractBusinessName m = m) ∧
    (∀ (env : Env) (csvText : String) (st st1 : State) (t : Transaction),
      processData env csvText st = Except.ok st1 → t ∈ st1.transactionData →
      t.merchant = m →
      extractLocation t.merchant = "Unknown" ∧ extractBusinessName t.merchant = t.merchant) ∧
    extractLocation m = "Unknown" ∧ extractBusinessName m = jsTrim m ∧
    (extractBusinessName m = m ↔ jsTrim m = m) := by
  obtain ⟨h1, h2⟩ := extract_of_no_dash m h
  have hfield : ∀ line : String, m ∈ parseCSVLine line →
      extractLocation m = "Unknown" ∧ extractBusinessName m = m := by
    intro line hm
    refine ⟨h2, ?_⟩
    rw [h1]
    exact parseCSVLine_trimmed line m hm
  refine ⟨hfield, ?_, h2, h1, by rw [h1]⟩
  intro env csvText st st1 t hload ht hm
  obtain ⟨line, hline⟩ := stored_merchant_field env csvText st st1 hload t ht
  rw [hm] at hline ⊢
  exact hfield line hline

theorem no_dash_decomposition_witness :
    '-' ∉ "Corner Store".data ∧
    "Corner Store" ∈ parseCSVLine "a@x.com, Corner Store ,2024-01-05,3" ∧
    extractLocation "Corner Store" = "Unknown" ∧
    extractBusinessName "Corner Store" = "Corner Store" :=
  ⟨by decide, by decide,
   (no_dash_decomposition "Corner Store" (by decide)).1 "a@x.com, Corner Store ,2024-01-05,3"
     (by decide)⟩

/-! ## Order of the two first visits -/

/-- When no record of another user is stored under the key of a user-business pair, the
business first visit read for the pair is not before the global first visit of the user. -/
theorem businessFirstVisit_ge_global (l : List Transaction) (t : Transaction) (ht : t ∈ l)
    (hinj : ∀ u ∈ l, businessKey u = businessKey t → u.email = t.email) :
    ∃ g b, mapGet (calculateFirstVisitDates l).1 t.email = some g ∧
      mapGet (calculateFirstVisitDates l).2 (businessKey t) = some b ∧ g ≤ b := by
  obtain ⟨g, hg⟩ := firstVisit_exists globalKey l t ht
  obtain ⟨b, hb⟩ := firstVisit_exists businessKey l t ht
  have hg2 : mapGet (calculateFirstVisitDates l).1 t.email = some g := by
    unfold calculateFirstVisitDates
    rw [firstVisits_fst]
    exact hg
  have hb2 : mapGet (calculateFirstVisitDates l).2 (businessKey t) = some b := by
    unfold calculateFirstVisitDates
    rw [firstVisits_snd]
    exact hb
  refine ⟨g, b, hg2, hb2, ?_⟩
  obtain ⟨⟨u, hu, huk, hud⟩, _⟩ := (businessFirstVisit_iff l _ b).mp hb2
  obtain ⟨_, hmin⟩ := (globalFirstVisit_iff l _ g).mp hg2
  rw [← hud]
  exact hmin u hu (hinj u hu huk)

/-- C24 at its failing input: "sam" has one record, at "7-Eleven" on 20 January 2024, which
is also the global first visit of "sam"; the business first visit read for ("sam",
"7-Eleven") is 5 January 2024, the visit of "sam-7" to "Eleven" stored under the same key; so
the difference in days is -15, and with "7-Eleven" selected and threshold 0 the bucket of
January 2024, the month of the first visit of "sam" to "7-Eleven", counts no first-time
user. -/
theorem firstVisit_order_collision :
    collisionData.map (fun t => (t.email, extractBusinessName t.merchant, t.date)) =
      [("sam", "7-Eleven", 1705708800000), ("sam-7", "Eleven", 1704412800000)] ∧
    mapGet (calculateFirstVisitDates collisionData).1 "sam" = some 1705708800000 ∧
    mapGet (calculateFirstVisitDates collisionData).2 (userBusinessKey "sam" "7-Eleven") =
      some 1704412800000 ∧
    ((1704412800000 - 1705708800000 : Int) : ℚ) / 86400000 = -15 ∧
    collisionState.firstTimeUsersThreshold = 0 ∧
    (filterByBusiness collisionState).map (fun t => (t.email, t.date)) =
      [("sam", 1705708800000)] ∧
    formatYearMonth utcEnv 1705708800000 = "2024-01" ∧
    (updateCharts utcEnv collisionState (filterByBusiness collisionState)).toOption.map
      (fun c => (c.labels, c.uniqueUsers, c.firstTimeUsers)) = some (["2024-01"], [1], [0]) := by
  refine ⟨by decide, by decide, by decide, ?_, rfl, by decide, by decide, ?_⟩
  · with_unfolding_all decide
  · with_unfolding_all decide

/-! ## The derived sets of a bucket -/

/-- The fields of a bucket that `updateCharts` leaves in `monthlyData`, in terms of the
object `g` that its first pass builds. -/
theorem bucket_detail (env : Env) (st : State) (data : List Transaction)
    (md : List (String × MonthBucket)) (h : monthlyBuckets env st data = Except.ok md)
    (K : String) (b : MonthBucket) (hb : mapGet md K = some b) :
    ∃ g, groupByMonth env [] data = Except.ok g ∧ Grouped env data g ∧
      md.map Prod.fst = g.map Prod.fst ∧ K ∈ g.map Prod.fst ∧
      b.users = monthUsers env data K ∧
      firstTimeUsersOf env st K [] (monthUsers env data K) = Except.ok b.firstTimeUsers ∧
      b.returningUsers = setOfList ((((monthUsers env data K).map
        (fun e => (e, userDays env data K e))).filter
          (fun p => decide (p.2.length > 1))).map (fun p => p.1)) ∧
      b.lastMonthReturningUsers =
        (if K ≠ "" ∧ st.returningWindow > 0 then
          setOfList ((monthUsers env data K).filter (fun email =>
            decide (email ∈ previousMonthsUsers g (sortStrings (g.map Prod.fst)) K
              st.returningWindow)))
        else []) := by
  obtain ⟨g, hg, hG, hkeys, hall⟩ := monthlyBuckets_spec env st data md h
  have hK : K ∈ g.map Prod.fst := by
    rw [← hkeys, ← mapGet_isSome_iff, hb]; rfl
  obtain ⟨b2, hb2, hget⟩ := hall K hK
  rw [hb] at hget
  injection hget with hget
  subst hget
  refine ⟨g, hg, hG, hkeys, hK, ?_⟩
  unfold finishBucket at hb2
  cases hf : firstTimeUsersOf env st K [] (groupedBucket env data K).users with
  | error e => simp [hf] at hb2
  | ok ftu =>
    simp only [hf, Except.ok.injEq] at hb2
    subst hb2
    exact ⟨rfl, hf, rfl, rfl⟩

theorem mem_firstTimeUsers (env : Env) (st : State) (data : List Transaction)
    (md : List (String × MonthBucket)) (h : monthlyBuckets env st data = Except.ok md)
    (K : String) (b : MonthBucket) (hb : mapGet md K = some b) (e : String) :
    e ∈ b.firstTimeUsers ↔
      e ∈ b.users ∧ isFirstTimeUser env st K e = Except.ok true := by
  obtain ⟨g, _, _, _, _, hu, hf, _, _⟩ := bucket_detail env st data md h K b hb
  have hspec := (firstTimeUsersOf_spec env st K _ [] _ hf).1 e
  rw [hspec, hu]
  simp

theorem firstTimeUsers_nodup (env : Env) (st : State) (data : List Transaction)
    (md : List (String × MonthBucket)) (h : monthlyBuckets env st data = Except.ok md)
    (K : String) (b : MonthBucket) (hb : mapGet md K = some b) : b.firstTimeUsers.Nodup := by
  obtain ⟨g, _, _, _, _, _, hf, _, _⟩ := bucket_detail env st data md h K b hb
  exact (firstTimeUsersOf_spec env st K _ [] _ hf).2.2 List.nodup_nil

theorem returningUsers_subset (env : Env) (st : State) (data : List Transaction)
    (md : List (String × MonthBucket)) (h : monthlyBuckets env st data = Except.ok md)
    (K : String) (b : MonthBucket) (hb : mapGet md K = some b) :
    b.returningUsers.Nodup ∧ ∀ e ∈ b.returningUsers, e ∈ b.users := by
  obtain ⟨g, _, _, _, _, hu, _, hr, _⟩ := bucket_detail env st data md h K b hb
  rw [hr, hu]
  refine ⟨nodup_setOfList _, fun e he => ?_⟩
  rw [mem_setOfList] at he
  obtain ⟨p, hp, rfl⟩ := List.mem_map.mp he
  obtain ⟨x, hx, rfl⟩ := List.mem_map.mp (List.mem_filter.mp hp).1
  exact hx

theorem lastMonthReturningUsers_subset (env : Env) (st : State) (data : List Transaction)
    (md : List (String × MonthBucket)) (h : monthlyBuckets env st data = Except.ok md)
    (K : String) (b : MonthBucket) (hb : mapGet md K = some b) :
    b.lastMonthReturningUsers.Nodup ∧ ∀ e ∈ b.lastMonthReturningUsers, e ∈ b.users := by
  obtain ⟨g, _, _, _, _, hu, _, _, hl⟩ := bucket_detail env st data md h K b hb
  rw [hl, hu]
  split_ifs
  · refine ⟨nodup_setOfList _, fun e he => ?_⟩
    rw [mem_setOfList] at he
    exact (List.mem_filter.mp he).1
  · exact ⟨List.nodup_nil, fun e he => absurd he (List.not_mem_nil e)⟩

theorem length_le_of_nodup_subset (l u : List String) (hl : l.Nodup) (h : ∀ e ∈ l, e ∈ u) :
    l.length ≤ u.length :=
  (hl.subperm h).length_le

theorem percentageEntry_bounds (x u : Nat) (hu : 1 ≤ u) (hx : x ≤ u) :
    ∃ q : ℚ, percentageEntry (some x) (some u) = JSNum.finite q ∧ 0 ≤ q ∧ q ≤ 100 := by
  have hu0 : u ≠ 0 := by omega
  have hupos : (0 : ℚ) < (u : ℚ) := by exact_mod_cast hu
  refine ⟨(x : ℚ) / (u : ℚ) * 100, ?_, ?_, ?_⟩
  · simp [percentageEntry, jsDivNat, hu0]
  · positivity
  · have hxu : (x : ℚ) ≤ (u : ℚ) := by exact_mod_cast hx
    have : (x : ℚ) / (u : ℚ) ≤ 1 := (div_le_one hupos).mpr hxu
    linarith

/-- C25: in every bucket that `updateCharts` builds, the multi-visit set, the
window-returning set and the first-time set hold only users of the bucket, so their sizes
are at most the number of users; at every label the three emitted counts are at most the
emitted `uniqueUsers`, which is at least 1; and every entry of the returning-users
percentage series is a number from 0 to 100. -/
theorem derived_sets_within_users (env : Env) (st : State) (data : List Transaction)
    (md : List (String × MonthBucket)) (h : monthlyBuckets env st data = Except.ok md) :
    (∀ K b, mapGet md K = some b →
      (∀ e ∈ b.returningUsers, e ∈ b.users) ∧
      (∀ e ∈ b.lastMonthReturningUsers, e ∈ b.users) ∧
      (∀ e ∈ b.firstTimeUsers, e ∈ b.users) ∧
      b.returningUsers.length ≤ b.users.length ∧
      b.lastMonthReturningUsers.length ≤ b.users.length ∧
      b.firstTimeUsers.length ≤ b.users.length) ∧
    (∀ i K, (chartDataOf md).labels.get? i = some K → ∃ u r w f,
      (chartDataOf md).uniqueUsers.get? i = some u ∧
      (chartDataOf md).returningUsers.get? i = some r ∧
      (chartDataOf md).lastMonthReturningUsers.get? i = some w ∧
      (chartDataOf md).firstTimeUsers.get? i = some f ∧
      1 ≤ u ∧ r ≤ u ∧ w ≤ u ∧ f ≤ u) ∧
    (∀ p ∈ returningUsersPercentages st (chartDataOf md),
      ∃ q : ℚ, p = JSNum.finite q ∧ 0 ≤ q ∧ q ≤ 100) := by
  have hsets : ∀ K b, mapGet md K = some b →
      (∀ e ∈ b.returningUsers, e ∈ b.users) ∧
      (∀ e ∈ b.lastMonthReturningUsers, e ∈ b.users) ∧
      (∀ e ∈ b.firstTimeUsers, e ∈ b.users) ∧
      b.returningUsers.length ≤ b.users.length ∧
      b.lastMonthReturningUsers.length ≤ b.users.length ∧
      b.firstTimeUsers.length ≤ b.users.length := by
    intro K b hb
    obtain ⟨r1, r2⟩ := returningUsers_subset env st data md h K b hb
    obtain ⟨w1, w2⟩ := lastMonthReturningUsers_subset env st data md h K b hb
    have f1 := firstTimeUsers_nodup env st data md h K b hb
    have f2 : ∀ e ∈ b.firstTimeUsers, e ∈ b.users := fun e he =>
      ((mem_firstTimeUsers env st data md h K b hb e).mp he).1
    exact ⟨r2, w2, f2, length_le_of_nodup_subset _ _ r1 r2,
      length_le_of_nodup_subset _ _ w1 w2, length_le_of_nodup_subset _ _ f1 f2⟩
  have hcounts : ∀ i K, (chartDataOf md).labels.get? i = some K → ∃ u r w f,
      (chartDataOf md).uniqueUsers.get? i = some u ∧
      (chartDataOf md).returningUsers.get? i = some r ∧
      (chartDataOf md).lastMonthReturningUsers.get? i = some w ∧
      (chartDataOf md).firstTimeUsers.get? i = some f ∧
      1 ≤ u ∧ r ≤ u ∧ w ≤ u ∧ f ≤ u := by
    intro i K hi
    obtain ⟨b, hb, t, ht, htK⟩ := label_bucket env st data md h i K hi
    obtain ⟨c1, c2, c3, c4, _, _⟩ := chart_at md i K b hi hb
    obtain ⟨_, _, _, l1, l2, l3⟩ := hsets K b hb
    obtain ⟨g, _, _, _, _, hu, _, _, _⟩ := bucket_detail env st data md h K b hb
    have hpos : 1 ≤ b.users.length := by
      rw [hu]
      exact List.length_pos_of_mem ((mem_monthUsers env data K t.email).mpr ⟨t, ht, htK, rfl⟩)
    exact ⟨_, _, _, _, c1, c2, c3, c4, hpos, l1, l2, l3⟩
  refine ⟨hsets, hcounts, fun p hp => ?_⟩
  unfold returningUsersPercentages at hp
  obtain ⟨i, hi, rfl⟩ := List.mem_map.mp hp
  have hlt : i < (chartDataOf md).labels.length := List.mem_range.mp hi
  obtain ⟨u, r, w, f, c1, c2, c3, _, hu, hr, hw, _⟩ :=
    hcounts i _ (List.get?_eq_get hlt)
  by_cases hwin : st.returningWindow = 0
  · simp only [hwin, if_true, c1, c2]
    exact percentageEntry_bounds r u hu hr
  · simp only [hwin, if_false, c1, c3]
    exact percentageEntry_bounds w u hu hw

/-! ## Changing the threshold or the window -/

theorem isFirstTimeUser_ok_congr (env : Env) (st st2 : State) (month email : String)
    (hb : st2.selectedBusiness = st.selectedBusiness)
    (hg : st2.globalUserFirstVisit = st.globalUserFirstVisit)
    (hbf : st2.globalUserBusinessFirstVisit = st.globalUserBusinessFirstVisit)
    (h : ∃ b, isFirstTimeUser env st month email = Except.ok b) :
    ∃ b, isFirstTimeUser env st2 month email = Except.ok b := by
  unfold isFirstTimeUser at h ⊢
  rw [hb, hg, hbf]
  by_cases hall : st.selectedBusiness = "all"
  · exact ⟨false, by simp [hall]⟩
  · simp only [hall, if_false] at h ⊢
    cases hbv : mapGet st.globalUserBusinessFirstVisit
        (userBusinessKey email st.selectedBusiness) with
    | none => exact ⟨false, rfl⟩
    | some bfv =>
      simp only [hbv] at h
      by_cases hm : formatYearMonth env bfv = month
      · cases hgv : mapGet st.globalUserFirstVisit email with
        | none =>
          obtain ⟨b, hb2⟩ := h
          simp [hm, hgv] at hb2
        | some gfv => simp [hm]
      · exact ⟨false, by simp [hm]⟩

/-- Whether `updateCharts` raises does not depend on the threshold or the window. -/
theorem monthlyBuckets_transfer (env : Env) (st st2 : State) (data : List Transaction)
    (md : List (String × MonthBucket)) (h : monthlyBuckets env st data = Except.ok md)
    (hb : st2.selectedBusiness = st.selectedBusiness)
    (hg : st2.globalUserFirstVisit = st.globalUserFirstVisit)
    (hbf : st2.globalUserBusinessFirstVisit = st.globalUserBusinessFirstVisit) :
    ∃ md2, monthlyBuckets env st2 data = Except.ok md2 := by
  obtain ⟨g, hgr, hG, _, hall⟩ := monthlyBuckets_spec env st data md h
  have hfin := (finishMonths_inv env st2 (sortStrings (g.map Prod.fst)) g
    (sortStrings (g.map Prod.fst)) g (nodup_sortStrings _ hG.1)
    (fun K hK => (mem_sortStrings _ K).mp hK) rfl (fun _ => rfl) (fun _ _ => rfl)).2
  have hall2 : ∀ K ∈ sortStrings (g.map Prod.fst), ∃ b,
      finishBucket env st2 g (sortStrings (g.map Prod.fst)) K
        ((mapGet g K).getD emptyBucket) = Except.ok b := by
    intro K hK
    have hK2 : K ∈ g.map Prod.fst := (mem_sortStrings _ K).mp hK
    rw [grouped_get env data g hG K hK2]
    simp only [Option.getD_some]
    obtain ⟨b, hb1, _⟩ := hall K hK2
    have hft : ∃ r, firstTimeUsersOf env st2 K [] (groupedBucket env data K).users =
        Except.ok r := by
      apply firstTimeUsersOf_ok
      intro e he
      unfold finishBucket at hb1
      cases hf : firstTimeUsersOf env st K [] (groupedBucket env data K).users with
      | error err => simp [hf] at hb1
      | ok ftu =>
        exact isFirstTimeUser_ok_congr env st st2 K e hb hg hbf
          ((firstTimeUsersOf_spec env st K _ [] _ hf).2.1 e he)
    obtain ⟨r, hr⟩ := hft
    unfold finishBucket
    simp only [hr]
    exact ⟨_, rfl⟩
  obtain ⟨md2, hmd2⟩ := hfin hall2
  refine ⟨md2, ?_⟩
  unfold monthlyBuckets
  simp only [hgr, hmd2]

/-! ## The first-time sets -/

theorem firstTimeUsers_month (env : Env) (st : State) (data : List Transaction)
    (md : List (String × MonthBucket)) (h : monthlyBuckets env st data = Except.ok md)
    (K : String) (b : MonthBucket) (hb : mapGet md K = some b) (e : String)
    (he : e ∈ b.firstTimeUsers) :
    ∃ bfv, mapGet st.globalUserBusinessFirstVisit (userBusinessKey e st.selectedBusiness) =
      some bfv ∧ formatYearMonth env bfv = K := by
  obtain ⟨_, hft⟩ := (mem_firstTimeUsers env st data md h K b hb e).mp he
  obtain ⟨_, bfv, _, h1, h2, _⟩ := (isFirstTimeUser_true_iff env st K e).mp hft
  exact ⟨bfv, h1, h2⟩

theorem chart_labels_nodup (env : Env) (st : State) (data : List Transaction)
    (md : List (String × MonthBucket)) (h : monthlyBuckets env st data = Except.ok md) :
    (md.map Prod.fst).Nodup ∧ (chartDataOf md).labels.Nodup := by
  obtain ⟨g, _, hG, hkeys, _⟩ := monthlyBuckets_spec env st data md h
  have hnd : (md.map Prod.fst).Nodup := by rw [hkeys]; exact hG.1
  exact ⟨hnd, nodup_sortStrings _ hnd⟩

theorem label_has_bucket (md : List (String × MonthBucket)) (K : String)
    (hK : K ∈ (chartDataOf md).labels) : ∃ b, mapGet md K = some b := by
  have hK2 : K ∈ md.map Prod.fst := (mem_sortStrings _ K).mp hK
  have := (mapGet_isSome_iff md K).mpr hK2
  exact Option.isSome_iff_exists.mp this

/-- C27: in the buckets that `updateCharts` builds, an email is in the first-time set of at
most one bucket, so the emitted `firstTimeUsers` series sums to at most the number of
distinct emails of the filtered set; and with a higher threshold `updateCharts` still emits,
and the first-time set of every bucket is a subset of what it was. -/
theorem firstTimeUsers_one_bucket (env : Env) (st : State) (data : List Transaction)
    (md : List (String × MonthBucket)) (h : monthlyBuckets env st data = Except.ok md) :
    (∀ e K1 K2 b1 b2, mapGet md K1 = some b1 → mapGet md K2 = some b2 →
      e ∈ b1.firstTimeUsers → e ∈ b2.firstTimeUsers → K1 = K2) ∧
    (chartDataOf md).firstTimeUsers.sum ≤ ((data.map (fun t => t.email)).toFinset).card ∧
    (∀ T, st.firstTimeUsersThreshold ≤ T →
      ∃ md2, monthlyBuckets env { st with firstTimeUsersThreshold := T } data =
          Except.ok md2 ∧
        ∀ K b b2, mapGet md K = some b → mapGet md2 K = some b2 →
          ∀ e ∈ b2.firstTimeUsers, e ∈ b.firstTimeUsers) := by
  have hone : ∀ e K1 K2 b1 b2, mapGet md K1 = some b1 → mapGet md K2 = some b2 →
      e ∈ b1.firstTimeUsers → e ∈ b2.firstTimeUsers → K1 = K2 := by
    intro e K1 K2 b1 b2 hb1 hb2 he1 he2
    obtain ⟨v1, hv1, hk1⟩ := firstTimeUsers_month env st data md h K1 b1 hb1 e he1
    obtain ⟨v2, hv2, hk2⟩ := firstTimeUsers_month env st data md h K2 b2 hb2 e he2
    rw [hv1] at hv2
    rw [← hk1, ← hk2, Option.some.inj hv2]
  refine ⟨hone, ?_, ?_⟩
  · have hnd := (chart_labels_nodup env st data md h).2
    have hsum : (chartDataOf md).firstTimeUsers.sum =
        ∑ K in (chartDataOf md).labels.toFinset,
          (((mapGet md K).getD emptyBucket).firstTimeUsers.toFinset).card := by
      rw [List.sum_toFinset _ hnd]
      unfold chartDataOf
      simp only
      congr 1
      apply List.map_congr_left
      intro K hK
      obtain ⟨b, hb⟩ := label_has_bucket md K hK
      rw [hb, Option.getD_some,
        List.toFinset_card_of_nodup (firstTimeUsers_nodup env st data md h K b hb)]
    rw [hsum, ← Finset.card_biUnion]
    · apply Finset.card_le_card
      intro e he
      obtain ⟨K, hK, heK⟩ := Finset.mem_biUnion.mp he
      obtain ⟨b, hb⟩ := label_has_bucket md K (List.mem_toFinset.mp hK)
      rw [hb, Option.getD_some, List.mem_toFinset] at heK
      have hu := ((mem_firstTimeUsers env st data md h K b hb e).mp heK).1
      obtain ⟨g, _, _, _, _, hus, _, _, _⟩ := bucket_detail env st data md h K b hb
      rw [hus] at hu
      obtain ⟨t, ht, _, hte⟩ := (mem_monthUsers env data K e).mp hu
      exact List.mem_toFinset.mpr (List.mem_map.mpr ⟨t, ht, hte⟩)
    · intro K1 hK1 K2 hK2 hne
      rw [Finset.disjoint_left]
      intro e he1 he2
      obtain ⟨b1, hb1⟩ := label_has_bucket md K1 (List.mem_toFinset.mp hK1)
      obtain ⟨b2, hb2⟩ := label_has_bucket md K2 (List.mem_toFinset.mp hK2)
      rw [hb1, Option.getD_some, List.mem_toFinset] at he1
      rw [hb2, Option.getD_some, List.mem_toFinset] at he2
      exact hne (hone e K1 K2 b1 b2 hb1 hb2 he1 he2)
  · intro T hT
    obtain ⟨md2, hmd2⟩ := monthlyBuckets_transfer env st
      { st with firstTimeUsersThreshold := T } data md h rfl rfl rfl
    refine ⟨md2, hmd2, fun K b b2 hb hb2 e he => ?_⟩
    obtain ⟨hu2, hft2⟩ := (mem_firstTimeUsers env _ data md2 hmd2 K b2 hb2 e).mp he
    obtain ⟨g, _, _, _, _, hus, _, _, _⟩ := bucket_detail env st data md h K b hb
    obtain ⟨g2, _, _, _, _, hus2, _, _, _⟩ := bucket_detail env _ data md2 hmd2 K b2 hb2
    rw [mem_firstTimeUsers env st data md h K b hb e]
    refine ⟨by rw [hus, ← hus2]; exact hu2, ?_⟩
    obtain ⟨hall, bfv, gfv, h1, h2, h3, h4⟩ := (isFirstTimeUser_true_iff env _ K e).mp hft2
    refine (isFirstTimeUser_true_iff env st K e).mpr ⟨hall, bfv, gfv, h1, h2, h3, ?_⟩
    have hTq : (st.firstTimeUsersThreshold : ℚ) ≤ (T : ℚ) := by exact_mod_cast hT
    exact le_trans hTq h4

/-! ## The window-returning sets -/

theorem previousMonthsUsers_first (g : List (String × MonthBucket)) (sorted : List String)
    (K : String) (window : Nat) (hnd : sorted.Nodup) (h0 : sorted.get? 0 = some K) :
    previousMonthsUsers g sorted K window = [] := by
  rw [List.eq_nil_iff_forall_not_mem]
  intro e he
  obtain ⟨i, hi1, _, hmem⟩ := (mem_previousMonthsUsers g sorted K window e).mp he
  unfold usersAtOffset at hmem
  rw [indexOf_get sorted K 0 hnd h0] at hmem
  have hoff := arrayGet_offset sorted 0 i
  rw [if_neg (by omega)] at hoff
  rw [hoff] at hmem
  exact absurd hmem (List.not_mem_nil e)

/-- C28: a user with a record in December 999 and one in January 1000, window 1.  The month
keys are "999-12" and "1000-01" (the year is not padded to four digits, against the format
YYYY-MM of script.js 57), so the labels are emitted as "1000-01", "999-12": the bucket of
December 999, the earliest month, stands second, takes January 1000 as its previous month
and counts the user as window-returning. -/
theorem windowReturning_earliest_month :
    initialState.returningWindow = 1 ∧
    earlyYearsData.map (fun t => (t.email, formatYearMonth utcEnv t.date)) =
      [("a@x.com", "999-12"), ("a@x.com", "1000-01")] ∧
    calendarMonthBefore utcEnv (-30611692800000) (-30609014400000) ∧
    (updateCharts utcEnv initialState earlyYearsData).toOption.map
      (fun c => (c.labels, c.uniqueUsers, c.lastMonthReturningUsers)) =
      some (["1000-01", "999-12"], [1, 1], [0, 1]) := by
  refine ⟨rfl, by decide, by decide, ?_⟩
  with_unfolding_all decide

/-- With a larger window `updateCharts` still emits, and the window-returning
set of every bucket contains what it held with the smaller window; the bucket of the first
label has no window-returning user for any window; and when every record has a year of four
digits, the first label is the earliest calendar month of the records. -/
theorem windowReturning_monotone (env : Env) (st : State) (data : List Transaction)
    (md : List (String × MonthBucket)) (h : monthlyBuckets env st data = Except.ok md) :
    (∀ N, st.returningWindow ≤ N →
      ∃ md2, monthlyBuckets env { st with returningWindow := N } data = Except.ok md2 ∧
        ∀ K b b2, mapGet md K = some b → mapGet md2 K = some b2 →
          ∀ e ∈ b.lastMonthReturningUsers, e ∈ b2.lastMonthReturningUsers) ∧
    (∀ K b, (chartDataOf md).labels.get? 0 = some K → mapGet md K = some b →
      b.lastMonthReturningUsers = []) ∧
    ((∀ t ∈ data, fourDigitYear env t.date) →
      ∀ K, (chartDataOf md).labels.get? 0 = some K →
        ∀ t1 ∈ data, ∀ t2 ∈ data, formatYearMonth env t1.date = K →
          formatYearMonth env t2.date ≠ K → calendarMonthBefore env t1.date t2.date) := by
  refine ⟨fun N hN => ?_, fun K b h0 hb => ?_, fun hfour K h0 t1 ht1 t2 ht2 e1 e2 => ?_⟩
  · obtain ⟨md2, hmd2⟩ := monthlyBuckets_transfer env st
      { st with returningWindow := N } data md h rfl rfl rfl
    refine ⟨md2, hmd2, fun K b b2 hb hb2 e he => ?_⟩
    obtain ⟨g, hg, _, _, _, _, _, _, hl⟩ := bucket_detail env st data md h K b hb
    obtain ⟨g2, hg2, _, _, _, _, _, _, hl2⟩ := bucket_detail env _ data md2 hmd2 K b2 hb2
    rw [hg] at hg2
    have hgg : g = g2 := Except.ok.inj hg2
    subst hgg
    rw [hl] at he
    rw [hl2]
    by_cases hc : K ≠ "" ∧ st.returningWindow > 0
    · rw [if_pos hc, mem_setOfList] at he
      have hc2 : K ≠ "" ∧ N > 0 := ⟨hc.1, lt_of_lt_of_le hc.2 hN⟩
      rw [if_pos hc2, mem_setOfList]
      obtain ⟨hu, hp⟩ := List.mem_filter.mp he
      refine List.mem_filter.mpr ⟨hu, ?_⟩
      simp only [decide_eq_true_eq] at hp ⊢
      obtain ⟨i, hi1, hi2, hi3⟩ := (mem_previousMonthsUsers _ _ K _ e).mp hp
      exact (mem_previousMonthsUsers _ _ K _ e).mpr ⟨i, hi1, le_trans hi2 hN, hi3⟩
    · rw [if_neg hc] at he
      exact absurd he (List.not_mem_nil e)
  · obtain ⟨g, _, hG, hkeys, _, _, _, _, hl⟩ := bucket_detail env st data md h K b hb
    rw [hl]
    split_ifs
    · have hlab : (chartDataOf md).labels = sortStrings (g.map Prod.fst) := by
        unfold chartDataOf
        simp only [hkeys]
      rw [hlab] at h0
      rw [previousMonthsUsers_first g _ K _ (nodup_sortStrings _ hG.1) h0]
      simp [setOfList]
    · rfl
  · obtain ⟨hnd, _⟩ := chart_labels_nodup env st data md h
    have hstrict : (chartDataOf md).labels.Pairwise jsStrLt := sortStrings_strict _ hnd
    obtain ⟨j, hj⟩ := month_is_label env st data md h (formatYearMonth env t2.date) ⟨t2, ht2, rfl⟩
    cases hlab : (chartDataOf md).labels with
    | nil => rw [hlab] at h0; simp at h0
    | cons first rest =>
      rw [hlab] at h0 hj hstrict
      simp only [List.get?_cons_zero, Option.some.injEq] at h0
      subst h0
      have hmem : formatYearMonth env t2.date ∈ first :: rest := List.mem_iff_get?.mpr ⟨j, hj⟩
      rcases List.mem_cons.mp hmem with hm | hm
      · exact absurd hm e2
      · have hlt := (List.pairwise_cons.mp hstrict).1 _ hm
        rw [← e1] at hlt
        exact (formatYearMonth_lt_iff env t1.date t2.date (hfour t1 ht1) (hfour t2 ht2)).mp hlt

/-! ## The default periods and the date filter -/

/-- The globals that `filterAndUpdateDashboard` leaves when it derives the default periods
from the latest record. -/
theorem defaultPeriods_state (env : Env) (st : State) (hnone : st.currentDateRange = none)
    (hne : filterByBusiness st ≠ [])
    (hvalid : ∀ t ∈ filterByBusiness st,
      -8640000000000000 + 59 * 86400000 ≤ t.date ∧ t.date ≤ 8640000000000000) :
    ∃ x ∈ filterByBusiness st, (∀ t ∈ filterByBusiness st, t.date ≤ x.date) ∧
      (filterAndUpdateDashboard env st).1 =
        { st with
          currentDateRange := some (some (x.date - 29 * 86400000), some x.date)
          previousDateRange :=
            some (some (x.date - 59 * 86400000), some (x.date - 30 * 86400000)) } := by
  obtain ⟨x, hlast, hx, hmax⟩ := latest_of_sorted (filterByBusiness st) hne
  have hb := hvalid x hx
  have e1 : addDays (some x.date) (-29) = some (x.date - 29 * 86400000) :=
    addDays_some _ _ _ (by omega) (by omega) (by omega)
  have e2 : addDays (some (x.date - 29 * 86400000)) (-1) = some (x.date - 30 * 86400000) :=
    addDays_some _ _ _ (by omega) (by omega) (by omega)
  have e3 : addDays (some (x.date - 30 * 86400000)) (-29) = some (x.date - 59 * 86400000) :=
    addDays_some _ _ _ (by omega) (by omega) (by omega)
  refine ⟨x, hx, hmax, ?_⟩
  unfold filterAndUpdateDashboard setDefaultPeriods
  simp only [hnone, Option.isNone_none, true_and, ne_eq, hne, not_false_eq_true, if_true,
    hlast, Option.map_some', e1, e2, e3]

theorem startOfDay_eq (env : Env) (s : Int) (h1 : -8640000000000000 + 86400000 ≤ s)
    (h2 : s ≤ 8640000000000000) :
    startOfDay env (some s) = some (localDay env s * 86400000 - env.tzOffsetMs) := by
  unfold startOfDay timeClip
  simp only [Option.some_bind, msPerDay, localDay_eq]
  rw [if_pos (by omega)]

theorem endOfDay_eq (env : Env) (e : Int) (h1 : -8640000000000000 ≤ e)
    (h2 : e ≤ 8640000000000000 - 86400000) :
    endOfDay env (some e) =
      some (localDay env e * 86400000 + 86399999 - env.tzOffsetMs) := by
  unfold endOfDay timeClip
  simp only [Option.some_bind, msPerDay, localDay_eq]
  rw [if_pos (by omega)]

theorem mem_filterByRange (env : Env) (s e : Int) (data : List Transaction) (t : Transaction)
    (hs1 : -8640000000000000 + 86400000 ≤ s) (hs2 : s ≤ 8640000000000000)
    (he1 : -8640000000000000 ≤ e) (he2 : e ≤ 8640000000000000 - 86400000) :
    t ∈ filterByRange env (some s, some e) data ↔
      t ∈ data ∧ localDay env s * 86400000 - env.tzOffsetMs ≤ t.date ∧
        t.date ≤ localDay env e * 86400000 + 86399999 - env.tzOffsetMs := by
  unfold filterByRange
  simp only [startOfDay_eq env s hs1 hs2, endOfDay_eq env e he1 he2, dateInRange,
    List.mem_filter, decide_eq_true_eq]

/-- C29: when no current range is set and the business/location-filtered records are not
empty (all of them dated at least 60 days after the earliest and one day before the latest
date a `Date` can hold), the latest record passes the date filter of the current period that
`filterAndUpdateDashboard` derives, so the current-period subset is not empty, and no record
passes both the filter of the current and that of the previous period. -/
theorem default_period_holds_latest (env : Env) (st : State)
    (hnone : st.currentDateRange = none) (hne : filterByBusiness st ≠ [])
    (hvalid : ∀ t ∈ filterByBusiness st,
      -8640000000000000 + 60 * 86400000 ≤ t.date ∧
        t.date ≤ 8640000000000000 - 86400000) :
    (∃ latest ∈ filterByBusiness st, (∀ t ∈ filterByBusiness st, t.date ≤ latest.date) ∧
      latest ∈ currentPeriodData env (filterAndUpdateDashboard env st).1
        (filterByBusiness st)) ∧
    currentPeriodData env (filterAndUpdateDashboard env st).1 (filterByBusiness st) ≠ [] ∧
    (∀ t, t ∈ currentPeriodData env (filterAndUpdateDashboard env st).1
        (filterByBusiness st) →
      t ∉ previousPeriodData env (filterAndUpdateDashboard env st).1
        (filterByBusiness st)) ∧
    (filterAndUpdateDashboard env st).2 =
      updateDashboard env (filterAndUpdateDashboard env st).1 (filterByBusiness st) := by
  obtain ⟨x, hx, hmax, hst⟩ := defaultPeriods_state env st hnone hne
    (fun t ht => ⟨by have := (hvalid t ht).1; omega, by have := (hvalid t ht).2; omega⟩)
  obtain ⟨hb1, hb2⟩ := hvalid x hx
  have hcur : ∀ t, t ∈ currentPeriodData env (filterAndUpdateDashboard env st).1
      (filterByBusiness st) ↔
      t ∈ filterByBusiness st ∧
        localDay env (x.date - 29 * 86400000) * 86400000 - env.tzOffsetMs ≤ t.date ∧
        t.date ≤ localDay env x.date * 86400000 + 86399999 - env.tzOffsetMs := by
    intro t
    rw [hst]
    unfold currentPeriodData
    simp only
    exact mem_filterByRange env _ _ _ t (by omega) (by omega) (by omega) (by omega)
  have hprev : ∀ t, t ∈ previousPeriodData env (filterAndUpdateDashboard env st).1
      (filterByBusiness st) ↔
      t ∈ filterByBusiness st ∧
        localDay env (x.date - 59 * 86400000) * 86400000 - env.tzOffsetMs ≤ t.date ∧
        t.date ≤ localDay env (x.date - 30 * 86400000) * 86400000 + 86399999
          - env.tzOffsetMs := by
    intro t
    rw [hst]
    unfold previousPeriodData
    simp only
    exact mem_filterByRange env _ _ _ t (by omega) (by omega) (by omega) (by omega)
  have hin : x ∈ currentPeriodData env (filterAndUpdateDashboard env st).1
      (filterByBusiness st) := by
    rw [hcur]
    refine ⟨hx, ?_, ?_⟩ <;> (simp only [localDay_eq]; omega)
  refine ⟨⟨x, hx, hmax, hin⟩, List.ne_nil_of_mem hin, fun t ht hp => ?_, rfl⟩
  have h1 := ((hcur t).mp ht).2.1
  have h2 := ((hprev t).mp hp).2.2
  simp only [localDay_eq] at h1 h2
  omega

theorem default_period_holds_latest_witness :
    ((filterByBusiness { initialState with transactionData := sampleData }).map
      (fun t => t.date)).length = 7 ∧
    (currentPeriodData utcEnv (filterAndUpdateDashboard utcEnv
        { initialState with transactionData := sampleData }).1
      (filterByBusiness { initialState with transactionData := sampleData })).map
        (fun t => t.date) = [1707523200000, 1710028800000] ∧
    currentPeriodData utcEnv (filterAndUpdateDashboard utcEnv
        { initialState with transactionData := sampleData }).1
      (filterByBusiness { initialState with transactionData := sampleData }) ≠ [] :=
  ⟨by decide, by decide,
   (default_period_holds_latest utcEnv { initialState with transactionData := sampleData }
    rfl (by decide)
    (by
      intro t ht
      have h : t ∈ sampleData := ht
      simp only [sampleData, List.mem_cons, List.mem_singleton, List.not_mem_nil,
        or_false] at h
      rcases h with h | h | h | h | h | h | h <;> rw [h] <;> constructor <;> decide)).2.1⟩

/-! ## Monthly series against the scalars of the period -/

theorem foldl_add_amount (l : List Transaction) (a : ℚ) :
    l.foldl (fun sum item => sum + item.amount) a = a + (l.map (fun t => t.amount)).sum := by
  induction l generalizing a with
  | nil => simp
  | cons t rest ih =>
    simp only [List.foldl_cons, ih, List.map_cons, List.sum_cons]
    ring

/-- Summing, over distinct keys that cover a list, the amounts of the records under each key
gives the sum of all amounts. -/
theorem sum_by_key (keys : Finset String) (f : Transaction → String) (l : List Transaction)
    (hcover : ∀ t ∈ l, f t ∈ keys) :
    ∑ K in keys, ((l.filter (fun t => decide (f t = K))).map (fun t => t.amount)).sum =
      (l.map (fun t => t.amount)).sum := by
  induction l with
  | nil => simp
  | cons t rest ih =>
    have hstep : ∀ K, ((List.filter (fun u => decide (f u = K)) (t :: rest)).map
        (fun u => u.amount)).sum =
        (if f t = K then t.amount else 0) +
          ((rest.filter (fun u => decide (f u = K))).map (fun u => u.amount)).sum := by
      intro K
      by_cases hK : f t = K
      · simp [List.filter_cons, hK]
      · simp [List.filter_cons, hK]
    simp only [hstep, Finset.sum_add_distrib, List.map_cons, List.sum_cons]
    rw [ih (fun u hu => hcover u (List.mem_cons_of_mem t hu)), Finset.sum_ite_eq,
      if_pos (hcover t (List.mem_cons_self t rest))]

/-- What `updateDashboard` reports, from the current-period subset. -/
theorem updateDashboard_current (env : Env) (st : State) (data : List Transaction)
    (dash : Dashboard) (chart : ChartData)
    (hd : updateDashboard env st data = Except.ok dash) (hc : dash.charts = some chart) :
    updateCharts env st (currentPeriodData env st data) = Except.ok chart ∧
    dash.totalAmount =
      ((currentPeriodData env st data).map (fun t => t.amount)).sum ∧
    dash.uniqueUsers =
      (((currentPeriodData env st data).map (fun t => t.email)).toFinset).card := by
  unfold updateDashboard at hd
  simp only at hd
  cases h1 : userVisitDays env [] (currentPeriodData env st data) with
  | error e => simp [h1] at hd
  | ok uv =>
    cases h2 : userVisitDays env [] (previousPeriodData env st data) with
    | error e => simp [h1, h2] at hd
    | ok uvp =>
      simp only [h1, h2, Except.ok.injEq] at hd
      subst hd
      simp only at hc
      refine ⟨?_, ?_, ?_⟩
      · by_cases hlen : (currentPeriodData env st data).length > 0
        · rw [if_pos hlen] at hc
          cases hu : updateCharts env st (currentPeriodData env st data) with
          | error e => simp [hu] at hc
          | ok c =>
            simp only [hu, Option.some.injEq] at hc
            rw [hc]
        · rw [if_neg hlen] at hc
          cases hc
      · simp only [foldl_add_amount, zero_add]
      · exact length_setOfList _

/-- C26: when `updateDashboard` hands a chart to the renderer, every record of the
current-period subset has its month at exactly one position of the labels; the emitted
`totalAmount` series sums to the scalar total amount of the period; the emitted `uniqueUsers`
series sums to at least the scalar number of unique users, and to exactly that number when
no email has records in two different months. -/
theorem monthly_sums_match_scalars (env : Env) (st : State) (data : List Transaction)
    (dash : Dashboard) (chart : ChartData)
    (hd : updateDashboard env st data = Except.ok dash) (hc : dash.charts = some chart) :
    (∀ t ∈ currentPeriodData env st data, ∃ i,
      chart.labels.get? i = some (formatYearMonth env t.date) ∧
      ∀ j, chart.labels.get? j = some (formatYearMonth env t.date) → j = i) ∧
    chart.totalAmount.sum = dash.totalAmount ∧
    dash.uniqueUsers ≤ chart.uniqueUsers.sum ∧
    ((∀ t1 ∈ currentPeriodData env st data, ∀ t2 ∈ currentPeriodData env st data,
        t1.email = t2.email → formatYearMonth env t1.date = formatYearMonth env t2.date) →
      chart.uniqueUsers.sum = dash.uniqueUsers) := by
  obtain ⟨hu, htotal, huniq⟩ := updateDashboard_current env st data dash chart hd hc
  generalize currentPeriodData env st data = cur at hu htotal huniq ⊢
  obtain ⟨md, hmd, rfl⟩ := (updateCharts_ok_iff env st cur chart).mp hu
  have hnd : (chartDataOf md).labels.Nodup := by
    obtain ⟨g, _, hG, hkeys, _⟩ := monthlyBuckets_spec env st cur md hmd
    exact nodup_sortStrings _ (by rw [hkeys]; exact hG.1)
  have hcover : ∀ t ∈ cur, formatYearMonth env t.date ∈ (chartDataOf md).labels.toFinset := by
    intro t ht
    obtain ⟨i, hi⟩ := month_is_label env st cur md hmd _ ⟨t, ht, rfl⟩
    exact List.mem_toFinset.mpr (List.mem_iff_get?.mpr ⟨i, hi⟩)
  have hbucket : ∀ K ∈ (chartDataOf md).labels, ∃ b, mapGet md K = some b ∧
      b.users.length = (monthEmails env cur K).card ∧
      b.amount = ((monthRecords env cur K).map (fun t => t.amount)).sum := by
    intro K hK
    obtain ⟨i, hi⟩ := List.mem_iff_get?.mp hK
    obtain ⟨b, hb, _⟩ := label_bucket env st cur md hmd i K hi
    obtain ⟨g, _, _, hus, ham, _⟩ := bucket_fields env st cur md hmd K b hb
    exact ⟨b, hb, by rw [hus, length_monthUsers], ham⟩
  have hamount : (chartDataOf md).totalAmount.sum =
      ∑ K in (chartDataOf md).labels.toFinset,
        ((monthRecords env cur K).map (fun t => t.amount)).sum := by
    rw [List.sum_toFinset _ hnd]
    unfold chartDataOf
    simp only
    congr 1
    apply List.map_congr_left
    intro K hK
    obtain ⟨b, hb, _, ham⟩ := hbucket K hK
    rw [hb, Option.getD_some, ham]
  have husers : (chartDataOf md).uniqueUsers.sum =
      ∑ K in (chartDataOf md).labels.toFinset, (monthEmails env cur K).card := by
    rw [List.sum_toFinset _ hnd]
    unfold chartDataOf
    simp only
    congr 1
    apply List.map_congr_left
    intro K hK
    obtain ⟨b, hb, hlen, _⟩ := hbucket K hK
    rw [hb, Option.getD_some, hlen]
  have hunion : (cur.map (fun t => t.email)).toFinset =
      (chartDataOf md).labels.toFinset.biUnion (fun K => monthEmails env cur K) := by
    ext e
    simp only [List.mem_toFinset, List.mem_map, Finset.mem_biUnion, monthEmails, monthRecords,
      List.mem_filter, decide_eq_true_eq]
    constructor
    · rintro ⟨t, ht, hte⟩
      exact ⟨formatYearMonth env t.date, List.mem_toFinset.mp (hcover t ht), t, ⟨ht, rfl⟩, hte⟩
    · rintro ⟨K, _, t, ⟨ht, _⟩, hte⟩
      exact ⟨t, ht, hte⟩
  refine ⟨fun t ht => ?_, ?_, ?_, fun hdisj => ?_⟩
  · obtain ⟨i, hi⟩ := month_is_label env st cur md hmd _ ⟨t, ht, rfl⟩
    refine ⟨i, hi, fun j hj => ?_⟩
    have hjlt : j < (chartDataOf md).labels.length := (List.get?_eq_some.mp hj).1
    exact List.getElem?_inj hjlt hnd (by
      simp only [← List.get?_eq_getElem?]
      rw [hj, hi])
  · rw [hamount, htotal]
    exact sum_by_key _ (fun t => formatYearMonth env t.date) cur hcover
  · rw [husers, huniq, hunion]
    exact Finset.card_biUnion_le
  · rw [husers, huniq, hunion, Finset.card_biUnion]
    intro K1 _ K2 _ hne
    rw [Finset.disjoint_left]
    intro e he1 he2
    simp only [monthEmails, monthRecords, List.mem_toFinset, List.mem_map, List.mem_filter,
      decide_eq_true_eq] at he1 he2
    obtain ⟨t1, ⟨ht1, hk1⟩, hte1⟩ := he1
    obtain ⟨t2, ⟨ht2, hk2⟩, hte2⟩ := he2
    exact hne (by rw [← hk1, ← hk2]; exact hdisj t1 ht1 t2 ht2 (by rw [hte1, hte2]))

/-! ## The sample view -/

theorem sample_buckets : monthlyBuckets utcEnv sampleState sampleCafe = Except.ok sampleBuckets := by
  with_unfolding_all decide

theorem sample_dashboard :
    updateDashboard utcEnv sampleState sampleCafe = Except.ok sampleDashboard := by
  with_unfolding_all rfl

theorem derived_sets_within_users_witness :
    monthlyBuckets utcEnv sampleState sampleCafe = Except.ok sampleBuckets ∧
    returningUsersPercentages sampleState (chartDataOf sampleBuckets) =
      [JSNum.finite 0, JSNum.finite 100, JSNum.finite 100] ∧
    (∀ p ∈ returningUsersPercentages sampleState (chartDataOf sampleBuckets),
      ∃ q : ℚ, p = JSNum.finite q ∧ 0 ≤ q ∧ q ≤ 100) :=
  ⟨sample_buckets, by with_unfolding_all decide,
   (derived_sets_within_users utcEnv sampleState sampleCafe sampleBuckets sample_buckets).2.2⟩

theorem monthly_sums_match_scalars_witness :
    updateDashboard utcEnv sampleState sampleCafe = Except.ok sampleDashboard ∧
    sampleDashboard.charts = some sampleChart ∧
    sampleChart.totalAmount.sum = sampleDashboard.totalAmount ∧
    sampleDashboard.uniqueUsers ≤ sampleChart.uniqueUsers.sum ∧
    sampleChart.uniqueUsers.sum = 4 :=
  ⟨sample_dashboard, rfl,
   (monthly_sums_match_scalars utcEnv sampleState sampleCafe sampleDashboard sampleChart
      sample_dashboard rfl).2.1,
   (monthly_sums_match_scalars utcEnv sampleState sampleCafe sampleDashboard sampleChart
      sample_dashboard rfl).2.2.1,
   by decide⟩

theorem firstTimeUsers_one_bucket_witness :
    monthlyBuckets utcEnv sampleState sampleCafe = Except.ok sampleBuckets ∧
    (chartDataOf sampleBuckets).firstTimeUsers = [1, 0, 0] ∧
    (chartDataOf sampleBuckets).firstTimeUsers.sum ≤
      ((sampleCafe.map (fun t => t.email)).toFinset).card :=
  ⟨sample_buckets, by decide,
   (firstTimeUsers_one_bucket utcEnv sampleState sampleCafe sampleBuckets sample_buckets).2.1⟩

theorem windowReturning_monotone_witness :
    monthlyBuckets utcEnv sampleState sampleCafe = Except.ok sampleBuckets ∧
    (chartDataOf sampleBuckets).labels = ["2024-01", "2024-02", "2024-03"] ∧
    (∀ K b, (chartDataOf sampleBuckets).labels.get? 0 = some K →
      mapGet sampleBuckets K = some b → b.lastMonthReturningUsers = []) :=
  ⟨sample_buckets, by decide,
   (windowReturning_monotone utcEnv sampleState sampleCafe sampleBuckets sample_buckets).2.1⟩

/-! ## The header under the host's lower case -/

theorem toLower_of_not_ascii (c : Char) (h : ¬ c.toNat < 128) : c.toLower = c := by
  rcases toLower_cases c with h1 | ⟨_, h2, _⟩
  · exact h1
  · omega

theorem lowerOf_toLower (c : Char) (h : c.toNat < 128 ∨ isJsWhitespace c = true) :
    LowerOf c [c.toLower] := by
  unfold LowerOf
  by_cases hc : c.toNat < 128
  · rw [if_pos hc]
  · rw [if_neg hc, if_pos (h.resolve_left hc), toLower_of_not_ascii c hc]

/-- What replaces a character has no comma and no double quote unless the character is one,
and it is not empty. -/
theorem lowerOf_plain (c : Char) (out : List Char) (h : LowerOf c out) (hc : ¬ c.toNat < 128) :
    out ≠ [] ∧ ∀ d ∈ out, d ≠ ',' ∧ d ≠ '"' := by
  unfold LowerOf at h
  rw [if_neg hc] at h
  by_cases hw : isJsWhitespace c = true
  · rw [if_pos hw] at h
    subst h
    refine ⟨by simp, fun d hd => ?_⟩
    rw [List.mem_singleton] at hd
    subst hd
    constructor
    · intro e
      rw [e] at hc
      exact hc (by decide)
    · intro e
      rw [e] at hc
      exact hc (by decide)
  · rw [if_neg hw] at h
    obtain ⟨h1, h2, h3⟩ := h
    refine ⟨?_, fun d hd => ⟨fun e => h1 (e ▸ hd), fun e => h2 (e ▸ hd)⟩⟩
    rcases h3 with ⟨d, hd, _⟩ | h3
    · exact List.ne_nil_of_mem hd
    · rw [h3]; simp

theorem lowerCased_nil : LowerCased [] [] := ⟨[], List.Forall₂.nil, rfl⟩

theorem lowerCased_append (a low1 b low2 : List Char) (h1 : LowerCased a low1)
    (h2 : LowerCased b low2) : LowerCased (a ++ b) (low1 ++ low2) := by
  obtain ⟨o1, hf1, rfl⟩ := h1
  obtain ⟨o2, hf2, rfl⟩ := h2
  exact ⟨o1 ++ o2, List.rel_append hf1 hf2, by simp⟩

theorem lowerCased_single (c : Char) (out : List Char) (h : LowerOf c out) :
    LowerCased [c] out :=
  ⟨[out], List.Forall₂.cons h List.Forall₂.nil, by simp⟩

theorem lowered_head (rest : List Char) (routs : List (List Char))
    (h : List.Forall₂ LowerOf rest routs) :
    routs.flatten.head? = some '"' ↔ rest.head? = some '"' := by
  cases h with
  | nil => simp
  | cons hc hrest =>
    rename_i c out rest2 routs2
    by_cases hascii : c.toNat < 128
    · have hout : out = [c.toLower] := by
        unfold LowerOf at hc
        rwa [if_pos hascii] at hc
      subst hout
      simp [toLower_eq_quote]
    · obtain ⟨hne, hplain⟩ := lowerOf_plain c out hc hascii
      cases out with
      | nil => exact absurd rfl hne
      | cons d rest3 =>
        have hd := (hplain d (by simp)).2
        have hc2 : c ≠ '"' := by
          intro e
          rw [e] at hascii
          exact hascii (by decide)
        simp [hd, hc2]

theorem parseCSVLoop_run (out : List Char) :
    ∀ (tail current : List Char) (inQuotes : Bool) (result : List String),
      (∀ d ∈ out, d ≠ ',' ∧ d ≠ '"') →
      parseCSVLoop (out ++ tail) current inQuotes false result =
        parseCSVLoop tail (current ++ out) inQuotes false result := by
  induction out with
  | nil => intro tail current inQuotes result _; simp
  | cons c rest ih =>
    intro tail current inQuotes result h
    have hc := h c (by simp)
    rw [List.cons_append]
    conv_lhs => unfold parseCSVLoop
    simp only [Bool.false_eq_true, if_false, hc.2, hc.1, false_and]
    rw [ih tail _ inQuotes result (fun d hd => h d (by simp [hd]))]
    simp

theorem fieldLowerCased_of (cur low : List Char) (h : LowerCased cur low) :
    FieldLowerCased (jsTrim ⟨cur⟩) (jsTrim ⟨low⟩) := ⟨cur, low, h, rfl, rfl⟩

theorem forall2_concat {α β : Type} (R : α → β → Prop) (l1 : List α) (l2 : List β) (a : α)
    (b : β) (h : List.Forall₂ R l1 l2) (hab : R a b) : List.Forall₂ R (l1 ++ [a]) (l2 ++ [b]) :=
  List.rel_append h (List.Forall₂.cons hab List.Forall₂.nil)

/-- The scan of `parseCSVLine` over a lower-cased line goes the way of the scan over the line
as written, and the fields it gathers are the lower-cased forms of the fields gathered
there. -/
theorem parseCSVLoop_lowered (cs : List Char) (outs : List (List Char))
    (h : List.Forall₂ LowerOf cs outs) :
    ∀ (current low : List Char) (inQuotes skip : Bool) (result lowResult : List String),
      LowerCased current low → List.Forall₂ FieldLowerCased result lowResult →
      (skip = true → cs.head? = some '"') →
      List.Forall₂ FieldLowerCased (parseCSVLoop cs current inQuotes skip result)
        (parseCSVLoop outs.flatten low inQuotes skip lowResult) := by
  induction h with
  | nil =>
    intro current low inQuotes skip result lowResult hcur hres _
    simp only [List.flatten, parseCSVLoop]
    exact forall2_concat _ _ _ _ _ hres (fieldLowerCased_of current low hcur)
  | cons hc hrest ih =>
    rename_i c out rest routs
    intro current low inQuotes skip result lowResult hcur hres hskip
    by_cases hascii : c.toNat < 128
    · have hout : out = [c.toLower] := by
        unfold LowerOf at hc
        rwa [if_pos hascii] at hc
      subst hout
      have hjoin : ([c.toLower] :: routs).flatten = c.toLower :: routs.flatten := by simp
      rw [hjoin]
      unfold parseCSVLoop
      simp only [toLower_eq_quote, toLower_eq_comma, lowered_head rest routs hrest]
      split_ifs with h1 h2 h3 h4
      · exact ih current low inQuotes false result lowResult hcur hres (by simp)
      · exact ih _ _ inQuotes true result lowResult
          (lowerCased_append _ _ _ _ hcur
            (lowerCased_single '"' ['"'] (lowerOf_toLower '"' (Or.inl (by decide)))))
          hres (fun _ => h3.2)
      · exact ih current low (!inQuotes) false result lowResult hcur hres (by simp)
      · exact ih [] [] inQuotes false _ _ lowerCased_nil
          (forall2_concat _ _ _ _ _ hres (fieldLowerCased_of current low hcur)) (by simp)
      · exact ih _ _ inQuotes false result lowResult
          (lowerCased_append _ _ _ _ hcur
            (lowerCased_single c [c.toLower] (lowerOf_toLower c (Or.inl hascii))))
          hres (by simp)
    · have hquote : c ≠ '"' := by
        intro e
        rw [e] at hascii
        exact hascii (by decide)
      have hcomma : c ≠ ',' := by
        intro e
        rw [e] at hascii
        exact hascii (by decide)
      have hs : skip = false := by
        cases skip with
        | false => rfl
        | true =>
          have := hskip rfl
          simp only [List.head?_cons, Option.some.injEq] at this
          exact absurd this hquote
      subst hs
      obtain ⟨_, hplain⟩ := lowerOf_plain c out hc hascii
      have hl : parseCSVLoop (c :: rest) current inQuotes false result =
          parseCSVLoop rest (current ++ [c]) inQuotes false result :=
        parseCSVLoop_run [c] rest current inQuotes result
          (fun d hd => by rw [List.mem_singleton] at hd; subst hd; exact ⟨hcomma, hquote⟩)
      have hr : parseCSVLoop (out :: routs).flatten low inQuotes false lowResult =
          parseCSVLoop routs.flatten (low ++ out) inQuotes false lowResult := by
        rw [List.flatten_cons]
        exact parseCSVLoop_run out routs.flatten low inQuotes lowResult hplain
      rw [hl, hr]
      exact ih _ _ inQuotes false result lowResult
        (lowerCased_append _ _ _ _ hcur (lowerCased_single c out hc)) hres (by simp)

theorem mem_dropWhile_of_false (p : Char → Bool) (c : Char) (l : List Char) (hc : c ∈ l)
    (hp : p c = false) : c ∈ l.dropWhile p := by
  induction l with
  | nil => exact absurd hc (List.not_mem_nil c)
  | cons a rest ih =>
    by_cases ha : p a = true
    · rw [List.dropWhile_cons_of_pos ha]
      rcases List.mem_cons.mp hc with e | hmem
      · rw [e, ha] at hp
        cases hp
      · exact ih hmem
    · rw [List.dropWhile_cons_of_neg ha]
      exact hc

theorem mem_trimChars (c : Char) (cs : List Char) (hc : c ∈ cs)
    (hw : isJsWhitespace c = false) : c ∈ trimChars cs := by
  unfold trimChars
  rw [List.mem_reverse]
  apply mem_dropWhile_of_false _ _ _ _ hw
  rw [List.mem_reverse]
  exact mem_dropWhile_of_false _ _ _ hc hw

theorem forall2_mem_left {α β : Type} (R : α → β → Prop) (l1 : List α) (l2 : List β)
    (h : List.Forall₂ R l1 l2) (a : α) (ha : a ∈ l1) : ∃ b ∈ l2, R a b := by
  induction h with
  | nil => exact absurd ha (List.not_mem_nil a)
  | cons hab _ ih =>
    rcases List.mem_cons.mp ha with e | hmem
    · subst e
      exact ⟨_, List.mem_cons_self _ _, hab⟩
    · obtain ⟨b, hb, hr⟩ := ih hmem
      exact ⟨b, List.mem_cons_of_mem _ hb, hr⟩

/-- A text of ASCII and white-space characters is lower-cased by folding its ASCII letters. -/
theorem lowered_of_ascii (cs : List Char) (outs : List (List Char))
    (h : List.Forall₂ LowerOf cs outs)
    (hall : ∀ c ∈ cs, c.toNat < 128 ∨ isJsWhitespace c = true) :
    outs.flatten = cs.map Char.toLower := by
  induction h with
  | nil => rfl
  | cons hc hrest ih =>
    rename_i c out rest routs
    have hout : out = [c.toLower] := by
      unfold LowerOf at hc
      by_cases hascii : c.toNat < 128
      · rwa [if_pos hascii] at hc
      · rw [if_neg hascii, if_pos ((hall c (by simp)).resolve_left hascii)] at hc
        rw [hc, toLower_of_not_ascii c hascii]
    rw [List.flatten_cons, ih (fun d hd => hall d (by simp [hd])), hout]
    rfl

theorem lowerCased_ascii (cs : List Char) (hall : ∀ c ∈ cs, c.toNat < 128) :
    LowerCased cs (cs.map Char.toLower) := by
  induction cs with
  | nil => exact lowerCased_nil
  | cons c rest ih =>
    exact lowerCased_append [c] [c.toLower] rest _
      (lowerCased_single c _ (lowerOf_toLower c (Or.inl (hall c (by simp)))))
      (ih (fun d hd => hall d (by simp [hd])))

/-- A field of the lower-cased header is a name written in ASCII lower case without the
letter k exactly when the field as written is that name up to the case of ASCII letters. -/
theorem fieldLowerCased_eq_iff (f g r : String) (h : FieldLowerCased f g)
    (hr : ∀ d ∈ r.data, d.toNat < 128 ∧ d ≠ 'k') : g = r ↔ asciiLower f = r := by
  obtain ⟨cur, low, ⟨outs, hF, hlow⟩, hf, hg⟩ := h
  by_cases hall : ∀ c ∈ cur, c.toNat < 128 ∨ isJsWhitespace c = true
  · have hlow2 : low = cur.map Char.toLower := by rw [hlow, lowered_of_ascii cur outs hF hall]
    have hgf : g = asciiLower f := by
      rw [hg, hf, hlow2, ← jsTrim_asciiLower]
      rfl
    rw [hgf]
  · have hex : ∃ c ∈ cur, ¬ c.toNat < 128 ∧ isJsWhitespace c = false := by
      by_contra hno
      apply hall
      intro c hc
      by_contra hcc
      apply hno
      refine ⟨c, hc, fun ha => hcc (Or.inl ha), ?_⟩
      cases hw : isJsWhitespace c with
      | false => rfl
      | true => exact absurd (Or.inr hw) hcc
    obtain ⟨c, hc, hascii, hw⟩ := hex
    have hleft : asciiLower f ≠ r := by
      intro e
      have hmem : c ∈ (asciiLower f).data := by
        rw [hf]
        show c ∈ (trimChars cur).map Char.toLower
        rw [List.mem_map]
        exact ⟨c, mem_trimChars c cur hc hw, toLower_of_not_ascii c hascii⟩
      rw [e] at hmem
      exact hascii (hr c hmem).1
    have hright : g ≠ r := by
      intro e
      obtain ⟨out, hout, hlo⟩ := forall2_mem_left _ _ _ hF c hc
      unfold LowerOf at hlo
      rw [if_neg hascii, if_neg (by rw [hw]; decide)] at hlo
      have hsub : ∀ d ∈ out, isJsWhitespace d = false → d ∈ r.data := by
        intro d hd hdw
        rw [← e, hg]
        show d ∈ trimChars low
        apply mem_trimChars d low _ hdw
        rw [hlow, List.mem_flatten]
        exact ⟨out, hout, hd⟩
      rcases hlo.2.2 with ⟨d, hd, hd1, hd2⟩ | hk
      · exact absurd (hr d (hsub d hd hd2)).1 (by omega)
      · exact (hr 'k' (hsub 'k' (by rw [hk]; simp) (by decide))).2 rfl
    exact ⟨fun e => absurd e hright, fun e => absurd e hleft⟩

theorem findIndex_forall2 (p q : String → Bool) (names rows : List String)
    (h : List.Forall₂ FieldLowerCased names rows)
    (hpq : ∀ n g, FieldLowerCased n g → q g = p n) :
    findIndex q rows = findIndex p names := by
  induction h with
  | nil => rfl
  | cons hab _ ih =>
    unfold findIndex
    rw [hpq _ _ hab, ih]

theorem toLowerCase_lowerCased (env : Env) (hhost : UnicodeLowerCase env) (s : String) :
    LowerCased s.data (toLowerCase env s).data := by
  unfold toLowerCase
  split_ifs with hall
  · exact lowerCased_ascii s.data (by simpa using hall)
  · exact hhost s

/-- The header row that `processData` works with holds, place by place, the lower-cased
forms of the names of the header line as written. -/
theorem headerRow_lowered (env : Env) (hhost : UnicodeLowerCase env) (csvText : String) :
    List.Forall₂ FieldLowerCased (headerNames csvText) (headerRow env csvText) := by
  obtain ⟨outs, hF, hlow⟩ := toLowerCase_lowerCased env hhost (headerLine csvText)
  unfold headerNames headerRow parseCSVLine
  rw [hlow]
  exact parseCSVLoop_lowered _ outs hF [] [] false false [] [] lowerCased_nil
    List.Forall₂.nil (by simp)

/-- The index that `processData` finds for a required name is the place of the first column
of the header line that has this name up to the case of ASCII letters. -/
theorem columnIndex_written (env : Env) (hhost : UnicodeLowerCase env) (csvText : String)
    (name r : String) (hname : asciiLower name = r)
    (hr : ∀ d ∈ r.data, d.toNat < 128 ∧ d ≠ 'k') :
    columnIndex [r] (headerRow env csvText) = firstColumn name (headerNames csvText) := by
  unfold columnIndex firstColumn
  apply findIndex_forall2 _ _ _ _ (headerRow_lowered env hhost csvText)
  intro n g hng
  have hiff := fieldLowerCased_eq_iff n g r hng hr
  have hcontains : [r].contains g = (g == r) := by
    simp only [List.contains, List.elem_cons, List.elem_nil, Bool.or_false]
    cases g == r <;> rfl
  rw [hname, hcontains, Bool.eq_iff_iff]
  simp only [beq_iff_eq]
  exact hiff

/-- The host `accentEnv` lower-cases within the Unicode case mappings. -/
theorem accentEnv_lowerCase : UnicodeLowerCase accentEnv := by
  intro s
  show LowerCased s.data
    (s.data.map (fun c => if c = Char.ofNat 201 then Char.ofNat 233 else c.toLower))
  induction s.data with
  | nil => exact lowerCased_nil
  | cons c rest ih =>
    refine lowerCased_append [c] [_] rest _ (lowerCased_single c _ ?_) ih
    dsimp only
    by_cases hc : c = Char.ofNat 201
    · subst hc
      decide
    · rw [if_neg hc]
      unfold LowerOf
      by_cases hascii : c.toNat < 128
      · rw [if_pos hascii]
      · rw [if_neg hascii, toLower_of_not_ascii c hascii]
        by_cases hw : isJsWhitespace c = true
        · rw [if_pos hw]
        · rw [if_neg hw]
          have hq : c ≠ '"' := by
            intro e
            rw [e] at hascii
            exact hascii (by decide)
          have hcm : c ≠ ',' := by
            intro e
            rw [e] at hascii
            exact hascii (by decide)
          refine ⟨by simpa using hcm.symm, by simpa using hq.symm, Or.inl ⟨c, by simp, ?_, ?_⟩⟩
          · omega
          · simpa using hw

/-- C15: for every header line whose column names include `User Email`, `Merchant`, `Date`
and `Transaction Amount`, each in any letter case, at any positions and among any other
names, written with any characters, `processData` accepts the file, and each record it stores
is read from a data line with its email, merchant, date and amount taken from the positions of
the first columns so named.  The header line is put in lower case by the host, within the
Unicode case mappings (`UnicodeLowerCase`), which make no other name one of the four. -/
theorem header_any_case_any_order (env : Env) (hhost : UnicodeLowerCase env)
    (csvText : String) (st : State)
    (he : ∃ name ∈ headerNames csvText, asciiLower name = asciiLower "User Email")
    (hm : ∃ name ∈ headerNames csvText, asciiLower name = asciiLower "Merchant")
    (hd : ∃ name ∈ headerNames csvText, asciiLower name = asciiLower "Date")
    (ha : ∃ name ∈ headerNames csvText, asciiLower name = asciiLower "Transaction Amount") :
    ∃ ie im id ia st1,
      firstColumn "User Email" (headerNames csvText) = some ie ∧
      firstColumn "Merchant" (headerNames csvText) = some im ∧
      firstColumn "Date" (headerNames csvText) = some id ∧
      firstColumn "Transaction Amount" (headerNames csvText) = some ia ∧
      (∀ p ∈ [("User Email", ie), ("Merchant", im), ("Date", id), ("Transaction Amount", ia)],
        ∃ n, (headerNames csvText).get? p.2 = some n ∧ asciiLower n = asciiLower p.1) ∧
      processData env csvText st = Except.ok st1 ∧
      st1.transactionData = rowsOfLines env ie im id ia (dataLines csvText) ∧
      (∀ t, t ∈ st1.transactionData ↔
        ∃ raw ∈ dataLines csvText, jsTrim raw ≠ "" ∧
          IsRecordOf env ie im id ia (jsTrim raw) t) := by
  obtain ⟨ie, hie, ne, hne, hle⟩ := firstColumn_of_mem _ _ he
  obtain ⟨im, him, nm, hnm, hlm⟩ := firstColumn_of_mem _ _ hm
  obtain ⟨id, hid, nd, hnd, hld⟩ := firstColumn_of_mem _ _ hd
  obtain ⟨ia, hia, na, hna, hla⟩ := firstColumn_of_mem _ _ ha
  have h1 : columnIndex ["user email"] (headerRow env csvText) = some ie := by
    rw [← hie]
    exact columnIndex_written env hhost csvText "User Email" "user email" rfl (by decide)
  have h2 : columnIndex ["merchant"] (headerRow env csvText) = some im := by
    rw [← him]
    exact columnIndex_written env hhost csvText "Merchant" "merchant" rfl (by decide)
  have h3 : columnIndex ["date"] (headerRow env csvText) = some id := by
    rw [← hid]
    exact columnIndex_written env hhost csvText "Date" "date" rfl (by decide)
  have h4 : columnIndex ["transaction amount"] (headerRow env csvText) = some ia := by
    rw [← hia]
    exact columnIndex_written env hhost csvText "Transaction Amount" "transaction amount" rfl
      (by decide)
  refine ⟨ie, im, id, ia, _, hie, him, hid, hia, ?_,
    processData_ok env csvText st ie im id ia h1 h2 h3 h4, rfl,
    fun t => mem_rowsOfLines env ie im id ia _ t⟩
  intro p hp
  simp only [List.mem_cons, List.mem_singleton, List.not_mem_nil, or_false] at hp
  rcases hp with h | h | h | h <;> subst h
  · exact ⟨ne, hne, hle⟩
  · exact ⟨nm, hnm, hlm⟩
  · exact ⟨nd, hnd, hld⟩
  · exact ⟨na, hna, hla⟩

/-- The rows of `accentCsv`, read at the positions its header gives. -/
theorem accent_rows : rowsOfLines accentEnv 5 4 1 2 (dataLines accentCsv) = shuffledRecords := by
  with_unfolding_all rfl

/-- The file `accentCsv` loads into one record. -/
theorem accent_load (st : State) :
    processData accentEnv accentCsv st = Except.ok { st with
      transactionData := shuffledRecords
      globalUserFirstVisit := (calculateFirstVisitDates shuffledRecords).1
      globalUserBusinessFirstVisit := (calculateFirstVisitDates shuffledRecords).2
      selectedBusiness := "all"
      selectedLocation := "all" } := by
  rw [processData_ok accentEnv accentCsv st 5 4 1 2 (by decide) (by decide) (by decide)
    (by decide), accent_rows]

theorem header_any_case_any_order_witness :
    UnicodeLowerCase accentEnv ∧
    headerNames accentCsv =
      ["CAFÉ", "DATE", "transaction AMOUNT", "Notes", "merchant", "USER EMAIL"] ∧
    headerRow accentEnv accentCsv =
      ["café", "date", "transaction amount", "notes", "merchant", "user email"] ∧
    (processData accentEnv accentCsv initialState).toOption.map (fun s => s.transactionData) =
      some shuffledRecords ∧
    ∃ ie im id ia st1,
      firstColumn "User Email" (headerNames accentCsv) = some ie ∧
      firstColumn "Merchant" (headerNames accentCsv) = some im ∧
      firstColumn "Date" (headerNames accentCsv) = some id ∧
      firstColumn "Transaction Amount" (headerNames accentCsv) = some ia ∧
      (∀ p ∈ [("User Email", ie), ("Merchant", im), ("Date", id), ("Transaction Amount", ia)],
        ∃ n, (headerNames accentCsv).get? p.2 = some n ∧ asciiLower n = asciiLower p.1) ∧
      processData accentEnv accentCsv initialState = Except.ok st1 ∧
      st1.transactionData = rowsOfLines accentEnv ie im id ia (dataLines accentCsv) ∧
      (∀ t, t ∈ st1.transactionData ↔
        ∃ raw ∈ dataLines accentCsv, jsTrim raw ≠ "" ∧
          IsRecordOf accentEnv ie im id ia (jsTrim raw) t) :=
  ⟨accentEnv_lowerCase, by decide, by decide, by rw [accent_load]; rfl,
   header_any_case_any_order accentEnv accentEnv_lowerCase accentCsv initialState
    (by decide) (by decide) (by decide) (by decide)⟩

end SgVendor
